import Mathlib

/-!
Moving-edges NURBS tracker (`vpMeNurbs.cpp`): shallow embedding.

The C++ `double` values are embedded as exact rationals (`ℚ`), C++ `int` values as `Int`.
Loops over the cursor list are embedded as fuel-driven recursions on an explicit
cursor state; undefined behaviour (a null dereference in the list) and exhausted fuel
are both `none`.
-/

set_option autoImplicit false

namespace VpMeNurbs

/-! ## Data model -/

/-- Image point with sub-pixel coordinates (`vpImagePoint`): row `i`, column `j`. -/
structure vpImagePoint where
  i : ℚ
  j : ℚ
deriving DecidableEq, Inhabited

/-- Squared euclidean distance of two image points (`vpImagePoint::sqrDistance`). -/
def vpImagePoint.sqrDistance (p q : vpImagePoint) : ℚ :=
  (p.i - q.i) * (p.i - q.i) + (p.j - q.j) * (p.j - q.j)

/-- The C++ conversion `(int)x` of a `double`: truncation toward zero. -/
def toInt (x : ℚ) : Int := if 0 ≤ x then ⌊x⌋ else ⌈x⌉

/-- Modelled from the spec: a Site (`vpMeSite`, declared outside the given sources) has a
position (float row/col `ifloat`, `jfloat` with the integer cache `i`, `j`), an orientation
angle `alpha`, a tracking status `suppress` (0 = OK, 4 = SUPPRESS_NEAR, other non-zero
values = lost), a confidence `convlt` and the sign `mask_sign`. -/
structure vpMeSite where
  i : Int
  j : Int
  ifloat : ℚ
  jfloat : ℚ
  alpha : ℚ
  convlt : ℚ
  mask_sign : Int
  suppress : Int
deriving DecidableEq

/-- The default-constructed Site: every field is zero. -/
instance : Inhabited vpMeSite := ⟨⟨0, 0, 0, 0, 0, 0, 0, 0⟩⟩

/-- Squared distance of the float positions of two Sites (`vpMeSite::sqrDistance`). -/
def vpMeSite.sqrDistance (s1 s2 : vpMeSite) : ℚ :=
  (s1.ifloat - s2.ifloat) * (s1.ifloat - s2.ifloat)
    + (s1.jfloat - s2.jfloat) * (s1.jfloat - s2.jfloat)

/-- Three-argument `vpMeSite::init(ip, jp, alphap)`: position and angle are set,
`mask_sign` becomes 1, `convlt` and `suppress` keep their old value. -/
def vpMeSite.init3 (s : vpMeSite) (ip jp alphap : ℚ) : vpMeSite :=
  { s with ifloat := ip, i := toInt ip, jfloat := jp, j := toInt jp, alpha := alphap,
           mask_sign := 1 }

/-- Four-argument `vpMeSite::init(ip, jp, alphap, convltp)`. -/
def vpMeSite.init4 (s : vpMeSite) (ip jp alphap convltp : ℚ) : vpMeSite :=
  { s with ifloat := ip, i := toInt ip, jfloat := jp, j := toInt jp, alpha := alphap,
           convlt := convltp, mask_sign := 1 }

/-- Five-argument `vpMeSite::init(ip, jp, alphap, convltp, sign)`. -/
def vpMeSite.init5 (s : vpMeSite) (ip jp alphap convltp : ℚ) (sign : Int) : vpMeSite :=
  { s with ifloat := ip, i := toInt ip, jfloat := jp, j := toInt jp, alpha := alphap,
           convlt := convltp, mask_sign := sign }

/-- Modelled from the spec: the hand-rolled cursor-based linked list (`vpList<T>`, declared
outside the given sources). The list owns two sentinel nodes around its elements and one
cursor. `cur = 0` is the head sentinel, `cur = k` with `1 ≤ k ≤ length` is the `k`-th
element, `cur = length + 1` is the tail sentinel. Sentinels hold a default-constructed
value. -/
structure vpList (α : Type) where
  elems : List α
  cur : Nat

namespace vpList

variable {α : Type}

/-- Cursor on the first element (`cur = first->next`); on the tail sentinel when empty. -/
def front (l : vpList α) : vpList α := { l with cur := 1 }

/-- Cursor on the last element (`cur = last->prev`); on the head sentinel when empty. -/
def end_ (l : vpList α) : vpList α := { l with cur := l.elems.length }

/-- The cursor is on a sentinel. -/
def outside (l : vpList α) : Bool := l.cur == 0 || l.cur == l.elems.length + 1

/-- The next node is the tail sentinel, i.e. the cursor is on the last element. -/
def nextOutside (l : vpList α) : Bool := l.cur == l.elems.length

/-- Move the cursor to the next node; the tail sentinel has no next node. -/
def next (l : vpList α) : Option (vpList α) :=
  if l.cur ≤ l.elems.length then some { l with cur := l.cur + 1 } else none

/-- Move the cursor to the previous node; the head sentinel has no previous node. -/
def previous (l : vpList α) : Option (vpList α) :=
  if 1 ≤ l.cur then some { l with cur := l.cur - 1 } else none

/-- Value of the node at position `k` (a sentinel holds the default value). -/
def valueAt [Inhabited α] (l : vpList α) (k : Nat) : α :=
  if k = 0 then default else l.elems.getD (k - 1) default

/-- Value under the cursor. -/
def value [Inhabited α] (l : vpList α) : α := l.valueAt l.cur

/-- Value of the node after the cursor; undefined on the tail sentinel. -/
def nextValue [Inhabited α] (l : vpList α) : Option α :=
  if l.cur ≤ l.elems.length then some (l.valueAt (l.cur + 1)) else none

/-- Value of the first node after the head sentinel. -/
def firstValue [Inhabited α] (l : vpList α) : α := l.valueAt 1

/-- Value of the node before the tail sentinel. -/
def lastValue [Inhabited α] (l : vpList α) : α := l.valueAt l.elems.length

/-- Overwrite the value under the cursor; the model leaves sentinels untouched. -/
def modify (l : vpList α) (v : α) : Option (vpList α) :=
  if 1 ≤ l.cur ∧ l.cur ≤ l.elems.length then
    some { l with elems := l.elems.set (l.cur - 1) v }
  else none

/-- Unlink the node under the cursor; the cursor moves to the following node.
Undefined on a sentinel. -/
def suppress (l : vpList α) : Option (vpList α) :=
  if 1 ≤ l.cur ∧ l.cur ≤ l.elems.length then
    some { l with elems := l.elems.eraseIdx (l.cur - 1) }
  else none

/-- Insert right after the cursor, the new node becomes the current one. On an empty
list the cursor is first put on the head sentinel. Undefined on the tail sentinel. -/
def addRight (l : vpList α) (v : α) : Option (vpList α) :=
  let c := if l.elems.isEmpty then 0 else l.cur
  if c ≤ l.elems.length then
    some { elems := l.elems.take c ++ v :: l.elems.drop c, cur := c + 1 }
  else none

/-- Insert right before the cursor, the new node becomes the current one. On an empty
list the cursor is first put on the tail sentinel. Undefined on the head sentinel. -/
def addLeft (l : vpList α) (v : α) : Option (vpList α) :=
  let c := if l.elems.isEmpty then 1 else l.cur
  if 1 ≤ c ∧ c ≤ l.elems.length + 1 then
    some { elems := l.elems.take (c - 1) ++ v :: l.elems.drop (c - 1), cur := c }
  else none

/-- Remove every element (`kill`). -/
def kill (_l : vpList α) : vpList α := { elems := [], cur := 0 }

end vpList

/-- Modelled from the spec: the configuration (`vpMe`, declared outside the given sources):
sample step, number of points to track, search range, mask size and angular resolution,
and the table of convolution masks `mask[index][a][b]`. -/
structure vpMe where
  sample_step : ℚ
  points_to_track : Int
  range : Int
  mask_size : Int
  strip : Int
  anglestep : Int
  mask : Int → Int → Int → ℚ

/-- Modelled from the spec: the Curve geometry library (`vpNurbs`, declared outside the
given sources): `computeCurvePoint(u)` gives the point of parameter `u`,
`computeCurveDersPoint(u, 1)` the point and the first derivative. -/
structure vpNurbs where
  computeCurvePoint : ℚ → vpImagePoint
  computeCurveDersPoint : ℚ → vpImagePoint × vpImagePoint

/-- Modelled from the spec: the image accessor (`vpImage<unsigned char>`, declared outside
the given sources): height, width and the pixel lookup `I(i, j)`. A lookup outside
`rows × cols` reads whatever the memory holds, which `pix` gives as well. -/
structure vpImage where
  rows : Nat
  cols : Nat
  pix : Nat → Nat → Nat

/-- Modelled from the spec: the external collaborators, whose code is outside the given
sources. `track` is the per-site tracker `vpMeSite::track(I, me, false)`, `initTracking`
is `vpMeTracker::initTracking(I)` (`none` when it fails), `atan2`, `cos`, `sin` are the
functions of the C library, `sign` is `vpMath::sign`, `canny I topLeft th1 th2` is the
binary edge map of the 32×32 window of top-left corner `topLeft` (`createSubImage`
followed by `cvCanny`), `inRectangle iP topLeft` tells whether `iP` is inside that
window. `outOfImage iP half rows cols` is the in-bounds test with border margin
`vpMeTracker::outOfImage(iP, half, rows, cols)` of the base class: inside the member
functions `sample` and `localReSample` the call `outOfImage(pt, 0, rows, cols)` is a call
of this inherited member, which hides the file-static function of the same name. -/
structure Ext where
  track : vpImage → vpMe → vpMeSite → vpMeSite
  initTracking : vpImage → vpMe → vpList vpMeSite → Option (vpList vpMeSite)
  atan2 : ℚ → ℚ → ℚ
  cos : ℚ → ℚ
  sin : ℚ → ℚ
  sign : ℚ → Int
  canny : vpImage → vpImagePoint → ℚ → ℚ → vpImage
  inRectangle : vpImagePoint → vpImagePoint → Bool
  outOfImage : vpImagePoint → Int → Int → Int → Bool

/-- State of a tracker instance (`vpMeNurbs`): the Site List, the configuration it points
to, the Curve, the Curve length `dist` computed by `track`, and the two failure
counters. -/
structure vpMeNurbs where
  list : vpList vpMeSite
  me : vpMe
  nurbs : vpNurbs
  dist : ℚ
  beginPtFound : Int
  endPtFound : Int
  cannyTh1 : ℚ
  cannyTh2 : ℚ

/-- Embedding of `vpMath::sqr`. -/
def sqr (x : ℚ) : ℚ := x * x

/-! ## Suppression pass -/

/-- The assignment `s.suppress = 4` (status SUPPRESS_NEAR). -/
def markNear (s : vpMeSite) : vpMeSite := { s with suppress := 4 }

/-- Loop of `vpMeNurbs::suppressPoints`: erase the Site under the cursor when its
status is not 0, else step to the next one, until the cursor is outside. -/
def suppressPointsLoop : Nat → vpList vpMeSite → Option (vpList vpMeSite)
  | 0, _ => none
  | fuel + 1, l =>
    if l.outside then some l
    else
      let s := l.value
      if s.suppress ≠ 0 then (l.suppress).bind (suppressPointsLoop fuel)
      else (l.next).bind (suppressPointsLoop fuel)

/-- Embedding of `vpMeNurbs::suppressPoints`. -/
def suppressPoints (l : vpList vpMeSite) : Option (vpList vpMeSite) :=
  suppressPointsLoop (l.elems.length + 1) l.front

/-- Loop of `vpMeNurbs::supressNearPoints`: when the Site under the cursor and the next
one are closer than `sample_step`, the next one gets status 4 and the cursor moves on it,
and one further when it is not the last. -/
def supressNearPointsLoop (me : vpMe) : Nat → vpList vpMeSite → Option (vpList vpMeSite)
  | 0, _ => none
  | fuel + 1, l =>
    if l.nextOutside then some l
    else
      let s := l.value
      (l.nextValue).bind fun s_next =>
      if vpMeSite.sqrDistance s s_next < sqr me.sample_step then
        let s_next := markNear s_next
        (l.next).bind fun l1 =>
        (l1.modify s_next).bind fun l2 =>
        if !l2.nextOutside then (l2.next).bind (supressNearPointsLoop me fuel)
        else supressNearPointsLoop me fuel l2
      else (l.next).bind (supressNearPointsLoop me fuel)

/-- Embedding of `vpMeNurbs::supressNearPoints`. -/
def supressNearPoints (me : vpMe) (l : vpList vpMeSite) : Option (vpList vpMeSite) :=
  supressNearPointsLoop me (l.elems.length + 1) l.front

/-- The Suppression Pass of `vpMeNurbs::track`: `supressNearPoints()` then
`suppressPoints()`. -/
def suppressionPass (me : vpMe) (l : vpList vpMeSite) : Option (vpList vpMeSite) :=
  (supressNearPoints me l).bind suppressPoints

/-! ## Sampler -/

/-- The constant `M_PI` of the C library: the `double` nearest to π. -/
def M_PI : ℚ := 884279719003555 / 281474976710656

/-- The loop `while (x > M_PI) { x -= M_PI ; }`. -/
def subPiLoop : Nat → ℚ → Option ℚ
  | 0, _ => none
  | fuel + 1, x => if x > M_PI then subPiLoop fuel (x - M_PI) else some x

/-- The loop `while (x < 0) { x += M_PI ; }`. -/
def addPiLoop : Nat → ℚ → Option ℚ
  | 0, _ => none
  | fuel + 1, x => if x < 0 then addPiLoop fuel (x + M_PI) else some x

/-- The two normalisation loops, one after the other; the fuel is the number of turns
each loop can need. -/
def normalizeAngle (x : ℚ) : Option ℚ :=
  (subPiLoop (⌈x / M_PI⌉.toNat + 1) x).bind fun y =>
    addPiLoop (⌈-y / M_PI⌉.toNat + 1) y

/-- Embedding of `computeDelta(deltai, deltaj)`: `atan2(deltai, deltaj) - M_PI/2`, normalised. -/
def computeDelta (ext : Ext) (deltai deltaj : ℚ) : Option ℚ :=
  normalizeAngle (ext.atan2 deltai deltaj - M_PI / 2)

/-- The file-static `outOfImage(iP, half, rows, cols)`, the test that the non-member
function `findAngle` calls. -/
def outOfImage (iP : vpImagePoint) (half rows cols : Int) : Bool :=
  decide (iP.i < ((half + 1 : Int) : ℚ)) || decide (iP.i > ((rows - half - 3 : Int) : ℚ))
    || decide (iP.j < ((half + 1 : Int) : ℚ)) || decide (iP.j > ((cols - half - 3 : Int) : ℚ))

/-- Loop of `vpMeNurbs::sample`: `while (u <= 1.0)`. The test `outOfImage(pt[0], 0, rows,
cols)` of the loop body is the inherited member, the field `outOfImage` of `ext`. -/
def sampleLoop (ext : Ext) (I : vpImage) (me : vpMe) (nurbs : vpNurbs) (step : ℚ) :
    Nat → ℚ → vpImagePoint → vpList vpMeSite → Option (vpList vpMeSite)
  | 0, _, _, _ => none
  | fuel + 1, u, pt_1, list =>
    if u ≤ 1 then
      let pt := nurbs.computeCurveDersPoint u
      (computeDelta ext pt.2.i pt.2.j).bind fun delta =>
      if !ext.outOfImage pt.1 0 I.rows I.cols
          && decide (vpImagePoint.sqrDistance pt.1 pt_1 ≥ sqr me.sample_step) then
        let pix := (default : vpMeSite).init3 pt.1.i pt.1.j delta
        (list.addRight pix).bind fun list1 =>
        sampleLoop ext I me nurbs step fuel (u + step) pt.1 list1
      else sampleLoop ext I me nurbs step fuel (u + step) pt_1 list
    else some list

/-- Embedding of `vpMeNurbs::sample`: the old list is killed, then the Curve is walked from `u = 0`
with the step `1.0 / points_to_track`. A negative `points_to_track` makes `u` decrease
for ever (`none`); for `points_to_track = 0` the C++ step is `+∞` and the body runs once,
which any step above 1 gives as well. -/
def sample (ext : Ext) (I : vpImage) (st : vpMeNurbs) : Option (vpList vpMeSite) :=
  let p := st.me.points_to_track
  if p < 0 then none
  else
    let step : ℚ := if p = 0 then 2 else 1 / (p : ℚ)
    sampleLoop ext I st.me st.nurbs step (p.toNat + 2) 0
      ⟨((-(I.rows : Int) : Int) : ℚ), ((-(I.cols : Int) : Int) : ℚ)⟩ st.list.front.kill

/-! ## Global resample guard -/

/-- Modelled from the spec: the live Site count `vpMeTracker::numberOfSignal()` (outside the
given sources): the number of Sites whose status is 0. -/
def numberOfSignal (l : vpList vpMeSite) : Int :=
  ((l.elems.filter fun s => s.suppress == 0).length : Int)

/-- The test `(double)n < 0.7*nbPt` with `nbPt = floor(dist / sample_step)`. For
`sample_step = 0` the C++ quotient is `+∞` when `dist > 0` (the test holds) and not a
number or `-∞` otherwise (the test fails). -/
def reSampleTest (n : Int) (dist sample_step : ℚ) : Bool :=
  if sample_step = 0 then decide (0 < dist)
  else decide ((n : ℚ) < 7 / 10 * ((⌊dist / sample_step⌋ : Int) : ℚ))

/-- Embedding of `vpMeNurbs::reSample`. Counting the live Sites leaves the cursor on the tail
sentinel. -/
def reSample (ext : Ext) (I : vpImage) (st : vpMeNurbs) : Option vpMeNurbs :=
  let n := numberOfSignal st.list
  let st1 := { st with list := { st.list with cur := st.list.elems.length + 1 } }
  if reSampleTest n st.dist st.me.sample_step then
    (sample ext I st1).bind fun l =>
    (ext.initTracking I st.me l).map fun l1 => { st1 with list := l1 }
  else some st1

/-! ## Local resampler -/

/-- The parameter scan of `localReSample`: `while (u < 1) { u += 0.01; ... }` keeps in
`ubegin` and `uend` the first parameter of least squared distance to `iP0` and to
`iPend`. -/
def paramScanLoop (nurbs : vpNurbs) (iP0 iPend : vpImagePoint) :
    Nat → ℚ → ℚ → ℚ → ℚ → ℚ → Option (ℚ × ℚ)
  | 0, _, _, _, _, _ => none
  | fuel + 1, u, ubegin, uend, dmin1_1, dmin2_1 =>
    if u < 1 then
      let u := u + 1 / 100
      let dmin1 := vpImagePoint.sqrDistance (nurbs.computeCurvePoint u) iP0
      let dmin2 := vpImagePoint.sqrDistance (nurbs.computeCurvePoint u) iPend
      let b := if dmin1 < dmin1_1 then (dmin1, u) else (dmin1_1, ubegin)
      let e := if dmin2 < dmin2_1 then (dmin2, u) else (dmin2_1, uend)
      paramScanLoop nurbs iP0 iPend fuel u b.2 e.2 b.1 e.1
    else some (ubegin, uend)

/-- The insertion walk of `localReSample`:
`while (sqrDistance(iP[0], iPend) > sqr(sample_step) && u < uend)`. `iP` is the Curve
point of the current `u`, `iP_1` the last accepted point. The test `outOfImage(iP[0], 0,
rows, cols)` of the loop body is the inherited member, the field `outOfImage` of `ext`. -/
def fillLoop (ext : Ext) (I : vpImage) (me : vpMe) (nurbs : vpNurbs) (iPend : vpImagePoint)
    (uend : ℚ) : Nat → ℚ → vpImagePoint → vpImagePoint → vpList vpMeSite →
    Option (vpList vpMeSite)
  | 0, _, _, _, _ => none
  | fuel + 1, u, iP, iP_1, list =>
    if vpImagePoint.sqrDistance iP iPend > sqr me.sample_step ∧ u < uend then
      let u := u + 1 / 100
      let d := nurbs.computeCurveDersPoint u
      if decide (vpImagePoint.sqrDistance d.1 iP_1 > sqr me.sample_step)
          && !ext.outOfImage d.1 0 I.rows I.cols then
        (computeDelta ext d.2.i d.2.j).bind fun delta =>
        let pix := ext.track I me ((default : vpMeSite).init3 d.1.i d.1.j delta)
        if pix.suppress = 0 then
          (list.addRight pix).bind fun list1 =>
          fillLoop ext I me nurbs iPend uend fuel u d.1 d.1 list1
        else fillLoop ext I me nurbs iPend uend fuel u d.1 iP_1 list
      else fillLoop ext I me nurbs iPend uend fuel u d.1 iP_1 list
    else some list

/-- The test of `localReSample` on the squared distance `d` of a consecutive pair:
`d > 4 * vpMath::sqr(me->sample_step) && d < 1600`. -/
def gapSelected (me : vpMe) (s s_next : vpMeSite) : Bool :=
  decide (vpMeSite.sqrDistance s s_next > 4 * sqr me.sample_step)
    && decide (vpMeSite.sqrDistance s s_next < 1600)

/-- Body of the `if` of `localReSample` for the pair under the cursor. -/
def gapFill (ext : Ext) (I : vpImage) (me : vpMe) (nurbs : vpNurbs) (s s_next : vpMeSite)
    (list : vpList vpMeSite) : Option (vpList vpMeSite) :=
  let iP0 : vpImagePoint := ⟨s.ifloat, s.jfloat⟩
  let iPend : vpImagePoint := ⟨s_next.ifloat, s_next.jfloat⟩
  let iP_1 : vpImagePoint := ⟨s.ifloat, s.jfloat⟩
  (paramScanLoop nurbs iP0 iPend 101 0 0 0 1000000 1000000).bind fun (ubegin, uend) =>
  let u := ubegin
  if u ≠ 1 ∨ uend ≠ 1 then
    let iP := nurbs.computeCurveDersPoint u
    fillLoop ext I me nurbs iPend uend (⌈(uend - u) * 100⌉.toNat + 1) u iP.1 iP_1 list
  else some list

/-- Loop of `localReSample`: `while (!list.nextOutside() && n <= me->points_to_track)`. -/
def localReSampleLoop (ext : Ext) (I : vpImage) (me : vpMe) (nurbs : vpNurbs) (n : Int) :
    Nat → vpList vpMeSite → Option (vpList vpMeSite)
  | 0, _ => none
  | fuel + 1, list =>
    if !list.nextOutside && decide (n ≤ me.points_to_track) then
      let s := list.value
      (list.nextValue).bind fun s_next =>
      (if gapSelected me s s_next then gapFill ext I me nurbs s s_next list
       else some list).bind fun list1 =>
      (list1.next).bind (localReSampleLoop ext I me nurbs n fuel)
    else some list

/-- Embedding of `vpMeNurbs::localReSample`: the search range is 2 during the loop and restored
after it. -/
def localReSample (ext : Ext) (I : vpImage) (st : vpMeNurbs) : Option vpMeNurbs :=
  let n := numberOfSignal st.list
  let range_tmp := st.me.range
  let me2 := { st.me with range := 2 }
  (localReSampleLoop ext I me2 st.nurbs n (st.list.elems.length + 1) st.list.front).map
    fun l => { st with list := l, me := { me2 with range := range_tmp } }

/-! ## Extremity extender -/

/-- The test `vpImagePoint::distance(p, q) > t` (the distance is the square root of
`sqrDistance`), in exact arithmetic. -/
def distanceGt (p q : vpImagePoint) (t : ℚ) : Bool :=
  decide (t < 0) || decide (vpImagePoint.sqrDistance p q > t * t)

/-- The test `vpImagePoint::distance(p, q) < t`, in exact arithmetic. -/
def distanceLt (p q : vpImagePoint) (t : ℚ) : Bool :=
  decide (0 < t) && decide (vpImagePoint.sqrDistance p q < t * t)

/-- Modelled from the spec: the in-bounds test with border margin on integer coordinates,
`vpMeTracker::outOfImage(i, j, half, rows, cols)` (outside the given sources), the same
test as the static `outOfImage`. -/
def outOfImageInt (i j half rows cols : Int) : Bool :=
  decide (i < half + 1) || decide (i > rows - half - 3)
    || decide (j < half + 1) || decide (j > cols - half - 3)

/-- The assignments `P.ifloat = x ; P.i = (int)P.ifloat ; P.jfloat = y ; P.j = (int)P.jfloat`. -/
def vpMeSite.setPos (P : vpMeSite) (x y : ℚ) : vpMeSite :=
  { P with ifloat := x, i := toInt x, jfloat := y, j := toInt y }

/-- First `for` loop of `seekExtremities` (`k` turns left): step back from the `u = 0`
end, track the candidate, splice it at the head when its status is 0. Gives the
candidate, the list and `beginPtAdded`. -/
def seekBeginLoop (ext : Ext) (I : vpImage) (me : vpMe) (end0 : vpImagePoint)
    (si co sample threshold : ℚ) :
    Nat → vpMeSite → vpList vpMeSite → Bool → Option (vpMeSite × vpList vpMeSite × Bool)
  | 0, P, list, added => some (P, list, added)
  | k + 1, P, list, added =>
    let P := P.setPos (P.ifloat - si * sample) (P.jfloat - co * sample)
    let pt : vpImagePoint := ⟨P.ifloat, P.jfloat⟩
    if distanceLt end0 pt threshold then some (P, list, added)
    else if !outOfImageInt P.i P.j 5 I.rows I.cols then
      let P := ext.track I me P
      if P.suppress = 0 then
        (list.front.addLeft P).bind fun list1 =>
        seekBeginLoop ext I me end0 si co sample threshold k P list1 true
      else seekBeginLoop ext I me end0 si co sample threshold k P list added
    else seekBeginLoop ext I me end0 si co sample threshold k P list added

/-- Second `for` loop of `seekExtremities`: step forward from the `u = 1` end, splice
the tracked candidate at the tail when its status is 0. -/
def seekEndLoop (ext : Ext) (I : vpImage) (me : vpMe) (begin0 : vpImagePoint)
    (si co sample threshold : ℚ) :
    Nat → vpMeSite → vpList vpMeSite → Bool → Option (vpMeSite × vpList vpMeSite × Bool)
  | 0, P, list, added => some (P, list, added)
  | k + 1, P, list, added =>
    let P := P.setPos (P.ifloat + si * sample) (P.jfloat + co * sample)
    let pt : vpImagePoint := ⟨P.ifloat, P.jfloat⟩
    if distanceLt begin0 pt threshold then some (P, list, added)
    else if !outOfImageInt P.i P.j 5 I.rows I.cols then
      let P := ext.track I me P
      if P.suppress = 0 then
        (list.end_.addRight P).bind fun list1 =>
        seekEndLoop ext I me begin0 si co sample threshold k P list1 true
      else seekEndLoop ext I me begin0 si co sample threshold k P list added
    else seekEndLoop ext I me begin0 si co sample threshold k P list added

/-- Embedding of `vpMeNurbs::seekExtremities`. -/
def seekExtremities (ext : Ext) (I : vpImage) (st : vpMeNurbs) : Option vpMeNurbs :=
  let begin_ := st.nurbs.computeCurveDersPoint 0
  let end_ := st.nurbs.computeCurveDersPoint 1
  let threshold := 3 * st.me.sample_step
  let sample := st.me.sample_step
  if distanceGt begin_.1 end_.1 threshold then
    let P := (default : vpMeSite).init5 begin_.1.i begin_.1.j st.list.firstValue.alpha 0
      st.list.firstValue.mask_sign
    let memory_range := st.me.range
    let me2 := { st.me with range := 2 }
    let angle := ext.atan2 begin_.2.i begin_.2.j
    let co := |ext.cos angle| * (ext.sign begin_.2.j : ℚ)
    let si := |ext.sin angle| * (ext.sign begin_.2.i : ℚ)
    (seekBeginLoop ext I me2 end_.1 si co sample threshold 3 P st.list false).bind
      fun (P1, list1, beginPtAdded) =>
    let beginPtFound := if !beginPtAdded then st.beginPtFound + 1 else st.beginPtFound
    let P := P1.init5 end_.1.i end_.1.j list1.lastValue.alpha 0 list1.lastValue.mask_sign
    let angle := ext.atan2 end_.2.i end_.2.j
    let co := |ext.cos angle| * (ext.sign end_.2.j : ℚ)
    let si := |ext.sin angle| * (ext.sign end_.2.i : ℚ)
    (seekEndLoop ext I me2 begin_.1 si co sample threshold 3 P list1 false).bind
      fun (_, list2, endPtAdded) =>
    let endPtFound := if !endPtAdded then st.endPtFound + 1 else st.endPtFound
    some { st with list := list2, me := { me2 with range := memory_range },
                   beginPtFound := beginPtFound, endPtFound := endPtFound }
  else
    (st.list.front.suppress).map fun l => { st with list := l }

/-! ## Contour recovery -/

/-- Ways in which a call does not return normally: the exception
`vpException::divideByZeroError`, undefined behaviour, a loop that never ends. -/
inductive Err where
  | divideByZeroError
  | undefined
  | diverges
deriving DecidableEq

/-- A list operation that is undefined makes the call undefined. -/
def orUndefined {α : Type} : Option α → Except Err α
  | some a => .ok a
  | none => .error Err.undefined

/-- A loop that ran out of fuel never ends. -/
def orDiverges {α : Type} : Option α → Except Err α
  | some a => .ok a
  | none => .error Err.diverges

/-- Embedding of `operator+` of `vpImagePoint`. -/
def vpImagePoint.add (p q : vpImagePoint) : vpImagePoint := ⟨p.i + q.i, p.j + q.j⟩

/-- Embedding of `operator-` of `vpImagePoint`. -/
def vpImagePoint.sub (p q : vpImagePoint) : vpImagePoint := ⟨p.i - q.i, p.j - q.j⟩

/-- Embedding of `vpMeNurbs::farFromImageEdge`. -/
def farFromImageEdge (I : vpImage) (iP : vpImagePoint) : Bool :=
  decide (iP.i < (((I.rows : Int) - 20 : Int) : ℚ))
    && decide (iP.j < (((I.cols : Int) - 20 : Int) : ℚ))
    && decide (iP.i > 20) && decide (iP.j > 20)

/-- Body of the two nested `for` loops of `findFirstBorder` at `(i, j)`; `acc` is
`(dist_1, index)`. -/
def findFirstBorderStep (Isub : vpImage) (iP : vpImagePoint) (acc : ℚ × vpImagePoint)
    (i j : Nat) : ℚ × vpImagePoint :=
  if i = 0 ∨ (i : Int) = (Isub.rows : Int) - 1 ∨ j = 0 ∨ (j : Int) = (Isub.cols : Int) - 1 then
    if Isub.pix i j > 0 then
      let dist := vpImagePoint.sqrDistance iP ⟨(i : ℚ), (j : ℚ)⟩
      if dist ≤ 16 ∧ dist < acc.1 then (dist, ⟨(i : ℚ), (j : ℚ)⟩) else acc
    else acc
  else acc

/-- Embedding of `findFirstBorder(Isub, iP)`: `i` runs over `0 .. rows` and `j` over `0 .. cols`, both
bounds included as in the source. -/
def findFirstBorder (Isub : vpImage) (iP : vpImagePoint) : vpImagePoint :=
  ((List.range (Isub.rows + 1)).foldl
    (fun acc i => (List.range (Isub.cols + 1)).foldl
      (fun acc j => findFirstBorderStep Isub iP acc i j) acc)
    ((1000000 : ℚ), (⟨-1, -1⟩ : vpImagePoint))).2

/-- Embedding of `findCenterPoint`: some point of the list is within squared distance 16 of `(15,15)`.
The list of traced points is only appended to and read front to back, it is embedded as
a plain list. -/
def findCenterPoint : List vpImagePoint → Bool
  | [] => false
  | iP :: rest =>
    if vpImagePoint.sqrDistance iP ⟨15, 15⟩ ≤ 16 then true else findCenterPoint rest

/-- Embedding of `vpMeNurbs::computeFreemanParameters(element, diP)`: `diP` is left as it is for an
element above 7. -/
def computeFreemanParameters (element : Nat) (diP : vpImagePoint) : vpImagePoint :=
  match element with
  | 0 => ⟨0, 1⟩
  | 1 => ⟨1, 1⟩
  | 2 => ⟨1, 0⟩
  | 3 => ⟨1, -1⟩
  | 4 => ⟨0, -1⟩
  | 5 => ⟨-1, -1⟩
  | 6 => ⟨-1, 0⟩
  | 7 => ⟨-1, 1⟩
  | _ => diP

/-- Embedding of `vpMeNurbs::isInImage`. -/
def isInImage (I : vpImage) (iP : vpImagePoint) : Bool :=
  decide (iP.i ≥ 0) && decide (iP.j ≥ 0) && decide (iP.i < (I.rows : ℚ))
    && decide (iP.j < (I.cols : ℚ))

/-- Modelled from the spec: `vpMath::round` (outside the given sources), the nearest
integer. -/
def vpMathRound (x : ℚ) : Int := if x > 0 then ⌊x + 1 / 2⌋ else ⌈x - 1 / 2⌉

/-- Embedding of `vpMeNurbs::hasGoodLevel`. -/
def hasGoodLevel (I : vpImage) (iP : vpImagePoint) : Bool :=
  if !isInImage I iP then false
  else if I.pix (vpMathRound iP.i).toNat (vpMathRound iP.j).toNat > 0 then true
  else false

/-- Embedding of `vpMeNurbs::computeFreemanChainElement(I, iP, element)`: the returned flag and the
value of `element` after the call. -/
def computeFreemanChainElement (I : vpImage) (iP : vpImagePoint) (element : Nat) :
    Bool × Nat :=
  if hasGoodLevel I iP then
    if hasGoodLevel I (iP.add (computeFreemanParameters ((element + 2) % 8) default)) then
      (true, (element + 2) % 8)
    else if hasGoodLevel I (iP.add (computeFreemanParameters ((element + 1) % 8) default)) then
      (true, (element + 1) % 8)
    else if hasGoodLevel I (iP.add (computeFreemanParameters element default)) then
      (true, element)
    else if hasGoodLevel I (iP.add (computeFreemanParameters ((element + 7) % 8) default)) then
      (true, (element + 7) % 8)
    else if hasGoodLevel I (iP.add (computeFreemanParameters ((element + 6) % 8) default)) then
      (true, (element + 6) % 8)
    else if hasGoodLevel I (iP.add (computeFreemanParameters ((element + 5) % 8) default)) then
      (true, (element + 5) % 8)
    else if hasGoodLevel I (iP.add (computeFreemanParameters ((element + 4) % 8) default)) then
      (true, (element + 4) % 8)
    else if hasGoodLevel I (iP.add (computeFreemanParameters ((element + 3) % 8) default)) then
      (true, (element + 3) % 8)
    else (false, element)
  else (false, element)

/-- The `do ... while` loop of the chain-code trace: `acc` is `ip_edges_list`. -/
def traceLoop (Isub : vpImage) (firstBorder : vpImagePoint) (firstDir : Nat) :
    Nat → vpImagePoint → Nat → vpImagePoint → List vpImagePoint →
    Option (List vpImagePoint)
  | 0, _, _, _, _ => none
  | fuel + 1, border, dir, dBorder, acc =>
    let dBorder := computeFreemanParameters dir dBorder
    let border := border.add dBorder
    let acc := acc ++ [border]
    let dir := (computeFreemanChainElement Isub border dir).2
    if (border ≠ firstBorder ∨ dir ≠ firstDir) ∧ isInImage Isub border = true then
      traceLoop Isub firstBorder firstDir fuel border dir dBorder acc
    else some acc

/-- The chain-code trace of `seekExtremitiesCanny` from the seed `firstBorder`: the
traced points `ip_edges_list` (empty without a seed). The trace visits at most
`8 · rows · cols` states inside the window before it repeats one, which bounds the fuel
of a loop that ends. -/
def traceContour (Isub : vpImage) (firstBorder : vpImagePoint) :
    Except Err (List vpImagePoint) :=
  if firstBorder ≠ ⟨-1, -1⟩ then
    (if firstBorder.i = 0 then Except.ok 4
     else if firstBorder.i = ((Isub.rows : Int) - 1 : Int) then Except.ok 0
     else if firstBorder.j = 0 then Except.ok 2
     else if firstBorder.j = ((Isub.cols : Int) - 1 : Int) then Except.ok 6
     else Except.error Err.undefined).bind fun (dir : Nat) =>
    let dir := (computeFreemanChainElement Isub firstBorder dir).2
    orDiverges (traceLoop Isub firstBorder dir (8 * Isub.rows * Isub.cols + 2)
      firstBorder dir default [firstBorder])
  else Except.ok []

/-- Modelled from the spec: `vpMath::rad` (outside the given sources), degrees to
radians. -/
def vpMathRad (deg : ℚ) : ℚ := deg * M_PI / 180

/-- The convolution of `findAngle` for the direction `i`, before `fabs`; the exception
is thrown for `anglestep = 0` when the point is not `outOfImage`. -/
def findAngleConv (I : vpImage) (iP : vpImagePoint) (me : vpMe) (i : Nat) : Except Err ℚ :=
  let half : Int := (me.mask_size - 1) >>> 1
  if outOfImage iP (half + me.strip) I.rows I.cols then Except.ok 0
  else if me.anglestep ≠ 0 then
    let index_mask := toInt ((i : ℚ) / (me.anglestep : ℚ))
    let ihalf := toInt (iP.i - (half : ℚ))
    let jhalf := toInt (iP.j - (half : ℚ))
    Except.ok ((List.range me.mask_size.toNat).foldl (fun conv a =>
      (List.range me.mask_size.toNat).foldl (fun conv b =>
        conv + me.mask index_mask a b * (I.pix (ihalf + a).toNat (jhalf + b).toNat : ℚ))
        conv) 0)
  else Except.error Err.divideByZeroError

/-- The `for (int i = 0; i < 180; i++)` loop of `findAngle`, `n` turns left. -/
def findAngleLoop (I : vpImage) (iP : vpImagePoint) (me : vpMe) :
    Nat → Nat → ℚ → ℚ → Except Err (ℚ × ℚ)
  | 0, _, angle, convlt => Except.ok (angle, convlt)
  | n + 1, i, angle, convlt =>
    (findAngleConv I iP me i).bind fun conv =>
    let conv := |conv|
    if conv > convlt then
      (orDiverges (normalizeAngle (vpMathRad i + M_PI / 2))).bind fun a =>
      findAngleLoop I iP me n (i + 1) a conv
    else findAngleLoop I iP me n (i + 1) angle convlt

/-- Embedding of `findAngle(I, iP, me, angle, convlt)`: the two outputs. -/
def findAngle (I : vpImage) (iP : vpImagePoint) (me : vpMe) : Except Err (ℚ × ℚ) :=
  findAngleLoop I iP me 180 0 0 0

/-- The scan `while (inRectangle(lastPtInSubIm, rect) && u < 1)` of the begin end, with
the step 0.0001. -/
def lastPtLoopBegin (ext : Ext) (nurbs : vpNurbs) (topLeft : vpImagePoint) :
    Nat → ℚ → vpImagePoint → Option (ℚ × vpImagePoint)
  | 0, _, _ => none
  | fuel + 1, u, p =>
    if ext.inRectangle p topLeft && decide (u < 1) then
      lastPtLoopBegin ext nurbs topLeft fuel (u + 1 / 10000)
        (nurbs.computeCurvePoint (u + 1 / 10000))
    else some (u, p)

/-- The scan `while (inRectangle(lastPtInSubIm, rect) && u > 0)` of the end end. -/
def lastPtLoopEnd (ext : Ext) (nurbs : vpNurbs) (topLeft : vpImagePoint) :
    Nat → ℚ → vpImagePoint → Option (ℚ × vpImagePoint)
  | 0, _, _ => none
  | fuel + 1, u, p =>
    if ext.inRectangle p topLeft && decide (u > 0) then
      lastPtLoopEnd ext nurbs topLeft fuel (u - 1 / 10000)
        (nurbs.computeCurvePoint (u - 1 / 10000))
    else some (u, p)

/-- Removal of the Sites inside the window from the head:
`while (!list.outside()) { if (inRectangle(...)) list.suppress(); else break; }`. -/
def removeInWindowBegin (ext : Ext) (topLeft : vpImagePoint) :
    Nat → vpList vpMeSite → Option (vpList vpMeSite)
  | 0, _ => none
  | fuel + 1, list =>
    if !list.outside then
      let s := list.value
      if ext.inRectangle ⟨s.ifloat, s.jfloat⟩ topLeft then
        (list.suppress).bind (removeInWindowBegin ext topLeft fuel)
      else some list
    else some list

/-- Removal of the Sites inside the window from the tail:
`while (!list.outside()) { if (inRectangle(...)) { list.suppress(); list.end(); } else break; }`. -/
def removeInWindowEnd (ext : Ext) (topLeft : vpImagePoint) :
    Nat → vpList vpMeSite → Option (vpList vpMeSite)
  | 0, _ => none
  | fuel + 1, list =>
    if !list.outside then
      let s := list.value
      if ext.inRectangle ⟨s.ifloat, s.jfloat⟩ topLeft then
        (list.suppress).bind fun l => removeInWindowEnd ext topLeft fuel l.end_
      else some list
    else some list

/-- The loop over `addedPt` that sets `exist`. -/
def existLoop (me : vpMe) (pix : vpMeSite) :
    Nat → vpList vpMeSite → Bool → Option Bool
  | 0, _, _ => none
  | fuel + 1, addedPt, exist =>
    if !addedPt.outside then
      let exist := if vpMeSite.sqrDistance pix addedPt.value < sqr me.sample_step then true
        else exist
      (addedPt.next).bind fun a => existLoop me pix fuel a exist
    else some exist

/-- State of the insertion loops of Contour Recovery: the Site List, the points added in
this pass, the local `delta`, the number `nbr` of inserted Sites and the member `dist`,
which the loop overwrites. -/
structure InsertState where
  list : vpList vpMeSite
  addedPt : vpList vpMeSite
  delta : ℚ
  nbr : Nat
  dist : ℚ

/-- Insertion loop of the begin end, over the traced points. -/
def insertLoopBegin (I : vpImage) (me : vpMe) (topLeft : vpImagePoint) :
    List vpImagePoint → InsertState → Except Err InsertState
  | [], st => Except.ok st
  | p :: rest, st =>
    let s := st.list.value
    let iPtemp := p.add topLeft
    let pix := (default : vpMeSite).init3 iPtemp.i iPtemp.j st.delta
    let dist := vpMeSite.sqrDistance s pix
    if dist ≥ sqr me.sample_step then
      (orUndefined (existLoop me pix (st.addedPt.elems.length + 1) st.addedPt.front
        false)).bind fun exist =>
      let dist := if st.addedPt.elems.isEmpty then dist
        else vpMeSite.sqrDistance pix st.addedPt.lastValue
      if !exist then
        (findAngle I iPtemp me).bind fun (delta, convlt) =>
        let pix := pix.init4 iPtemp.i iPtemp.j delta convlt
        (orUndefined (st.list.addLeft pix)).bind fun list1 =>
        (orUndefined (st.addedPt.front.addRight pix)).bind fun added1 =>
        insertLoopBegin I me topLeft rest
          { list := list1, addedPt := added1, delta := delta, nbr := st.nbr + 1,
            dist := dist }
      else insertLoopBegin I me topLeft rest
        { st with addedPt := ⟨st.addedPt.elems, st.addedPt.elems.length + 1⟩, dist := dist }
    else insertLoopBegin I me topLeft rest { st with dist := dist }

/-- Insertion loop of the end end, over the traced points. -/
def insertLoopEnd (I : vpImage) (me : vpMe) (topLeft : vpImagePoint) :
    List vpImagePoint → InsertState → Except Err InsertState
  | [], st => Except.ok st
  | p :: rest, st =>
    let s := st.list.value
    let iPtemp := p.add topLeft
    let pix := (default : vpMeSite).init3 iPtemp.i iPtemp.j 0
    let dist := vpMeSite.sqrDistance s pix
    if dist ≥ sqr me.sample_step then
      (orUndefined (existLoop me pix (st.addedPt.elems.length + 1) st.addedPt.front
        false)).bind fun exist =>
      let dist := if st.addedPt.elems.isEmpty then dist
        else vpMeSite.sqrDistance pix st.addedPt.lastValue
      if !exist then
        (findAngle I iPtemp me).bind fun (delta, convlt) =>
        let pix := pix.init4 iPtemp.i iPtemp.j delta convlt
        (orUndefined (st.list.addRight pix)).bind fun list1 =>
        (orUndefined (st.addedPt.end_.addRight pix)).bind fun added1 =>
        insertLoopEnd I me topLeft rest
          { list := list1, addedPt := added1, delta := delta, nbr := st.nbr + 1,
            dist := dist }
      else insertLoopEnd I me topLeft rest
        { st with addedPt := ⟨st.addedPt.elems, st.addedPt.elems.length + 1⟩, dist := dist }
    else insertLoopEnd I me topLeft rest { st with dist := dist }

/-- Embedding of `for (int j = 0; j < nbr; j++) { s = list.value(); s.track(I,me,false);
list.modify(s); list.next(); }`. -/
def retrackLoopBegin (ext : Ext) (I : vpImage) (me : vpMe) :
    Nat → vpList vpMeSite → Option (vpList vpMeSite)
  | 0, list => some list
  | n + 1, list =>
    (list.modify (ext.track I me list.value)).bind fun l1 =>
    (l1.next).bind (retrackLoopBegin ext I me n)

/-- The same loop of the end end, which walks with `list.previous()`. -/
def retrackLoopEnd (ext : Ext) (I : vpImage) (me : vpMe) :
    Nat → vpList vpMeSite → Option (vpList vpMeSite)
  | 0, list => some list
  | n + 1, list =>
    (list.modify (ext.track I me list.value)).bind fun l1 =>
    (l1.previous).bind (retrackLoopEnd ext I me n)

/-- First part of Contour Recovery at the begin end: the window corner `topLeft`, the
edge map `Isub` of the window and the seed `firstBorder` that `findFirstBorder` gives
for the last Curve point inside the window. -/
def seedBegin (ext : Ext) (I : vpImage) (st : vpMeNurbs) :
    Except Err (vpImagePoint × vpImage × vpImagePoint) :=
  let begin_ := st.nurbs.computeCurveDersPoint 0
  let topLeft : vpImagePoint := ⟨begin_.1.i - 15, begin_.1.j - 15⟩
  (orDiverges (lastPtLoopBegin ext st.nurbs topLeft 10002 0 begin_.1)).bind fun (u, p) =>
  let u := u - 1 / 10000
  let lastPtInSubIm := if u > 0 then st.nurbs.computeCurvePoint u else p
  let Isub := ext.canny I topLeft st.cannyTh1 st.cannyTh2
  let firstBorder := findFirstBorder Isub (lastPtInSubIm.sub topLeft)
  Except.ok (topLeft, Isub, firstBorder)

/-- Body of the first `if` of `seekExtremitiesCanny` (Contour Recovery of the begin end),
up to and without the final `beginPtFound = 0`. -/
def recoverBegin (ext : Ext) (I : vpImage) (st : vpMeNurbs) : Except Err vpMeNurbs :=
  (seedBegin ext I st).bind fun (topLeft, Isub, firstBorder) =>
  (traceContour Isub firstBorder).bind fun ip_edges_list =>
  if findCenterPoint ip_edges_list then
    (orUndefined (removeInWindowBegin ext topLeft (st.list.elems.length + 1)
      st.list.front)).bind fun list1 =>
    (insertLoopBegin I st.me topLeft ip_edges_list
      { list := list1.front, addedPt := ⟨[], 0⟩, delta := 0, nbr := 0,
        dist := st.dist }).bind fun ins =>
    let memory_range := st.me.range
    let me3 := { st.me with range := 3 }
    (orUndefined (retrackLoopBegin ext I me3 ins.nbr ins.list.front)).bind fun list2 =>
    Except.ok { st with list := list2, dist := ins.dist,
                        me := { me3 with range := memory_range } }
  else Except.ok st

/-- First part of Contour Recovery at the end end: window corner, edge map and seed. -/
def seedEnd (ext : Ext) (I : vpImage) (st : vpMeNurbs) :
    Except Err (vpImagePoint × vpImage × vpImagePoint) :=
  let end_ := st.nurbs.computeCurveDersPoint 1
  let topLeft : vpImagePoint := ⟨end_.1.i - 15, end_.1.j - 15⟩
  (orDiverges (lastPtLoopEnd ext st.nurbs topLeft 10002 1 end_.1)).bind fun (u, p) =>
  let u := u + 1 / 10000
  let lastPtInSubIm := if u < 1 then st.nurbs.computeCurvePoint u else p
  let Isub := ext.canny I topLeft st.cannyTh1 st.cannyTh2
  let firstBorder := findFirstBorder Isub (lastPtInSubIm.sub topLeft)
  Except.ok (topLeft, Isub, firstBorder)

/-- Body of the second `if` of `seekExtremitiesCanny` (Contour Recovery of the end end),
up to and without the final `endPtFound = 0`. -/
def recoverEnd (ext : Ext) (I : vpImage) (st : vpMeNurbs) : Except Err vpMeNurbs :=
  (seedEnd ext I st).bind fun (topLeft, Isub, firstBorder) =>
  (traceContour Isub firstBorder).bind fun ip_edges_list =>
  if findCenterPoint ip_edges_list then
    (orUndefined (removeInWindowEnd ext topLeft (st.list.elems.length + 1)
      st.list.end_)).bind fun list1 =>
    (insertLoopEnd I st.me topLeft ip_edges_list
      { list := list1.end_, addedPt := ⟨[], 0⟩, delta := 0, nbr := 0,
        dist := st.dist }).bind fun ins =>
    let memory_range := st.me.range
    let me3 := { st.me with range := 3 }
    (orUndefined (retrackLoopEnd ext I me3 ins.nbr ins.list.end_)).bind fun list2 =>
    Except.ok { st with list := list2, dist := ins.dist,
                        me := { me3 with range := memory_range } }
  else Except.ok st

/-- Embedding of `vpMeNurbs::seekExtremitiesCanny` with the edge detector available: both end points
are read on entry, then each end is recovered when its failure counter is at least 3 and
its end point is far from the image edge; the counter of a recovered end is reset. -/
def seekExtremitiesCanny (ext : Ext) (I : vpImage) (st : vpMeNurbs) : Except Err vpMeNurbs :=
  let pt := st.list.firstValue
  let firstPoint : vpImagePoint := ⟨pt.ifloat, pt.jfloat⟩
  let pt := st.list.lastValue
  let lastPoint : vpImagePoint := ⟨pt.ifloat, pt.jfloat⟩
  (if decide (st.beginPtFound ≥ 3) && farFromImageEdge I firstPoint then
    (recoverBegin ext I st).bind fun st1 => Except.ok { st1 with beginPtFound := 0 }
   else Except.ok st).bind fun st1 =>
  if decide (st1.endPtFound ≥ 3) && farFromImageEdge I lastPoint then
    (recoverEnd ext I st1).bind fun st2 => Except.ok { st2 with endPtFound := 0 }
  else Except.ok st1

/-- Status test used by `suppressPoints`: the Site is kept when `suppress == 0`. -/
def isOK (s : vpMeSite) : Bool := s.suppress == 0


/-- Effect of the adjacency scan on the plain sequence of Sites. -/
def nearScan (me : vpMe) : List vpMeSite → List vpMeSite
  | a :: b :: rest =>
    if vpMeSite.sqrDistance a b < sqr me.sample_step then
      a :: markNear b :: nearScan me rest
    else a :: nearScan me (b :: rest)
  | l => l

/-- Cursor list whose cursor is on `x`, with `pre` before it and `post` after it. -/
def vpList.zip {α : Type} (pre : List α) (x : α) (post : List α) : vpList α :=
  ⟨pre ++ x :: post, pre.length + 1⟩

/-- Cursor list whose cursor is on the last element of `x :: F`, with `pre` before `x`
and `post` after `F`. -/
def vpList.zipAfter {α : Type} (pre : List α) (x : α) (F : List α) (post : List α) :
    vpList α :=
  ⟨pre ++ x :: F ++ post, pre.length + 1 + F.length⟩

/-- The sequence `x₀ :: F₀ ++ x₁ :: F₁ ++ …`: the elements of the first list, each followed
by the matching list of inserted elements. -/
def weave {α : Type} : List α → List (List α) → List α
  | x :: xs, F :: Fs => x :: F ++ weave xs Fs
  | xs, _ => xs

/-- The Sites that the insertion walk `fillLoop` adds after the cursor, in order, with
the same in-bounds test, the field `outOfImage` of `ext`. -/
def fillSites (ext : Ext) (I : vpImage) (me : vpMe) (nurbs : vpNurbs) (iPend : vpImagePoint)
    (uend : ℚ) : Nat → ℚ → vpImagePoint → vpImagePoint → Option (List vpMeSite)
  | 0, _, _, _ => none
  | fuel + 1, u, iP, iP_1 =>
    if vpImagePoint.sqrDistance iP iPend > sqr me.sample_step ∧ u < uend then
      let u := u + 1 / 100
      let d := nurbs.computeCurveDersPoint u
      if decide (vpImagePoint.sqrDistance d.1 iP_1 > sqr me.sample_step)
          && !ext.outOfImage d.1 0 I.rows I.cols then
        (computeDelta ext d.2.i d.2.j).bind fun delta =>
        let pix := ext.track I me ((default : vpMeSite).init3 d.1.i d.1.j delta)
        if pix.suppress = 0 then
          (fillSites ext I me nurbs iPend uend fuel u d.1 d.1).map fun F => pix :: F
        else fillSites ext I me nurbs iPend uend fuel u d.1 iP_1
      else fillSites ext I me nurbs iPend uend fuel u d.1 iP_1
    else some []

/-- The Sites that `gapFill` adds between `s` and `s_next`. -/
def gapSites (ext : Ext) (I : vpImage) (me : vpMe) (nurbs : vpNurbs) (s s_next : vpMeSite) :
    Option (List vpMeSite) :=
  let iP0 : vpImagePoint := ⟨s.ifloat, s.jfloat⟩
  let iPend : vpImagePoint := ⟨s_next.ifloat, s_next.jfloat⟩
  let iP_1 : vpImagePoint := ⟨s.ifloat, s.jfloat⟩
  (paramScanLoop nurbs iP0 iPend 101 0 0 0 1000000 1000000).bind fun (ubegin, uend) =>
  let u := ubegin
  if u ≠ 1 ∨ uend ≠ 1 then
    let iP := nurbs.computeCurveDersPoint u
    fillSites ext I me nurbs iPend uend (⌈(uend - u) * 100⌉.toNat + 1) u iP.1 iP_1
  else some []

/-- The Sites that one turn of the loop of `localReSample` adds between `s` and `s_next`:
none when the loop guard `n <= points_to_track` fails or the pair is not selected. -/
def pairSites (ext : Ext) (I : vpImage) (me : vpMe) (nurbs : vpNurbs) (n : Int)
    (s s_next : vpMeSite) : Option (List vpMeSite) :=
  if n ≤ me.points_to_track ∧ gapSelected me s s_next = true then
    gapSites ext I me nurbs s s_next
  else some []

/-- The lists of inserted Sites of all consecutive pairs of a sequence of Sites. -/
def allPairSites (ext : Ext) (I : vpImage) (me : vpMe) (nurbs : vpNurbs) (n : Int) :
    List vpMeSite → Option (List (List vpMeSite))
  | s :: t :: rest =>
    (pairSites ext I me nurbs n s t).bind fun F =>
    (allPairSites ext I me nurbs n (t :: rest)).map fun Fs => F :: Fs
  | _ => some []

/-! ## Example inputs -/

/-- Example configuration: sample step 1, 100 points to track, search range 4, masks of
size 5 with all weights 1, angular resolution 1. -/
def exMe : vpMe := ⟨1, 100, 4, 5, 2, 1, fun _ _ _ => 1⟩

/-- Example in-bounds test of the tracker: a point is out of bounds unless its pixel, the
rounded position, is more than `half + 2` pixels away from the first row and column and
from the row `rows` and the column `cols`. -/
def exOutOfImage (iP : vpImagePoint) (half rows cols : Int) : Bool :=
  !(decide (vpMathRound iP.i > half + 2) && decide (vpMathRound iP.i < rows - (half + 2))
    && decide (vpMathRound iP.j > half + 2) && decide (vpMathRound iP.j < cols - (half + 2)))

/-- Example collaborators: the tracker accepts every candidate where it is, the edge
detector finds no edge, no point is inside a window, the in-bounds test is
`exOutOfImage`. -/
def exExt : Ext :=
  { track := fun _ _ s => { s with suppress := 0 }
    initTracking := fun _ _ l => some l
    atan2 := fun _ _ => 0
    cos := fun _ => 1
    sin := fun _ => 0
    sign := fun _ => 1
    canny := fun _ _ _ _ => ⟨32, 32, fun _ _ => 0⟩
    inRectangle := fun _ _ => false
    outOfImage := exOutOfImage }

/-- Example image: 200 rows, 2000 columns, all black. -/
def exImage : vpImage := ⟨200, 2000, fun _ _ => 0⟩

/-- Example Curve: the straight line of row 50 from column `c0` to column `c0 + len`. -/
def exLine (c0 len : ℚ) : vpNurbs :=
  { computeCurvePoint := fun u => ⟨50, c0 + len * u⟩
    computeCurveDersPoint := fun u => (⟨50, c0 + len * u⟩, ⟨0, len⟩) }

/-- Example Curve: the straight line of row `r` from column `c0` to column `c0 + len`. -/
def exLineAt (r c0 len : ℚ) : vpNurbs :=
  { computeCurvePoint := fun u => ⟨r, c0 + len * u⟩
    computeCurveDersPoint := fun u => (⟨r, c0 + len * u⟩, ⟨0, len⟩) }

/-- Example Site with status 0 at row `a`, column `b`. -/
def exSite (a b : ℚ) : vpMeSite := ⟨toInt a, toInt b, a, b, 0, 0, 1, 0⟩

/-- Example tracker state: the given Sites on the given Curve, with the given Curve
length and failure counters. -/
def exState (sites : List vpMeSite) (nurbs : vpNurbs) (dist : ℚ) (b e : Int) : vpMeNurbs :=
  { list := ⟨sites, 0⟩, me := exMe, nurbs := nurbs, dist := dist, beginPtFound := b,
    endPtFound := e, cannyTh1 := 100, cannyTh2 := 200 }

/-! ## Robot velocities (`vpRobot.cpp`) -/

/-- Outcomes of `vpRobot::saturateVelocities` other than a returned vector: the exception
`vpRobotException::dimensionError`, and a quotient whose divisor is zero. -/
inductive vpRobotException where
  | dimensionError
  | divisionByZero
deriving DecidableEq

/-- The `for` loop of `vpRobot::saturateVelocities` over the axes; the vectors
(`vpColVector`, declared outside the given sources) are the lists of their entries.
The quotient `v_max_i/v_i` with `v_i = 0` is no number: `none`. -/
def vpRobot.saturateLoop : List ℚ → List ℚ → ℚ → Option ℚ
  | v :: vs, m :: ms, scale =>
    let v_i := |v|
    let v_max_i := |m|
    if v_i > v_max_i then
      if v_i = 0 then none
      else
        let scale_i := v_max_i / v_i
        vpRobot.saturateLoop vs ms (if scale_i < scale then scale_i else scale)
    else vpRobot.saturateLoop vs ms scale
  | _, _, scale => some scale

/-- Embedding of `vpRobot::saturateVelocities(v_in, v_max, verbose)`; the messages of
`verbose` are left out. -/
def vpRobot.saturateVelocities (v_in v_max : List ℚ) : Except vpRobotException (List ℚ) :=
  if v_in.length ≠ v_max.length then Except.error vpRobotException.dimensionError
  else
    match vpRobot.saturateLoop v_in v_max 1 with
    | none => Except.error vpRobotException.divisionByZero
    | some scale => Except.ok (v_in.map fun v => v * scale)

/-! ## More example inputs -/

/-- Example configuration with angular resolution 0 (sample step 1, masks of size 5). -/
def exMeNoAngle : vpMe := ⟨1, 100, 4, 5, 2, 0, fun _ _ _ => 1⟩

/-- Example image: 100 rows and 100 columns, all white. -/
def exWhite : vpImage := ⟨100, 100, fun _ _ => 255⟩

/-- Example collaborators whose tracker accepts every candidate where it is and writes
the search range it is called with into `mask_sign`. -/
def exProbe : Ext :=
  { exExt with track := fun _ me s => { s with suppress := 0, mask_sign := me.range } }

/-! ## Angle normalisation in an arbitrary ordered field

The same loops as `subPiLoop`, `addPiLoop`, `normalizeAngle` and `computeDelta`, with the
arithmetic of any ordered field `K` (the real numbers among them) and any constant `pi`
for `M_PI`. -/

/-- The loop `while (x > M_PI) { x -= M_PI ; }` in the field `K`. -/
def subPiLoopIn {K : Type} [LinearOrderedField K] (pi : K) : Nat → K → Option K
  | 0, _ => none
  | fuel + 1, x => if x > pi then subPiLoopIn pi fuel (x - pi) else some x

/-- The loop `while (x < 0) { x += M_PI ; }` in the field `K`. -/
def addPiLoopIn {K : Type} [LinearOrderedField K] (pi : K) : Nat → K → Option K
  | 0, _ => none
  | fuel + 1, x => if x < 0 then addPiLoopIn pi fuel (x + pi) else some x

/-- The two normalisation loops in the field `K`, one after the other. -/
def normalizeAngleIn {K : Type} [LinearOrderedField K] [FloorRing K] (pi x : K) : Option K :=
  (subPiLoopIn pi (⌈x / pi⌉.toNat + 1) x).bind fun y =>
    addPiLoopIn pi (⌈-y / pi⌉.toNat + 1) y

/-- Embedding of `computeDelta(deltai, deltaj)` in the field `K`. -/
def computeDeltaIn {K : Type} [LinearOrderedField K] [FloorRing K] (pi : K)
    (atan2 : K → K → K) (deltai deltaj : K) : Option K :=
  normalizeAngleIn pi (atan2 deltai deltaj - pi / 2)

/-! ## Orientation updater -/

/-- The inner loop `while (d <= d_1 && u < 1)` of `updateDelta`, which walks `u` by 0.01
while the distance from the Site to the Curve point does not grow. `d` and `d_1` hold the
squares of the two distances, which compare as the distances do; the result is the value
of `u` after the loop. -/
def updateDeltaScan (nurbs : vpNurbs) (pt : vpImagePoint) : Nat → ℚ → ℚ → ℚ → Option ℚ
  | 0, _, _, _ => none
  | fuel + 1, u, d, d_1 =>
    if d ≤ d_1 ∧ u < 1 then
      let Cu := nurbs.computeCurvePoint u
      updateDeltaScan nurbs pt fuel (u + 1 / 100) (vpImagePoint.sqrDistance pt Cu) d
    else some u

/-- The outer loop `while (u < 1 && !list.outside())` of `updateDelta`: the Site under the
cursor gets the orientation `computeDelta` of the Curve derivative at the parameter
found by the scan, then `d = 1e6` and `d_1 = 1.5e6` (here their squares). -/
def updateDeltaLoop (ext : Ext) (nurbs : vpNurbs) :
    Nat → ℚ → ℚ → ℚ → vpList vpMeSite → Option (vpList vpMeSite)
  | 0, _, _, _, _ => none
  | fuel + 1, u, d, d_1, list =>
    if u < 1 ∧ list.outside = false then
      let s := list.value
      let pt : vpImagePoint := ⟨(s.i : ℚ), (s.j : ℚ)⟩
      (updateDeltaScan nurbs pt (⌈(1 - u) * 100⌉.toNat + 1) u d d_1).bind fun u =>
      let u := u - 1 / 100
      let der := nurbs.computeCurveDersPoint u
      (computeDelta ext der.2.i der.2.j).bind fun delta =>
      (list.modify { s with alpha := delta }).bind fun list1 =>
      (list1.next).bind fun list2 =>
      updateDeltaLoop ext nurbs fuel u 1000000000000 2250000000000 list2
    else some list

/-- Embedding of `vpMeNurbs::updateDelta`: the new Site List. -/
def updateDelta (ext : Ext) (st : vpMeNurbs) : Option (vpList vpMeSite) :=
  updateDeltaLoop ext st.nurbs (st.list.elems.length + 1) 0 1000000000000 1000000000000
    st.list.front

/-- The orientation `alpha` is in the half-open range from 0 to `M_PI`. -/
def alphaInRange (s : vpMeSite) : Prop := 0 ≤ s.alpha ∧ s.alpha < M_PI

/-- Relation of a Site to its state after `updateDelta`: left as it was, or given an
orientation in the half-open range from 0 to `M_PI`. -/
def reoriented (s0 s : vpMeSite) : Prop :=
  s = s0 ∨ ∃ δ : ℚ, s = { s0 with alpha := δ } ∧ 0 ≤ δ ∧ δ < M_PI

/-- Example configuration whose mask bank is 1 for the direction 90 and 0 elsewhere. -/
def exMe90 : vpMe := ⟨1, 100, 4, 5, 2, 1, fun idx _ _ => if idx = 90 then 1 else 0⟩


/-! ## Chain-code trace: exit state and integer pixel coordinates -/

/-- The initial direction of the trace, chosen from the window border that the seed
touches; the source leaves `dir` uninitialised for a seed on no border. -/
def traceStart (Isub : vpImage) (firstBorder : vpImagePoint) : Except Err Nat :=
  if firstBorder.i = 0 then Except.ok 4
  else if firstBorder.i = ((Isub.rows : Int) - 1 : Int) then Except.ok 0
  else if firstBorder.j = 0 then Except.ok 2
  else if firstBorder.j = ((Isub.cols : Int) - 1 : Int) then Except.ok 6
  else Except.error Err.undefined

/-- The `do ... while` loop of the chain-code trace as in `traceLoop`, with the values of
`border` and `dir` at the exit of the loop next to `ip_edges_list`. -/
def traceLoopEnd (Isub : vpImage) (firstBorder : vpImagePoint) (firstDir : Nat) :
    Nat → vpImagePoint → Nat → vpImagePoint → List vpImagePoint →
    Option (List vpImagePoint × vpImagePoint × Nat)
  | 0, _, _, _, _ => none
  | fuel + 1, border, dir, dBorder, acc =>
    let dBorder := computeFreemanParameters dir dBorder
    let border := border.add dBorder
    let acc := acc ++ [border]
    let dir := (computeFreemanChainElement Isub border dir).2
    if (border ≠ firstBorder ∨ dir ≠ firstDir) ∧ isInImage Isub border = true then
      traceLoopEnd Isub firstBorder firstDir fuel border dir dBorder acc
    else some (acc, border, dir)

/-- The image point of the pixel of shifted coordinates `(a, b)`: row `a - 1` and column
`b - 1`. With the shift by one the pixels around the window have natural coordinates. -/
def ofPixel (p : Nat × Nat) : vpImagePoint := ⟨(p.1 : ℚ) - 1, (p.2 : ℚ) - 1⟩

/-- The row displacement of `computeFreemanParameters` for the directions 0 to 7, plus
one. -/
def freemanRow : Nat → Nat
  | 0 => 1
  | 1 => 2
  | 2 => 2
  | 3 => 2
  | 4 => 1
  | 5 => 0
  | 6 => 0
  | 7 => 0
  | _ => 1

/-- The column displacement of `computeFreemanParameters` for the directions 0 to 7, plus
one. -/
def freemanCol : Nat → Nat
  | 0 => 2
  | 1 => 2
  | 2 => 1
  | 3 => 0
  | 4 => 0
  | 5 => 0
  | 6 => 1
  | 7 => 2
  | _ => 1

/-- The test `isInImage` on a pixel of shifted coordinates. -/
def inImagePixel (rows cols a b : Nat) : Bool :=
  and (Nat.ble 1 a) (and (Nat.ble a rows) (and (Nat.ble 1 b) (Nat.ble b cols)))

/-- The test `hasGoodLevel` on a pixel of a window whose foreground is `fg`. -/
def goodPixel (rows cols : Nat) (fg : Nat → Nat → Bool) (a b : Nat) : Bool :=
  and (inImagePixel rows cols a b) (fg (Nat.pred a) (Nat.pred b))

/-- The test `good` on the neighbour of the pixel `(a, b)` in the direction `d`. -/
def probePixel (good : Nat → Nat → Bool) (a b d : Nat) : Bool :=
  good (Nat.pred (Nat.add a (freemanRow d))) (Nat.pred (Nat.add b (freemanCol d)))

/-- The direction that `computeFreemanChainElement` leaves in `element`, on a pixel;
`good` is the test `hasGoodLevel`. -/
def chainPixel (good : Nat → Nat → Bool) (a b e : Nat) : Nat :=
  cond (good a b)
    (cond (probePixel good a b (Nat.mod (Nat.add e 2) 8)) (Nat.mod (Nat.add e 2) 8)
    (cond (probePixel good a b (Nat.mod (Nat.add e 1) 8)) (Nat.mod (Nat.add e 1) 8)
    (cond (probePixel good a b e) e
    (cond (probePixel good a b (Nat.mod (Nat.add e 7) 8)) (Nat.mod (Nat.add e 7) 8)
    (cond (probePixel good a b (Nat.mod (Nat.add e 6) 8)) (Nat.mod (Nat.add e 6) 8)
    (cond (probePixel good a b (Nat.mod (Nat.add e 5) 8)) (Nat.mod (Nat.add e 5) 8)
    (cond (probePixel good a b (Nat.mod (Nat.add e 4) 8)) (Nat.mod (Nat.add e 4) 8)
    (cond (probePixel good a b (Nat.mod (Nat.add e 3) 8)) (Nat.mod (Nat.add e 3) 8)
      e))))))))
    e

/-- One turn of the `do ... while` loop of the trace on pixels: from the pixel `(a, b)`
and the direction `d` to the next pixel and direction. -/
def turnPixel (good : Nat → Nat → Bool) (s : Nat × Nat × Nat) : Nat × Nat × Nat :=
  (Nat.pred (Nat.add s.1 (freemanRow s.2.2)), Nat.pred (Nat.add s.2.1 (freemanCol s.2.2)),
    chainPixel good (Nat.pred (Nat.add s.1 (freemanRow s.2.2)))
      (Nat.pred (Nat.add s.2.1 (freemanCol s.2.2))) s.2.2)

/-- The loop condition of the trace on pixels, after a turn:
`(border != firstBorder || dir != firstDir) && isInImage(Isub, border)`. -/
def goesOn (rows cols fa fb fd a b d : Nat) : Bool :=
  and (or (not (and (Nat.beq a fa) (Nat.beq b fb))) (not (Nat.beq d fd)))
    (inImagePixel rows cols a b)

/-- The value `k n`, with `n` evaluated before `k` is entered. -/
def forceNat {α : Type} (n : Nat) (k : Nat → α) : α :=
  match n with
  | 0 => k 0
  | m + 1 => k (m + 1)

/-- The `do ... while` loop of the chain-code trace on pixels from the pixel `(a, b)` and
the direction `d`: the points added to `ip_edges_list`, then the pixel and the direction
at the exit. `(fa, fb)` is the seed and `fd` the first direction. -/
def tracePixel (rows cols : Nat) (good : Nat → Nat → Bool) (fa fb fd : Nat) :
    Nat → Nat → Nat → Nat → Option (List (Nat × Nat) × Nat × Nat × Nat)
  | 0, _, _, _ => none
  | fuel + 1, a, b, d =>
    forceNat (Nat.pred (Nat.add a (freemanRow d))) fun a1 =>
    forceNat (Nat.pred (Nat.add b (freemanCol d))) fun b1 =>
    forceNat (chainPixel good a1 b1 d) fun d1 =>
    cond (goesOn rows cols fa fb fd a1 b1 d1)
      ((tracePixel rows cols good fa fb fd fuel a1 b1 d1).map
        fun r => ((a1, b1) :: r.1, r.2))
      (some ([(a1, b1)], a1, b1, d1))

/-- The foreground of a window: the pixels of positive level. -/
def foreground (I : vpImage) (a b : Nat) : Bool := decide (I.pix a b > 0)

/-- The initial direction of the trace on pixels. -/
def startPixel (rows cols a b : Nat) : Option Nat :=
  cond (Nat.beq a 1) (some 4)
    (cond (Nat.beq a rows) (some 0)
      (cond (Nat.beq b 1) (some 2)
        (cond (Nat.beq b cols) (some 6) none)))

/-- The test of `findCenterPoint` on a list of pixels. -/
def centrePixel : List (Nat × Nat) → Bool
  | [] => false
  | p :: rest =>
    cond (Nat.ble (Nat.add (Nat.add (Nat.pow (Nat.sub p.1 16) 2) (Nat.pow (Nat.sub 16 p.1) 2))
        (Nat.add (Nat.pow (Nat.sub p.2 16) 2) (Nat.pow (Nat.sub 16 p.2) 2))) 16)
      true (centrePixel rest)

/-! ## Straight lines in the 32×32 window -/

/-- A straight line spanning the 32×32 window: a full row, a full column, the diagonal
`i = j` or the diagonal `i + j = 31`. -/
inductive Line where
  | row (r : Nat)
  | col (c : Nat)
  | diag
  | anti
deriving DecidableEq

/-- The pixel `(i, j)` is on the line. -/
def Line.on : Line → Nat → Nat → Bool
  | Line.row r, i, _ => Nat.beq i r
  | Line.col c, _, j => Nat.beq j c
  | Line.diag, i, j => Nat.beq i j
  | Line.anti, i, j => Nat.beq (Nat.add i j) 31

/-- The line has a pixel within squared distance 16 of the pixel (15, 15): the rows and
columns 11 to 19, which include the two middle rows and columns, and the diagonals. -/
def Line.nearCentre : Line → Bool
  | Line.row r => and (Nat.ble 11 r) (Nat.ble r 19)
  | Line.col c => and (Nat.ble 11 c) (Nat.ble c 19)
  | _ => true

/-- All the lines of the window. -/
def allLines : List Line :=
  (List.range 32).map Line.row ++ (List.range 32).map Line.col ++ [Line.diag, Line.anti]

/-- The pixels of the border of the window, in shifted coordinates. -/
def borderPixels : List (Nat × Nat) :=
  (List.range 32).map (fun j => (1, j + 1)) ++ (List.range 32).map (fun j => (32, j + 1))
    ++ (List.range 32).map (fun i => (i + 1, 1)) ++ (List.range 32).map (fun i => (i + 1, 32))

/-- The trace from the seed `(a, b)` with the initial direction `d0` on the window whose
foreground is the line `L`: the traced pixels after the seed, the pixel at the exit, and
whether the direction at the exit is the first direction. -/
def lineTrace (L : Line) (a b d0 : Nat) : Option (List (Nat × Nat) × Nat × Nat × Bool) :=
  forceNat (chainPixel (goodPixel 32 32 L.on) a b d0) fun fd =>
    (tracePixel 32 32 (goodPixel 32 32 L.on) a b fd 8194 a b fd).map
      fun r => (r.1, r.2.1, r.2.2.1, Nat.beq r.2.2.2 fd)

/-- The trace from the seed `s` on the window whose foreground is the line `L` ends with
the pixel `s` and the first direction, and it meets the centre exactly when the line
does. -/
def lineCheck (L : Line) (s : Nat × Nat) : Bool :=
  match startPixel 32 32 s.1 s.2 with
  | none => false
  | some d0 =>
    match lineTrace L s.1 s.2 d0 with
    | none => false
    | some r =>
      and (and (Nat.beq r.2.1 s.1) (Nat.beq r.2.2.1 s.2))
        (and r.2.2.2 (centrePixel (s :: r.1) == L.nearCentre))

/-- The check `lineCheck` for every border pixel on the line. -/
def lineCheckAll (L : Line) : Bool :=
  borderPixels.all fun s => or (not (L.on (Nat.pred s.1) (Nat.pred s.2))) (lineCheck L s)

/-- Example window: the foreground is the row 15. -/
def exRowWindow : vpImage := ⟨32, 32, fun i _ => if i = 15 then 255 else 0⟩

/-- Example window, a comb: the foreground is the last row and the columns of even
index. -/
def exComb : vpImage := ⟨32, 32, fun i j => if i = 31 ∨ j % 2 = 0 then 255 else 0⟩

/-- The foreground of the comb `exComb`. -/
def combFg (i j : Nat) : Bool := or (Nat.beq i 31) (Nat.beq (Nat.mod j 2) 0)

/-! ## Seed search -/

/-- The positions `(i, j)` that the two loops of `findFirstBorder` visit, in order: `i`
from 0 to `rows` and `j` from 0 to `cols`, both bounds included. -/
def scanPositions (Isub : vpImage) : List (Nat × Nat) :=
  (List.range (Isub.rows + 1)).flatMap fun i => (List.range (Isub.cols + 1)).map fun j => (i, j)

/-- The border test of `findFirstBorder` at `(i, j)`, under which the pixel `Isub(i, j)`
is read. -/
def borderTest (Isub : vpImage) (i j : Nat) : Prop :=
  i = 0 ∨ (i : Int) = (Isub.rows : Int) - 1 ∨ j = 0 ∨ (j : Int) = (Isub.cols : Int) - 1

/-- The positions at which `findFirstBorder` reads the pixel `Isub(i, j)`. -/
def findFirstBorderReads (Isub : vpImage) : List (Nat × Nat) :=
  (scanPositions Isub).filter fun p =>
    decide (p.1 = 0 ∨ (p.1 : Int) = (Isub.rows : Int) - 1 ∨ p.2 = 0 ∨
      (p.2 : Int) = (Isub.cols : Int) - 1)

/-- The position `(i, j)` qualifies as a seed for the point `iP`: it passes the border
test, its level is positive and its squared distance to `iP` is at most 16. -/
def seedCandidate (Isub : vpImage) (iP : vpImagePoint) (i j : Nat) : Prop :=
  borderTest Isub i j ∧ Isub.pix i j > 0 ∧
    vpImagePoint.sqrDistance iP ⟨(i : ℚ), (j : ℚ)⟩ ≤ 16

/-- The border test is decidable. -/
instance (Isub : vpImage) (i j : Nat) : Decidable (borderTest Isub i j) := by
  unfold borderTest
  infer_instance

/-- The seed test is decidable. -/
instance (Isub : vpImage) (iP : vpImagePoint) (i j : Nat) :
    Decidable (seedCandidate Isub iP i j) := by
  unfold seedCandidate
  infer_instance

/-- Example window: every pixel of the 32×32 window is 0 and the level read at the
position (32, 0), below the last row, is 255. -/
def exOutside : vpImage := ⟨32, 32, fun i j => if i = 32 ∧ j = 0 then 255 else 0⟩

/-- Example window: the foreground is the three pixels (0, 0), (0, 3) and (1, 1). -/
def exLoop : vpImage :=
  ⟨32, 32, fun i j => if (i = 0 ∧ j = 0) ∨ (i = 0 ∧ j = 3) ∨ (i = 1 ∧ j = 1) then 255 else 0⟩

/-- The foreground of the window `exLoop`. -/
def loopFg (i j : Nat) : Bool :=
  or (and (Nat.beq i 0) (Nat.beq j 0))
    (or (and (Nat.beq i 0) (Nat.beq j 3)) (and (Nat.beq i 1) (Nat.beq j 1)))

/-- The states of the trace of `exLoop` from the seed (0, 3), in shifted coordinates:
the seed, two background pixels of the first row, and the two pixels between which the
trace goes to and fro. -/
def loopStates : List (Nat × Nat × Nat) :=
  [(1, 4, 4), (1, 3, 4), (1, 2, 4), (1, 1, 1), (2, 2, 5)]

/-- The order in which `computeFreemanChainElement` probes the neighbours: the offset `k`
added to the heading. -/
def probeOrder : List Nat := [2, 1, 0, 7, 6, 5, 4, 3]

/-- The neighbour of `iP` in the direction `(e + k) mod 8` qualifies: it is inside the
image and its level is positive (`hasGoodLevel`). -/
def neighbourGood (I : vpImage) (iP : vpImagePoint) (e k : Nat) : Bool :=
  hasGoodLevel I (iP.add (computeFreemanParameters ((e + k) % 8) default))

/-! ## Suppression Pass as the design gives it -/

/-- The Suppression Pass in the order of the design: (a) every Site whose status is not 0
is dropped, (b) the adjacency scan runs on the remaining Sites and the Sites it marks
are removed. -/
def designSuppressionPass (me : vpMe) (l : vpList vpMeSite) : Option (vpList vpMeSite) :=
  (suppressPoints l).bind fun l1 => (supressNearPoints me l1).bind suppressPoints

/-- Example Site with float position `(a, b)` and the status `st`. -/
def exSiteStatus (a b : ℚ) (st : Int) : vpMeSite := ⟨toInt a, toInt b, a, b, 0, 0, 1, st⟩

/-! ## Candidates accepted by the Extremity Extender -/

/-- Two Sites are at distance at least `sample_step` (the squared-distance test of the
insertion loops). -/
def farApart (me : vpMe) (a b : vpMeSite) : Prop :=
  vpMeSite.sqrDistance a b ≥ sqr me.sample_step

/-- State of the insertion loop on entry, as `seekExtremitiesCanny` sets it: the cursor
of the Site List where `list.front()` or `list.end()` left it, no added point yet. -/
def insertStart (list : vpList vpMeSite) (dist : ℚ) : InsertState :=
  { list := list, addedPt := ⟨[], 0⟩, delta := 0, nbr := 0, dist := dist }

/-! ## Theorems -/

theorem getElem?_append_mid {α : Type} (pre : List α) (x : α) (xs : List α) :
    (pre ++ x :: xs)[pre.length]? = some x := by
  induction pre with
  | nil => simp
  | cons p ps ih => simpa using ih

theorem valueAt_mid (pre : List vpMeSite) (x : vpMeSite) (xs : List vpMeSite) (c : Nat) :
    (vpList.mk (pre ++ x :: xs) c).valueAt (pre.length + 1) = x := by
  have h : (pre ++ x :: xs).getD pre.length default = x := by
    rw [List.getD_eq_getElem?_getD, getElem?_append_mid]; rfl
  simpa [vpList.valueAt] using h

theorem suppressPointsLoop_zip (post : List vpMeSite) :
    ∀ (pre : List vpMeSite) (fuel : Nat), post.length + 1 ≤ fuel →
      suppressPointsLoop fuel ⟨pre ++ post, pre.length + 1⟩ =
        some ⟨pre ++ post.filter isOK, (pre ++ post.filter isOK).length + 1⟩ := by
  induction post with
  | nil =>
    intro pre fuel hf
    obtain ⟨f, rfl⟩ : ∃ f, fuel = f + 1 := ⟨fuel - 1, by omega⟩
    simp [suppressPointsLoop, vpList.outside]
  | cons x xs ih =>
    intro pre fuel hf
    obtain ⟨f, rfl⟩ : ∃ f, fuel = f + 1 := ⟨fuel - 1, by omega⟩
    have hf' : xs.length + 1 ≤ f := by simpa using hf
    have hval : (vpList.mk (pre ++ x :: xs) (pre.length + 1)).value = x := by
      simp [vpList.value, valueAt_mid]
    by_cases hx : x.suppress = 0
    · have h1 := ih (pre ++ [x]) f hf'
      simp only [List.append_assoc, List.singleton_append, List.length_append,
        List.length_singleton] at h1
      simp [suppressPointsLoop, vpList.outside, hval, hx, vpList.next, isOK, h1]
    · have h1 := ih pre f hf'
      simp [suppressPointsLoop, vpList.outside, hval, hx, vpList.suppress, isOK, h1,
        List.eraseIdx_append_of_length_le]

theorem suppressPoints_eq (l : vpList vpMeSite) :
    suppressPoints l = some ⟨l.elems.filter isOK, (l.elems.filter isOK).length + 1⟩ := by
  have h := suppressPointsLoop_zip l.elems [] (l.elems.length + 1) (le_refl _)
  simpa [suppressPoints, vpList.front] using h


theorem zip_nextOutside {α : Type} (pre : List α) (x : α) (post : List α) :
    (vpList.zip pre x post).nextOutside = post.isEmpty := by
  cases post <;> simp [vpList.zip, vpList.nextOutside]

theorem zip_outside {α : Type} (pre : List α) (x : α) (post : List α) :
    (vpList.zip pre x post).outside = false := by
  simp [vpList.zip, vpList.outside]

theorem zip_value (pre : List vpMeSite) (x : vpMeSite) (post : List vpMeSite) :
    (vpList.zip pre x post).value = x := by
  simp [vpList.zip, vpList.value, valueAt_mid]

theorem zip_shift {α : Type} (pre : List α) (x y : α) (post : List α) :
    (⟨pre ++ x :: y :: post, pre.length + 1 + 1⟩ : vpList α) = vpList.zip (pre ++ [x]) y post := by
  simp [vpList.zip]

theorem zip_nextValue (pre : List vpMeSite) (x y : vpMeSite) (post : List vpMeSite) :
    (vpList.zip pre x (y :: post)).nextValue = some y := by
  have h := valueAt_mid (pre ++ [x]) y post (pre.length + 1)
  simp only [List.append_assoc, List.singleton_append, List.length_append,
    List.length_singleton] at h
  simp [vpList.zip, vpList.nextValue, h]

theorem zip_next {α : Type} (pre : List α) (x y : α) (post : List α) :
    (vpList.zip pre x (y :: post)).next = some (vpList.zip (pre ++ [x]) y post) := by
  simp [vpList.zip, vpList.next]

theorem zip_modify {α : Type} (pre : List α) (x v : α) (post : List α) :
    (vpList.zip pre x post).modify v = some (vpList.zip pre v post) := by
  simp [vpList.zip, vpList.modify]

theorem zip_suppress {α : Type} (pre : List α) (x y : α) (post : List α) :
    (vpList.zip pre x (y :: post)).suppress = some (vpList.zip pre y post) := by
  simp [vpList.zip, vpList.suppress, List.eraseIdx_append_of_length_le]

theorem zip_addRight {α : Type} (pre : List α) (x v : α) (post : List α) :
    (vpList.zip pre x post).addRight v = some (vpList.zip (pre ++ [x]) v post) := by
  have h1 : (pre ++ x :: post).take (pre.length + 1) = pre ++ [x] := by
    have := @List.take_left' _ (pre ++ [x]) post (pre.length + 1) (by simp)
    simpa using this
  have h2 : (pre ++ x :: post).drop (pre.length + 1) = post := by simp
  simp [vpList.zip, vpList.addRight, h1, h2]

theorem nearScan_length (me : vpMe) : ∀ (n : Nat) (l : List vpMeSite), l.length ≤ n →
    (nearScan me l).length = l.length := by
  intro n
  induction n with
  | zero => intro l hl; cases l <;> simp_all [nearScan]
  | succ n ih =>
    intro l hl
    match l with
    | [] => simp [nearScan]
    | [a] => simp [nearScan]
    | a :: b :: rest =>
      simp only [List.length_cons] at hl
      simp only [nearScan]
      split
      · have := ih rest (by omega)
        simp [this]
      · have := ih (b :: rest) (by simp only [List.length_cons]; omega)
        simp [this]

theorem supressNearPointsLoop_zip (me : vpMe) : ∀ (n : Nat) (post : List vpMeSite),
    post.length ≤ n → ∀ (pre : List vpMeSite) (x : vpMeSite) (fuel : Nat),
      post.length + 1 ≤ fuel →
      supressNearPointsLoop me fuel (vpList.zip pre x post) =
        some ⟨pre ++ nearScan me (x :: post), pre.length + post.length + 1⟩ := by
  intro n
  induction n with
  | zero =>
    intro post hp pre x fuel hf
    obtain rfl : post = [] := List.length_eq_zero.mp (by omega)
    obtain ⟨f, rfl⟩ : ∃ f, fuel = f + 1 := ⟨fuel - 1, by omega⟩
    simp only [supressNearPointsLoop, zip_nextOutside, nearScan]
    simp [vpList.zip]
  | succ n ih =>
    intro post hp pre x fuel hf
    obtain ⟨f, rfl⟩ : ∃ f, fuel = f + 1 := ⟨fuel - 1, by omega⟩
    match post, hp, hf with
    | [], _, _ =>
      simp only [supressNearPointsLoop, zip_nextOutside, nearScan]
      simp [vpList.zip]
    | b :: rest, hp, hf =>
      simp only [List.length_cons] at hp hf
      by_cases hnear : vpMeSite.sqrDistance x b < sqr me.sample_step
      · match rest, hp, hf with
        | [], _, hf =>
          obtain ⟨g, rfl⟩ : ∃ g, f = g + 1 := ⟨f - 1, by simp at hf; omega⟩
          simp [supressNearPointsLoop, zip_nextOutside, zip_value, zip_nextValue, hnear,
            zip_next, zip_modify, nearScan]
          simp [vpList.zip]
        | c :: rest2, hp, hf =>
          simp only [List.length_cons] at hp hf
          have h1 := ih rest2 (by omega) (pre ++ [x, markNear b]) c f (by omega)
          simp [supressNearPointsLoop, zip_nextOutside, zip_value, zip_nextValue, hnear,
            zip_next, zip_modify, nearScan]
          rw [h1]
          simp
          omega
      · have h1 := ih rest (by omega) (pre ++ [x]) b f (by omega)
        simp [supressNearPointsLoop, zip_nextOutside, zip_value, zip_nextValue, hnear,
          zip_next, nearScan, h1]
        omega

theorem supressNearPoints_eq (me : vpMe) (l : vpList vpMeSite) (hne : l.elems ≠ []) :
    supressNearPoints me l = some ⟨nearScan me l.elems, l.elems.length⟩ := by
  obtain ⟨es, c⟩ := l
  match es, hne with
  | x :: post, _ =>
    have h := supressNearPointsLoop_zip me post.length post (le_refl _) [] x
      (post.length + 1 + 1) (by omega)
    simpa [supressNearPoints, vpList.front, vpList.zip] using h


theorem nearScan_cons (me : vpMe) (a : vpMeSite) (l : List vpMeSite) :
    ∃ t, nearScan me (a :: l) = a :: t := by
  cases l with
  | nil => exact ⟨[], by simp [nearScan]⟩
  | cons b rest =>
    simp only [nearScan]
    split
    · exact ⟨_, rfl⟩
    · exact ⟨_, rfl⟩

theorem nearScan_getElem (me : vpMe) : ∀ (n : Nat) (l : List vpMeSite), l.length ≤ n →
    ∀ (i : Nat) (s : vpMeSite), l[i]? = some s →
      (nearScan me l)[i]? = some s ∨ (nearScan me l)[i]? = some (markNear s) := by
  intro n
  induction n with
  | zero =>
    intro l hl i s hs
    obtain rfl : l = [] := List.length_eq_zero.mp (by omega)
    simp at hs
  | succ n ih =>
    intro l hl i s hs
    match l, hl, hs with
    | [], _, hs => simp at hs
    | [a], _, hs => left; simpa [nearScan] using hs
    | a :: b :: rest, hl, hs =>
      simp only [List.length_cons] at hl
      simp only [nearScan]
      split
      · match i, hs with
        | 0, hs => left; simpa using hs
        | 1, hs => right; simp at hs; simp [hs]
        | j + 2, hs =>
          have := ih rest (by omega) j s (by simpa using hs)
          simpa using this
      · match i, hs with
        | 0, hs => left; simpa using hs
        | j + 1, hs =>
          have := ih (b :: rest) (by simp only [List.length_cons]; omega) j s
            (by simpa using hs)
          simpa using this

theorem nearScan_pair (me : vpMe) : ∀ (n : Nat) (l : List vpMeSite), l.length ≤ n →
    ∀ (k : Nat) (s t : vpMeSite), l[k]? = some s → l[k + 1]? = some t →
      vpMeSite.sqrDistance s t < sqr me.sample_step →
      ((nearScan me l)[k]? = some s ∧ (nearScan me l)[k + 1]? = some (markNear t)) ∨
      ((nearScan me l)[k]? = some (markNear s) ∧ (nearScan me l)[k + 1]? = some t) := by
  intro n
  induction n with
  | zero =>
    intro l hl k s t hs
    obtain rfl : l = [] := List.length_eq_zero.mp (by omega)
    simp at hs
  | succ n ih =>
    intro l hl k s t hs ht hnear
    match l, hl, hs, ht with
    | [], _, hs, _ => simp at hs
    | [a], _, _, ht => simp at ht
    | a :: b :: rest, hl, hs, ht =>
      simp only [List.length_cons] at hl
      simp only [nearScan]
      split
      · match k, hs, ht with
        | 0, hs, ht =>
          left
          simp at hs ht
          simp [hs, ht]
        | 1, hs1, ht1 =>
          right
          simp at hs1 ht1
          cases rest with
          | nil => simp at ht1
          | cons c rest2 =>
            obtain ⟨u, hu⟩ := nearScan_cons me c rest2
            simp at ht1
            rw [hu]
            simp [hs1, ht1]
        | j + 2, hs, ht =>
          have := ih rest (by omega) j s t (by simpa using hs) (by simpa using ht) hnear
          simpa using this
      · match k, hs, ht with
        | 0, hs, ht =>
          simp at hs ht
          subst hs ht
          contradiction
        | j + 1, hs, ht =>
          have := ih (b :: rest) (by simp only [List.length_cons]; omega) j s t
            (by simpa using hs) (by simpa using ht) hnear
          simpa using this

theorem nearScan_filter_sublist (me : vpMe) : ∀ (n : Nat) (l : List vpMeSite), l.length ≤ n →
    ((nearScan me l).filter isOK).Sublist l := by
  intro n
  induction n with
  | zero =>
    intro l hl
    obtain rfl : l = [] := List.length_eq_zero.mp (by omega)
    simp [nearScan]
  | succ n ih =>
    intro l hl
    match l, hl with
    | [], _ => simp [nearScan]
    | [a], _ => simp only [nearScan]; exact List.filter_sublist _
    | a :: b :: rest, hl =>
      simp only [List.length_cons] at hl
      simp only [nearScan]
      split
      · have h := ih rest (by omega)
        have hb : isOK (markNear b) = false := by simp [isOK, markNear]
        rw [List.filter_cons, List.filter_cons, hb]
        simp only [Bool.false_eq_true, if_false]
        split
        · exact (h.cons b).cons₂ a
        · exact (h.cons b).cons a
      · have h := ih (b :: rest) (by simp only [List.length_cons]; omega)
        rw [List.filter_cons]
        split
        · exact h.cons₂ a
        · exact h.cons a

/-- C2: `suppressPoints` returns exactly the Sites whose status is 0, in their original
order and unmodified; every other Site is removed. -/
theorem C2_suppressPoints_keeps_exactly_ok (l : vpList vpMeSite) :
    ∃ c, suppressPoints l = some ⟨l.elems.filter (fun s => s.suppress == 0), c⟩ :=
  ⟨_, suppressPoints_eq l⟩

/-- C1: for a consecutive pair of Sites with status 0 and squared distance below
`sample_step²`, the adjacency scan `supressNearPoints` leaves one of the two untouched
and gives the other a non-zero status, `suppressPoints` then removes exactly the Sites with
non-zero status, so one of the two is left; the result is a sub-sequence of the input, and
a list of two such Sites is reduced to its first Site. -/
theorem C1_near_pair_one_survives (me : vpMe) (l : vpList vpMeSite) (k : Nat)
    (s t : vpMeSite) (hs : l.elems[k]? = some s) (ht : l.elems[k + 1]? = some t)
    (hsok : s.suppress = 0) (htok : t.suppress = 0)
    (hnear : vpMeSite.sqrDistance s t < sqr me.sample_step) :
    ∃ m r, supressNearPoints me l = some m ∧ suppressPoints m = some r ∧
      suppressionPass me l = some r ∧
      m.elems.length = l.elems.length ∧
      r.elems = m.elems.filter (fun x => x.suppress == 0) ∧
      r.elems.Sublist l.elems ∧
      ((m.elems[k]? = some s ∧ ∃ t', m.elems[k + 1]? = some t' ∧ t'.suppress ≠ 0) ∨
       (m.elems[k + 1]? = some t ∧ ∃ s', m.elems[k]? = some s' ∧ s'.suppress ≠ 0)) ∧
      (l.elems.length = 2 → r.elems = [s]) := by
  have hne : l.elems ≠ [] := by
    intro h; rw [h] at hs; simp at hs
  have hm := supressNearPoints_eq me l hne
  have hr := suppressPoints_eq ⟨nearScan me l.elems, l.elems.length⟩
  refine ⟨⟨nearScan me l.elems, l.elems.length⟩,
    ⟨(nearScan me l.elems).filter isOK, ((nearScan me l.elems).filter isOK).length + 1⟩,
    hm, hr, ?_, nearScan_length me _ _ (le_refl _), rfl,
    nearScan_filter_sublist me _ _ (le_refl _), ?_, ?_⟩
  · simp [suppressionPass, hm, hr]
  · rcases nearScan_pair me _ _ (le_refl _) k s t hs ht hnear with ⟨h1, h2⟩ | ⟨h1, h2⟩
    · exact Or.inl ⟨h1, markNear t, h2, by simp [markNear]⟩
    · exact Or.inr ⟨h2, markNear s, h1, by simp [markNear]⟩
  · intro hlen
    obtain ⟨es, c⟩ := l
    match es, hlen, hs, ht with
    | [a, b], _, hs, ht =>
      match k, hs, ht with
      | 0, hs, ht =>
        simp at hs ht
        subst hs ht
        simp [nearScan, hnear, isOK, markNear, hsok]

/-- Witness for C1: two Sites with status 0 at distance 1/2 with `sample_step = 1`. -/
theorem C1_near_pair_one_survives_witness :
    ∃ m r, supressNearPoints ⟨1, 100, 4, 5, 2, 1, fun _ _ _ => 0⟩
        ⟨[⟨10, 10, 10, 10, 0, 0, 1, 0⟩, ⟨10, 10, 10, 21 / 2, 0, 0, 1, 0⟩], 0⟩ = some m ∧
      suppressPoints m = some r ∧
      suppressionPass ⟨1, 100, 4, 5, 2, 1, fun _ _ _ => 0⟩
        ⟨[⟨10, 10, 10, 10, 0, 0, 1, 0⟩, ⟨10, 10, 10, 21 / 2, 0, 0, 1, 0⟩], 0⟩ = some r ∧
      m.elems.length = 2 ∧
      r.elems = m.elems.filter (fun x => x.suppress == 0) ∧
      r.elems.Sublist [⟨10, 10, 10, 10, 0, 0, 1, 0⟩, ⟨10, 10, 10, 21 / 2, 0, 0, 1, 0⟩] ∧
      ((m.elems[0]? = some ⟨10, 10, 10, 10, 0, 0, 1, 0⟩ ∧
          ∃ t', m.elems[0 + 1]? = some t' ∧ t'.suppress ≠ 0) ∨
       (m.elems[0 + 1]? = some ⟨10, 10, 10, 21 / 2, 0, 0, 1, 0⟩ ∧
          ∃ s', m.elems[0]? = some s' ∧ s'.suppress ≠ 0)) ∧
      ((2 : Nat) = 2 → r.elems = [⟨10, 10, 10, 10, 0, 0, 1, 0⟩]) :=
  C1_near_pair_one_survives ⟨1, 100, 4, 5, 2, 1, fun _ _ _ => 0⟩
    ⟨[⟨10, 10, 10, 10, 0, 0, 1, 0⟩, ⟨10, 10, 10, 21 / 2, 0, 0, 1, 0⟩], 0⟩ 0
    ⟨10, 10, 10, 10, 0, 0, 1, 0⟩ ⟨10, 10, 10, 21 / 2, 0, 0, 1, 0⟩ rfl rfl rfl rfl
    (by norm_num [vpMeSite.sqrDistance, sqr])

/-! ### Extremity extender -/

theorem front_addLeft {α : Type} (l : vpList α) (v : α) :
    l.front.addLeft v = some ⟨v :: l.elems, 1⟩ := by
  simp [vpList.front, vpList.addLeft]

theorem end_addRight {α : Type} (l : vpList α) (v : α) :
    l.end_.addRight v = some ⟨l.elems ++ [v], l.elems.length + 1⟩ := by
  cases h : l.elems <;> simp [vpList.end_, vpList.addRight, h]

theorem seekBeginLoop_spec (ext : Ext) (I : vpImage) (me : vpMe) (end0 : vpImagePoint)
    (si co sample threshold : ℚ) : ∀ (k : Nat) (P : vpMeSite) (list : vpList vpMeSite)
    (added : Bool), ∃ (P1 : vpMeSite) (B : List vpMeSite) (c : Nat),
      seekBeginLoop ext I me end0 si co sample threshold k P list added =
        some (P1, ⟨B ++ list.elems, c⟩, added || !B.isEmpty) ∧ B.length ≤ k
      ∧ ∀ s ∈ B, s.suppress = 0 := by
  intro k
  induction k with
  | zero =>
    intro P list added
    exact ⟨P, [], list.cur, by simp [seekBeginLoop], by simp, by simp⟩
  | succ k ih =>
    intro P list added
    simp only [seekBeginLoop]
    generalize P.setPos (P.ifloat - si * sample) (P.jfloat - co * sample) = Q
    split
    · exact ⟨Q, [], list.cur, by simp, by simp, by simp⟩
    · split
      · split
        · rename_i hok
          rw [front_addLeft, Option.some_bind]
          obtain ⟨P1, B, c, h1, h2, h3⟩ := ih (ext.track I me Q)
            ⟨ext.track I me Q :: list.elems, 1⟩ true
          refine ⟨P1, B ++ [ext.track I me Q], c, ?_, by simp; omega, ?_⟩
          · rw [h1]; simp
          · intro s hs
            rcases List.mem_append.mp hs with h | h
            · exact h3 s h
            · simp at h; rw [h]; exact hok
        · obtain ⟨P1, B, c, h1, h2, h3⟩ := ih (ext.track I me Q) list added
          exact ⟨P1, B, c, h1, by omega, h3⟩
      · obtain ⟨P1, B, c, h1, h2, h3⟩ := ih Q list added
        exact ⟨P1, B, c, h1, by omega, h3⟩

theorem seekEndLoop_spec (ext : Ext) (I : vpImage) (me : vpMe) (begin0 : vpImagePoint)
    (si co sample threshold : ℚ) : ∀ (k : Nat) (P : vpMeSite) (list : vpList vpMeSite)
    (added : Bool), ∃ (P1 : vpMeSite) (E : List vpMeSite) (c : Nat),
      seekEndLoop ext I me begin0 si co sample threshold k P list added =
        some (P1, ⟨list.elems ++ E, c⟩, added || !E.isEmpty) ∧ E.length ≤ k
      ∧ ∀ s ∈ E, s.suppress = 0 := by
  intro k
  induction k with
  | zero =>
    intro P list added
    exact ⟨P, [], list.cur, by simp [seekEndLoop], by simp, by simp⟩
  | succ k ih =>
    intro P list added
    simp only [seekEndLoop]
    generalize P.setPos (P.ifloat + si * sample) (P.jfloat + co * sample) = Q
    split
    · exact ⟨Q, [], list.cur, by simp, by simp, by simp⟩
    · split
      · split
        · rename_i hok
          rw [end_addRight, Option.some_bind]
          obtain ⟨P1, E, c, h1, h2, h3⟩ := ih (ext.track I me Q)
            ⟨list.elems ++ [ext.track I me Q], list.elems.length + 1⟩ true
          refine ⟨P1, ext.track I me Q :: E, c, ?_, by simp; omega, ?_⟩
          · rw [h1]; simp
          · intro s hs
            rcases List.mem_cons.mp hs with h | h
            · rw [h]; exact hok
            · exact h3 s h
        · obtain ⟨P1, E, c, h1, h2, h3⟩ := ih (ext.track I me Q) list added
          exact ⟨P1, E, c, h1, by omega, h3⟩
      · obtain ⟨P1, E, c, h1, h2, h3⟩ := ih Q list added
        exact ⟨P1, E, c, h1, by omega, h3⟩

/-- Structure of `seekExtremities` on an open curve: the call returns, the new list is
`B ++ old ++ E` with at most three accepted candidates at each end, the search range is
restored, and each counter grows by one exactly when nothing was accepted at its end. -/
theorem seekExtremities_open (ext : Ext) (I : vpImage) (st : vpMeNurbs)
    (hopen : distanceGt (st.nurbs.computeCurveDersPoint 0).1
      (st.nurbs.computeCurveDersPoint 1).1 (3 * st.me.sample_step) = true) :
    ∃ (st1 : vpMeNurbs) (B E : List vpMeSite), seekExtremities ext I st = some st1 ∧
      st1.list.elems = B ++ st.list.elems ++ E ∧ B.length ≤ 3 ∧ E.length ≤ 3 ∧
      (∀ s ∈ B, s.suppress = 0) ∧ (∀ s ∈ E, s.suppress = 0) ∧
      st1.beginPtFound = st.beginPtFound + (if B = [] then 1 else 0) ∧
      st1.endPtFound = st.endPtFound + (if E = [] then 1 else 0) ∧
      st1.me = st.me ∧ st1.nurbs = st.nurbs ∧ st1.dist = st.dist := by
  simp only [seekExtremities, hopen, if_true]
  obtain ⟨P1, B, c, h1, h2, h3⟩ := seekBeginLoop_spec ext I { st.me with range := 2 }
    (st.nurbs.computeCurveDersPoint 1).1
    (|ext.sin (ext.atan2 (st.nurbs.computeCurveDersPoint 0).2.i
        (st.nurbs.computeCurveDersPoint 0).2.j)|
      * (ext.sign (st.nurbs.computeCurveDersPoint 0).2.i : ℚ))
    (|ext.cos (ext.atan2 (st.nurbs.computeCurveDersPoint 0).2.i
        (st.nurbs.computeCurveDersPoint 0).2.j)|
      * (ext.sign (st.nurbs.computeCurveDersPoint 0).2.j : ℚ))
    st.me.sample_step (3 * st.me.sample_step) 3
    ((default : vpMeSite).init5 (st.nurbs.computeCurveDersPoint 0).1.i
      (st.nurbs.computeCurveDersPoint 0).1.j st.list.firstValue.alpha 0
      st.list.firstValue.mask_sign) st.list false
  rw [h1, Option.some_bind]
  obtain ⟨P2, E, c2, h4, h5, h6⟩ := seekEndLoop_spec ext I { st.me with range := 2 }
    (st.nurbs.computeCurveDersPoint 0).1
    (|ext.sin (ext.atan2 (st.nurbs.computeCurveDersPoint 1).2.i
        (st.nurbs.computeCurveDersPoint 1).2.j)|
      * (ext.sign (st.nurbs.computeCurveDersPoint 1).2.i : ℚ))
    (|ext.cos (ext.atan2 (st.nurbs.computeCurveDersPoint 1).2.i
        (st.nurbs.computeCurveDersPoint 1).2.j)|
      * (ext.sign (st.nurbs.computeCurveDersPoint 1).2.j : ℚ))
    st.me.sample_step (3 * st.me.sample_step) 3
    (P1.init5 (st.nurbs.computeCurveDersPoint 1).1.i
      (st.nurbs.computeCurveDersPoint 1).1.j
      (vpList.lastValue ⟨B ++ st.list.elems, c⟩).alpha 0
      (vpList.lastValue ⟨B ++ st.list.elems, c⟩).mask_sign) ⟨B ++ st.list.elems, c⟩ false
  rw [h4, Option.some_bind]
  refine ⟨_, B, E, rfl, rfl, h2, h5, h3, h6, ?_, ?_, ?_, rfl, rfl⟩
  · cases B <;> simp
  · cases E <;> simp
  · cases hme : st.me; simp

/-- C3: on a non-empty Site List, when the Curve points at `u = 0` and `u = 1` are at
distance at most `3·sample_step`, `seekExtremities` removes the head Site and nothing
else: the other Sites stay in order, nothing is added, both failure counters and the
configuration are unchanged. -/
theorem C3_closed_curve_drops_head (ext : Ext) (I : vpImage) (st : vpMeNurbs)
    (hne : st.list.elems ≠ [])
    (hclosed : 0 ≤ 3 * st.me.sample_step ∧
      vpImagePoint.sqrDistance (st.nurbs.computeCurveDersPoint 0).1
        (st.nurbs.computeCurveDersPoint 1).1
        ≤ (3 * st.me.sample_step) * (3 * st.me.sample_step)) :
    ∃ st1, seekExtremities ext I st = some st1 ∧
      st1.list.elems = st.list.elems.tail ∧
      st1.beginPtFound = st.beginPtFound ∧ st1.endPtFound = st.endPtFound ∧
      st1.me = st.me := by
  have hd : distanceGt (st.nurbs.computeCurveDersPoint 0).1
      (st.nurbs.computeCurveDersPoint 1).1 (3 * st.me.sample_step) = false := by
    simp only [distanceGt, Bool.or_eq_false_iff, decide_eq_false_iff_not, not_lt]
    exact ⟨hclosed.1, hclosed.2⟩
  cases hl : st.list.elems with
  | nil => exact absurd hl hne
  | cons x xs =>
    refine ⟨{ st with list := ⟨xs, 1⟩ }, ?_, by simp, rfl, rfl, rfl⟩
    simp [seekExtremities, hd, vpList.front, vpList.suppress, hl]

/-- C4: on an open curve (`distance > 3·sample_step`) `seekExtremities` returns with the
list `B ++ old ++ E`, `B` and `E` being the candidates accepted at the begin and at the
end; each failure counter is the old one plus one when nothing was accepted at its end
and the old one otherwise, so no counter decreases. -/
theorem C4_failure_counters_open_curve (ext : Ext) (I : vpImage) (st : vpMeNurbs)
    (hopen : 3 * st.me.sample_step < 0 ∨
      vpImagePoint.sqrDistance (st.nurbs.computeCurveDersPoint 0).1
        (st.nurbs.computeCurveDersPoint 1).1
        > (3 * st.me.sample_step) * (3 * st.me.sample_step)) :
    ∃ (st1 : vpMeNurbs) (B E : List vpMeSite), seekExtremities ext I st = some st1 ∧
      st1.list.elems = B ++ st.list.elems ++ E ∧
      st1.beginPtFound = st.beginPtFound + (if B = [] then 1 else 0) ∧
      st1.endPtFound = st.endPtFound + (if E = [] then 1 else 0) ∧
      st.beginPtFound ≤ st1.beginPtFound ∧ st.endPtFound ≤ st1.endPtFound := by
  have hd : distanceGt (st.nurbs.computeCurveDersPoint 0).1
      (st.nurbs.computeCurveDersPoint 1).1 (3 * st.me.sample_step) = true := by
    simp only [distanceGt, Bool.or_eq_true, decide_eq_true_eq]
    exact hopen
  obtain ⟨st1, B, E, h, hl, _, _, _, _, hb, he, _⟩ := seekExtremities_open ext I st hd
  refine ⟨st1, B, E, h, hl, hb, he, ?_, ?_⟩
  · rw [hb]; split <;> omega
  · rw [he]; split <;> omega

/-! ### Sampler and global resample guard -/

theorem M_PI_pos : 0 < M_PI := by norm_num [M_PI]

theorem subPiLoop_some : ∀ (fuel : Nat) (x : ℚ), ⌈x / M_PI⌉.toNat + 1 ≤ fuel →
    ∃ y, subPiLoop fuel x = some y := by
  intro fuel
  induction fuel with
  | zero => intro x h; omega
  | succ f ih =>
    intro x h
    simp only [subPiLoop]
    split
    · rename_i hx
      apply ih
      have h1 : (x - M_PI) / M_PI = x / M_PI - 1 := by
        field_simp [M_PI_pos.ne']
      have h2 : (1 : ℚ) < x / M_PI := by
        rw [lt_div_iff₀ M_PI_pos]; simpa using hx
      have h3 : (1 : Int) < ⌈x / M_PI⌉ := by
        have := Int.le_ceil (x / M_PI)
        have h4 : ((1 : Int) : ℚ) < ((⌈x / M_PI⌉ : Int) : ℚ) := by
          push_cast; linarith
        exact_mod_cast h4
      rw [h1, Int.ceil_sub_one]
      omega
    · exact ⟨x, rfl⟩

theorem addPiLoop_some : ∀ (fuel : Nat) (x : ℚ), ⌈-x / M_PI⌉.toNat + 1 ≤ fuel →
    ∃ y, addPiLoop fuel x = some y := by
  intro fuel
  induction fuel with
  | zero => intro x h; omega
  | succ f ih =>
    intro x h
    simp only [addPiLoop]
    split
    · rename_i hx
      apply ih
      have h1 : -(x + M_PI) / M_PI = -x / M_PI - 1 := by
        field_simp [M_PI_pos.ne']
        ring
      have h2 : (0 : ℚ) < -x / M_PI := by
        apply div_pos _ M_PI_pos
        linarith
      have h3 : (0 : Int) < ⌈-x / M_PI⌉ := Int.ceil_pos.mpr h2
      rw [h1, Int.ceil_sub_one]
      omega
    · exact ⟨x, rfl⟩

theorem normalizeAngle_some (x : ℚ) : ∃ y, normalizeAngle x = some y := by
  obtain ⟨y, hy⟩ := subPiLoop_some (⌈x / M_PI⌉.toNat + 1) x (le_refl _)
  obtain ⟨z, hz⟩ := addPiLoop_some (⌈-y / M_PI⌉.toNat + 1) y (le_refl _)
  exact ⟨z, by simp [normalizeAngle, hy, hz]⟩

theorem computeDelta_some (ext : Ext) (di dj : ℚ) : ∃ y, computeDelta ext di dj = some y :=
  normalizeAngle_some _

theorem addRight_at_end {α : Type} (l : vpList α) (v : α) (h : l.cur = l.elems.length) :
    l.addRight v = some ⟨l.elems ++ [v], l.elems.length + 1⟩ := by
  have := end_addRight l v
  simpa [vpList.end_, ← h] using this

theorem sampleLoop_some (ext : Ext) (I : vpImage) (me : vpMe) (nurbs : vpNurbs) (step : ℚ)
    (hstep : 0 < step) : ∀ (fuel : Nat) (u : ℚ) (pt_1 : vpImagePoint)
    (list : vpList vpMeSite), list.cur = list.elems.length →
    (if u ≤ 1 then ⌊(1 - u) / step⌋.toNat + 2 else 1) ≤ fuel →
    ∃ l, sampleLoop ext I me nurbs step fuel u pt_1 list = some l := by
  intro fuel
  induction fuel with
  | zero => intro u pt_1 list _ h; split at h <;> omega
  | succ f ih =>
    intro u pt_1 list hc h
    simp only [sampleLoop]
    by_cases hu : u ≤ 1
    · simp only [hu, if_true] at h ⊢
      have hfuel : (if u + step ≤ 1 then ⌊(1 - (u + step)) / step⌋.toNat + 2 else 1) ≤ f := by
        split
        · rename_i hu2
          have h1 : (1 - (u + step)) / step = (1 - u) / step - 1 := by
            field_simp [hstep.ne']
            ring
          have h2 : (0 : ℚ) ≤ (1 - (u + step)) / step :=
            div_nonneg (by linarith) hstep.le
          have h3 : (0 : Int) ≤ ⌊(1 - u) / step - 1⌋ := by
            rw [← h1]; exact Int.floor_nonneg.mpr h2
          rw [h1]
          rw [Int.floor_sub_one] at h3 ⊢
          omega
        · omega
      obtain ⟨delta, hd⟩ := computeDelta_some ext (nurbs.computeCurveDersPoint u).2.i
        (nurbs.computeCurveDersPoint u).2.j
      rw [hd, Option.some_bind]
      split
      · rw [addRight_at_end list _ hc, Option.some_bind]
        exact ih _ _ _ (by simp) hfuel
      · exact ih _ _ _ hc hfuel
    · simp [hu]

theorem sample_indep (ext : Ext) (I : vpImage) (st : vpMeNurbs) (l0 : vpList vpMeSite) :
    sample ext I { st with list := l0 } = sample ext I st := by
  simp [sample, vpList.kill]

theorem sample_some (ext : Ext) (I : vpImage) (st : vpMeNurbs)
    (hp : 0 ≤ st.me.points_to_track) : ∃ l, sample ext I st = some l := by
  simp only [sample]
  rw [if_neg (by omega)]
  by_cases h0 : st.me.points_to_track = 0
  · simp only [h0, if_true]
    apply sampleLoop_some ext I st.me st.nurbs 2 (by norm_num)
    · simp [vpList.kill]
    · norm_num
  · simp only [h0, if_false]
    have hpos : (0 : ℚ) < (st.me.points_to_track : ℚ) := by
      have : 0 < st.me.points_to_track := by omega
      exact_mod_cast this
    apply sampleLoop_some ext I st.me st.nurbs _ (by positivity)
    · simp [vpList.kill]
    · have h1 : ((1 : ℚ) - 0) / (1 / (st.me.points_to_track : ℚ)) = (st.me.points_to_track : ℚ) := by
        field_simp
      rw [if_pos (by norm_num), h1, Int.floor_intCast]

theorem floor_scale_lt (n : Int) (x : ℚ) (h : n < ⌊7 / 10 * x⌋) :
    (n : ℚ) < 7 / 10 * ((⌊x⌋ : Int) : ℚ) := by
  have h1 : ((n + 1 : Int) : ℚ) ≤ ((⌊7 / 10 * x⌋ : Int) : ℚ) := by
    exact_mod_cast (Int.add_one_le_iff.mpr h)
  have h2 : ((⌊7 / 10 * x⌋ : Int) : ℚ) ≤ 7 / 10 * x := Int.floor_le _
  have h3 : x < ((⌊x⌋ : Int) : ℚ) + 1 := Int.lt_floor_add_one x
  push_cast at h1
  linarith

theorem reSample_rebuild (ext : Ext) (I : vpImage) (st : vpMeNurbs)
    (hstep : st.me.sample_step ≠ 0)
    (h : ((numberOfSignal st.list : Int) : ℚ)
        < 7 / 10 * ((⌊st.dist / st.me.sample_step⌋ : Int) : ℚ)) :
    reSample ext I st = (sample ext I st).bind (fun l =>
        (ext.initTracking I st.me l).map fun l1 =>
          { st with list := l1 }) := by
  have ht : reSampleTest (numberOfSignal st.list) st.dist st.me.sample_step = true := by
    simp [reSampleTest, hstep, h]
  simp only [reSample, ht, if_true]
  rw [sample_indep]

/-- C7: with a non-zero `sample_step`, `reSample` rebuilds the list exactly when the live
count `n` satisfies `n < 0.7·floor(dist/sample_step)`: then the result is what the Sampler
builds (whatever the old list held; the Sampler returns for `points_to_track ≥ 0`),
handed to the init tracker; otherwise the Sites of the list are left as they are. -/
theorem C7_reSample_iff_below_threshold (ext : Ext) (I : vpImage) (st : vpMeNurbs)
    (hstep : st.me.sample_step ≠ 0) :
    (((numberOfSignal st.list : Int) : ℚ)
        < 7 / 10 * ((⌊st.dist / st.me.sample_step⌋ : Int) : ℚ) →
      reSample ext I st = (sample ext I st).bind (fun l =>
        (ext.initTracking I st.me l).map fun l1 =>
          { st with list := l1 }) ∧
      (∀ l0, sample ext I { st with list := l0 } = sample ext I st) ∧
      (0 ≤ st.me.points_to_track → ∃ l, sample ext I st = some l)) ∧
    (¬ (((numberOfSignal st.list : Int) : ℚ)
        < 7 / 10 * ((⌊st.dist / st.me.sample_step⌋ : Int) : ℚ)) →
      ∃ st1, reSample ext I st = some st1 ∧ st1.list.elems = st.list.elems ∧
        st1.me = st.me ∧ st1.beginPtFound = st.beginPtFound ∧
        st1.endPtFound = st.endPtFound) := by
  constructor
  · intro h
    exact ⟨reSample_rebuild ext I st hstep h, sample_indep ext I st, sample_some ext I st⟩
  · intro h
    have ht : reSampleTest (numberOfSignal st.list) st.dist st.me.sample_step = false := by
      simp only [reSampleTest, hstep, if_false, decide_eq_false_iff_not]
      exact h
    exact ⟨{ st with list := { st.list with cur := st.list.elems.length + 1 } },
      by simp [reSample, ht], rfl, rfl, rfl, rfl⟩

/-- C8: for a Curve length `L` (non-negative or not), a sample step `s > 0` and a live
count `n < floor(0.7·L/s)`, `reSample` rebuilds the list with the Sampler (and the Sampler
returns for `points_to_track ≥ 0`). -/
theorem C8_reSample_below_floor (ext : Ext) (I : vpImage) (st : vpMeNurbs)
    (hs : 0 < st.me.sample_step)
    (hn : numberOfSignal st.list < ⌊7 / 10 * st.dist / st.me.sample_step⌋) :
    reSample ext I st = (sample ext I st).bind (fun l =>
        (ext.initTracking I st.me l).map fun l1 =>
          { st with list := l1 }) ∧
      (0 ≤ st.me.points_to_track → ∃ l, sample ext I st = some l) := by
  have h1 : ((numberOfSignal st.list : Int) : ℚ)
      < 7 / 10 * ((⌊st.dist / st.me.sample_step⌋ : Int) : ℚ) := by
    apply floor_scale_lt
    rw [← mul_div_assoc]
    exact hn
  exact ⟨reSample_rebuild ext I st hs.ne' h1, sample_some ext I st⟩

/-! ### Contour recovery -/

theorem except_bind_ok {α β : Type} {x : Except Err α} {f : α → Except Err β} {b : β}
    (h : x.bind f = Except.ok b) : ∃ a, x = Except.ok a ∧ f a = Except.ok b := by
  cases x with
  | error e => simp [Except.bind] at h
  | ok a => exact ⟨a, rfl, h⟩

theorem lastPtLoopBegin_some (ext : Ext) (nurbs : vpNurbs) (topLeft : vpImagePoint) :
    ∀ (fuel : Nat) (u : ℚ) (p : vpImagePoint),
      ⌈(1 - u) * 10000⌉.toNat + 1 ≤ fuel →
      ∃ r, lastPtLoopBegin ext nurbs topLeft fuel u p = some r := by
  intro fuel
  induction fuel with
  | zero => intro u p h; omega
  | succ f ih =>
    intro u p h
    simp only [lastPtLoopBegin]
    split
    · rename_i hc
      simp only [Bool.and_eq_true, decide_eq_true_eq] at hc
      apply ih
      have h1 : (1 - (u + 1 / 10000)) * 10000 = (1 - u) * 10000 - 1 := by ring
      have h2 : (0 : Int) < ⌈(1 - u) * 10000⌉ := Int.ceil_pos.mpr (by linarith [hc.2])
      rw [h1, Int.ceil_sub_one]
      omega
    · exact ⟨_, rfl⟩

theorem lastPtLoopEnd_some (ext : Ext) (nurbs : vpNurbs) (topLeft : vpImagePoint) :
    ∀ (fuel : Nat) (u : ℚ) (p : vpImagePoint),
      ⌈u * 10000⌉.toNat + 1 ≤ fuel →
      ∃ r, lastPtLoopEnd ext nurbs topLeft fuel u p = some r := by
  intro fuel
  induction fuel with
  | zero => intro u p h; omega
  | succ f ih =>
    intro u p h
    simp only [lastPtLoopEnd]
    split
    · rename_i hc
      simp only [Bool.and_eq_true, decide_eq_true_eq] at hc
      apply ih
      have h1 : (u - 1 / 10000) * 10000 = u * 10000 - 1 := by ring
      have h2 : (0 : Int) < ⌈u * 10000⌉ := Int.ceil_pos.mpr (by linarith [hc.2])
      rw [h1, Int.ceil_sub_one]
      omega
    · exact ⟨_, rfl⟩

theorem seedBegin_ok (ext : Ext) (I : vpImage) (st : vpMeNurbs) :
    ∃ w, seedBegin ext I st = Except.ok w := by
  obtain ⟨r, hr⟩ := lastPtLoopBegin_some ext st.nurbs
    ⟨(st.nurbs.computeCurveDersPoint 0).1.i - 15, (st.nurbs.computeCurveDersPoint 0).1.j - 15⟩
    10002 0 (st.nurbs.computeCurveDersPoint 0).1 (by norm_num; decide)
  simp only [seedBegin, hr, orDiverges, Except.bind]
  exact ⟨_, rfl⟩

theorem seedEnd_ok (ext : Ext) (I : vpImage) (st : vpMeNurbs) :
    ∃ w, seedEnd ext I st = Except.ok w := by
  obtain ⟨r, hr⟩ := lastPtLoopEnd_some ext st.nurbs
    ⟨(st.nurbs.computeCurveDersPoint 1).1.i - 15, (st.nurbs.computeCurveDersPoint 1).1.j - 15⟩
    10002 1 (st.nurbs.computeCurveDersPoint 1).1 (by norm_num; decide)
  simp only [seedEnd, hr, orDiverges, Except.bind]
  exact ⟨_, rfl⟩

theorem findCenterPoint_false (pts : List vpImagePoint)
    (h : ∀ p ∈ pts, ¬ vpImagePoint.sqrDistance p ⟨15, 15⟩ ≤ 16) :
    findCenterPoint pts = false := by
  induction pts with
  | nil => rfl
  | cons p rest ih =>
    simp only [findCenterPoint]
    rw [if_neg (h p (List.mem_cons_self _ _))]
    exact ih fun q hq => h q (List.mem_cons_of_mem _ hq)

theorem traceContour_no_seed (Isub : vpImage) :
    traceContour Isub ⟨-1, -1⟩ = Except.ok [] := by
  simp [traceContour]

/-- What a run of Contour Recovery at the begin end leaves untouched. -/
theorem recoverBegin_frame (ext : Ext) (I : vpImage) (st st1 : vpMeNurbs)
    (h : recoverBegin ext I st = Except.ok st1) :
    st1.me = st.me ∧ st1.beginPtFound = st.beginPtFound ∧
      st1.endPtFound = st.endPtFound := by
  simp only [recoverBegin] at h
  obtain ⟨⟨topLeft, Isub, fb⟩, _, h⟩ := except_bind_ok h
  obtain ⟨pts, _, h⟩ := except_bind_ok h
  split at h
  · obtain ⟨l1, _, h⟩ := except_bind_ok h
    obtain ⟨ins, _, h⟩ := except_bind_ok h
    obtain ⟨l2, _, h⟩ := except_bind_ok h
    injection h with h
    subst h
    exact ⟨rfl, rfl, rfl⟩
  · injection h with h
    subst h
    exact ⟨rfl, rfl, rfl⟩

/-- What a run of Contour Recovery at the end end leaves untouched. -/
theorem recoverEnd_frame (ext : Ext) (I : vpImage) (st st1 : vpMeNurbs)
    (h : recoverEnd ext I st = Except.ok st1) :
    st1.me = st.me ∧ st1.beginPtFound = st.beginPtFound ∧
      st1.endPtFound = st.endPtFound := by
  simp only [recoverEnd] at h
  obtain ⟨⟨topLeft, Isub, fb⟩, _, h⟩ := except_bind_ok h
  obtain ⟨pts, _, h⟩ := except_bind_ok h
  split at h
  · obtain ⟨l1, _, h⟩ := except_bind_ok h
    obtain ⟨ins, _, h⟩ := except_bind_ok h
    obtain ⟨l2, _, h⟩ := except_bind_ok h
    injection h with h
    subst h
    exact ⟨rfl, rfl, rfl⟩
  · injection h with h
    subst h
    exact ⟨rfl, rfl, rfl⟩

/-- Contour Recovery at the begin end changes nothing when there is no seed or no traced
point near the window centre. -/
theorem recoverBegin_miss (ext : Ext) (I : vpImage) (st : vpMeNurbs)
    (topLeft : vpImagePoint) (Isub : vpImage) (fb : vpImagePoint)
    (hseed : seedBegin ext I st = Except.ok (topLeft, Isub, fb))
    (hmiss : fb = ⟨-1, -1⟩ ∨ ∃ pts, traceContour Isub fb = Except.ok pts ∧
      ∀ p ∈ pts, ¬ vpImagePoint.sqrDistance p ⟨15, 15⟩ ≤ 16) :
    recoverBegin ext I st = Except.ok st := by
  simp only [recoverBegin, hseed, Except.bind]
  rcases hmiss with h | ⟨pts, h1, h2⟩
  · subst h
    simp [traceContour_no_seed, findCenterPoint]
  · simp [h1, findCenterPoint_false pts h2]

/-- Contour Recovery at the end end changes nothing when there is no seed or no traced
point near the window centre. -/
theorem recoverEnd_miss (ext : Ext) (I : vpImage) (st : vpMeNurbs)
    (topLeft : vpImagePoint) (Isub : vpImage) (fb : vpImagePoint)
    (hseed : seedEnd ext I st = Except.ok (topLeft, Isub, fb))
    (hmiss : fb = ⟨-1, -1⟩ ∨ ∃ pts, traceContour Isub fb = Except.ok pts ∧
      ∀ p ∈ pts, ¬ vpImagePoint.sqrDistance p ⟨15, 15⟩ ≤ 16) :
    recoverEnd ext I st = Except.ok st := by
  simp only [recoverEnd, hseed, Except.bind]
  rcases hmiss with h | ⟨pts, h1, h2⟩
  · subst h
    simp [traceContour_no_seed, findCenterPoint]
  · simp [h1, findCenterPoint_false pts h2]

/-- C5: when `seekExtremitiesCanny` returns, the failure counter of an end is 0 if on
entry that counter was at least 3 and the end Site was far from the image edge, and it
is the counter of entry otherwise; this holds whatever the edge detector, the curve and
the tracker give. -/
theorem C5_recovery_resets_counter (ext : Ext) (I : vpImage) (st st1 : vpMeNurbs)
    (h : seekExtremitiesCanny ext I st = Except.ok st1) :
    ((3 ≤ st.beginPtFound ∧
        farFromImageEdge I ⟨st.list.firstValue.ifloat, st.list.firstValue.jfloat⟩ = true) →
      st1.beginPtFound = 0) ∧
    (¬ (3 ≤ st.beginPtFound ∧
        farFromImageEdge I ⟨st.list.firstValue.ifloat, st.list.firstValue.jfloat⟩ = true) →
      st1.beginPtFound = st.beginPtFound) ∧
    ((3 ≤ st.endPtFound ∧
        farFromImageEdge I ⟨st.list.lastValue.ifloat, st.list.lastValue.jfloat⟩ = true) →
      st1.endPtFound = 0) ∧
    (¬ (3 ≤ st.endPtFound ∧
        farFromImageEdge I ⟨st.list.lastValue.ifloat, st.list.lastValue.jfloat⟩ = true) →
      st1.endPtFound = st.endPtFound) := by
  simp only [seekExtremitiesCanny] at h
  obtain ⟨s1, hb, h⟩ := except_bind_ok h
  have hB : ((3 ≤ st.beginPtFound ∧
        farFromImageEdge I ⟨st.list.firstValue.ifloat, st.list.firstValue.jfloat⟩ = true) →
        s1.beginPtFound = 0) ∧
      (¬ (3 ≤ st.beginPtFound ∧
        farFromImageEdge I ⟨st.list.firstValue.ifloat, st.list.firstValue.jfloat⟩ = true) →
        s1.beginPtFound = st.beginPtFound) ∧ s1.endPtFound = st.endPtFound := by
    split at hb
    · rename_i hc
      simp only [Bool.and_eq_true, decide_eq_true_eq, ge_iff_le] at hc
      obtain ⟨s0, h0, hb⟩ := except_bind_ok hb
      injection hb with hb
      subst hb
      exact ⟨fun _ => rfl, fun hn => absurd hc hn, (recoverBegin_frame ext I st s0 h0).2.2⟩
    · rename_i hc
      simp only [Bool.and_eq_true, decide_eq_true_eq, ge_iff_le] at hc
      injection hb with hb
      subst hb
      exact ⟨fun hp => absurd hp hc, fun _ => rfl, rfl⟩
  obtain ⟨hB1, hB2, hB3⟩ := hB
  split at h
  · rename_i hc
    simp only [Bool.and_eq_true, decide_eq_true_eq, ge_iff_le, hB3] at hc
    obtain ⟨s2, h2, h⟩ := except_bind_ok h
    injection h with h
    subst h
    have hf := recoverEnd_frame ext I s1 s2 h2
    refine ⟨fun hp => ?_, fun hn => ?_, fun _ => rfl, fun hn => absurd hc hn⟩
    · show s2.beginPtFound = 0
      rw [hf.2.1]; exact hB1 hp
    · show s2.beginPtFound = st.beginPtFound
      rw [hf.2.1]; exact hB2 hn
  · rename_i hc
    simp only [Bool.and_eq_true, decide_eq_true_eq, ge_iff_le, hB3] at hc
    injection h with h
    subst h
    exact ⟨hB1, hB2, fun hp => absurd hp hc, fun _ => hB3⟩

theorem seekExtremitiesCanny_begin_only (ext : Ext) (I : vpImage) (st s1 : vpMeNurbs)
    (hb : 3 ≤ st.beginPtFound ∧
      farFromImageEdge I ⟨st.list.firstValue.ifloat, st.list.firstValue.jfloat⟩ = true)
    (he : ¬ (3 ≤ st.endPtFound ∧
      farFromImageEdge I ⟨st.list.lastValue.ifloat, st.list.lastValue.jfloat⟩ = true))
    (h : recoverBegin ext I st = Except.ok s1) :
    seekExtremitiesCanny ext I st = Except.ok { s1 with beginPtFound := 0 } := by
  have hf := recoverBegin_frame ext I st s1 h
  have hc1 : (decide (st.beginPtFound ≥ 3) &&
      farFromImageEdge I ⟨st.list.firstValue.ifloat, st.list.firstValue.jfloat⟩) = true := by
    simp only [Bool.and_eq_true, decide_eq_true_eq, ge_iff_le]; exact hb
  have hc2 : (decide (s1.endPtFound ≥ 3) &&
      farFromImageEdge I ⟨st.list.lastValue.ifloat, st.list.lastValue.jfloat⟩) = false := by
    rw [Bool.eq_false_iff]
    intro hc
    simp only [Bool.and_eq_true, decide_eq_true_eq, ge_iff_le, hf.2.2] at hc
    exact he hc
  simp only [seekExtremitiesCanny, hc1, if_true, h, Except.bind, hc2]
  simp

theorem seekExtremitiesCanny_end_only (ext : Ext) (I : vpImage) (st s1 : vpMeNurbs)
    (hb : ¬ (3 ≤ st.beginPtFound ∧
      farFromImageEdge I ⟨st.list.firstValue.ifloat, st.list.firstValue.jfloat⟩ = true))
    (he : 3 ≤ st.endPtFound ∧
      farFromImageEdge I ⟨st.list.lastValue.ifloat, st.list.lastValue.jfloat⟩ = true)
    (h : recoverEnd ext I st = Except.ok s1) :
    seekExtremitiesCanny ext I st = Except.ok { s1 with endPtFound := 0 } := by
  have hc1 : (decide (st.beginPtFound ≥ 3) &&
      farFromImageEdge I ⟨st.list.firstValue.ifloat, st.list.firstValue.jfloat⟩) = false := by
    rw [Bool.eq_false_iff]
    intro hc
    simp only [Bool.and_eq_true, decide_eq_true_eq, ge_iff_le] at hc
    exact hb hc
  have hc2 : (decide (st.endPtFound ≥ 3) &&
      farFromImageEdge I ⟨st.list.lastValue.ifloat, st.list.lastValue.jfloat⟩) = true := by
    simp only [Bool.and_eq_true, decide_eq_true_eq, ge_iff_le]; exact he
  simp only [seekExtremitiesCanny, hc1, Except.bind, hc2, if_true, h]
  simp [he, h]

/-- C6: in Contour Recovery of one end, when `findFirstBorder` gives no seed, or the
trace holds no point within squared distance 16 of `(15,15)`, the recovery block leaves
the whole state as it was (Site List, search range and all), and a call of
`seekExtremitiesCanny` that recovers this end only changes nothing but the failure
counter of that end. -/
theorem C6_recovery_miss_is_silent (ext : Ext) (I : vpImage) (st : vpMeNurbs) :
    (∀ topLeft Isub fb, seedBegin ext I st = Except.ok (topLeft, Isub, fb) →
      (fb = ⟨-1, -1⟩ ∨ ∃ pts, traceContour Isub fb = Except.ok pts ∧
        ∀ p ∈ pts, ¬ vpImagePoint.sqrDistance p ⟨15, 15⟩ ≤ 16) →
      recoverBegin ext I st = Except.ok st ∧
      ((3 ≤ st.beginPtFound ∧
          farFromImageEdge I ⟨st.list.firstValue.ifloat, st.list.firstValue.jfloat⟩ = true) →
        ¬ (3 ≤ st.endPtFound ∧
          farFromImageEdge I ⟨st.list.lastValue.ifloat, st.list.lastValue.jfloat⟩ = true) →
        seekExtremitiesCanny ext I st = Except.ok { st with beginPtFound := 0 })) ∧
    (∀ topLeft Isub fb, seedEnd ext I st = Except.ok (topLeft, Isub, fb) →
      (fb = ⟨-1, -1⟩ ∨ ∃ pts, traceContour Isub fb = Except.ok pts ∧
        ∀ p ∈ pts, ¬ vpImagePoint.sqrDistance p ⟨15, 15⟩ ≤ 16) →
      recoverEnd ext I st = Except.ok st ∧
      (¬ (3 ≤ st.beginPtFound ∧
          farFromImageEdge I ⟨st.list.firstValue.ifloat, st.list.firstValue.jfloat⟩ = true) →
        (3 ≤ st.endPtFound ∧
          farFromImageEdge I ⟨st.list.lastValue.ifloat, st.list.lastValue.jfloat⟩ = true) →
        seekExtremitiesCanny ext I st = Except.ok { st with endPtFound := 0 })) := by
  constructor
  · intro topLeft Isub fb hseed hmiss
    have h := recoverBegin_miss ext I st topLeft Isub fb hseed hmiss
    exact ⟨h, fun hb he => seekExtremitiesCanny_begin_only ext I st st hb he h⟩
  · intro topLeft Isub fb hseed hmiss
    have h := recoverEnd_miss ext I st topLeft Isub fb hseed hmiss
    exact ⟨h, fun hb he => seekExtremitiesCanny_end_only ext I st st hb he h⟩

/-! ### Example runs -/

theorem findFirstBorderStep_black (Isub : vpImage) (hz : ∀ i j, Isub.pix i j = 0)
    (iP : vpImagePoint) (acc : ℚ × vpImagePoint) (i j : Nat) :
    findFirstBorderStep Isub iP acc i j = acc := by
  simp [findFirstBorderStep, hz]

theorem findFirstBorder_black (Isub : vpImage) (hz : ∀ i j, Isub.pix i j = 0)
    (iP : vpImagePoint) : findFirstBorder Isub iP = ⟨-1, -1⟩ := by
  have hin : ∀ (l : List Nat) (acc : ℚ × vpImagePoint) (i : Nat),
      l.foldl (fun acc j => findFirstBorderStep Isub iP acc i j) acc = acc := by
    intro l
    induction l with
    | nil => intro acc i; rfl
    | cons j js ih =>
      intro acc i
      rw [List.foldl_cons, findFirstBorderStep_black Isub hz, ih]
  have hout : ∀ (l : List Nat) (acc : ℚ × vpImagePoint),
      l.foldl (fun acc i => (List.range (Isub.cols + 1)).foldl
        (fun acc j => findFirstBorderStep Isub iP acc i j) acc) acc = acc := by
    intro l
    induction l with
    | nil => intro acc; rfl
    | cons i is ih =>
      intro acc
      rw [List.foldl_cons, hin, ih]
  simp only [findFirstBorder, hout]

theorem exSeedBegin (st : vpMeNurbs) : ∃ topLeft Isub,
    seedBegin exExt exImage st = Except.ok (topLeft, Isub, ⟨-1, -1⟩) := by
  refine ⟨⟨(st.nurbs.computeCurveDersPoint 0).1.i - 15,
    (st.nurbs.computeCurveDersPoint 0).1.j - 15⟩, ⟨32, 32, fun _ _ => 0⟩, ?_⟩
  have h : ∀ tl p, lastPtLoopBegin exExt st.nurbs tl (10001 + 1) 0 p = some (0, p) := by
    intro tl p
    simp [lastPtLoopBegin, exExt]
  simp only [seedBegin]
  rw [h]
  simp only [orDiverges, Except.bind]
  rw [show exExt.canny exImage _ st.cannyTh1 st.cannyTh2 = ⟨32, 32, fun _ _ => 0⟩ from rfl,
    findFirstBorder_black _ (fun _ _ => rfl)]

/-- Example: recovery of the begin end with an edge detector that finds nothing. -/
theorem exCannyRun :
    seekExtremitiesCanny exExt exImage
        (exState [exSite 50 100, exSite 50 105] (exLine 100 5) 5 3 0) =
      Except.ok { exState [exSite 50 100, exSite 50 105] (exLine 100 5) 5 3 0 with
        beginPtFound := 0 } := by
  obtain ⟨topLeft, Isub, hseed⟩ :=
    exSeedBegin (exState [exSite 50 100, exSite 50 105] (exLine 100 5) 5 3 0)
  have h := recoverBegin_miss exExt exImage _ topLeft Isub _ hseed (Or.inl rfl)
  refine seekExtremitiesCanny_begin_only exExt exImage _ _ ⟨by decide, ?_⟩ ?_ h
  · decide!
  · intro hc
    exact absurd hc.1 (by decide)

/-- Witness for C5: three failures at the begin end, none at the end end; the call
returns and afterwards the begin counter is 0 and the end counter is still 0. -/
theorem C5_recovery_resets_counter_witness :
    ∃ st1, seekExtremitiesCanny exExt exImage
        (exState [exSite 50 100, exSite 50 105] (exLine 100 5) 5 3 0) = Except.ok st1 ∧
      st1.beginPtFound = 0 ∧ st1.endPtFound = 0 :=
  ⟨_, exCannyRun,
   (C5_recovery_resets_counter exExt exImage _ _ exCannyRun).1 ⟨by decide, by decide!⟩,
   (C5_recovery_resets_counter exExt exImage _ _ exCannyRun).2.2.2
     (fun hc => absurd hc.1 (by decide))⟩

/-- Witness for C6: the edge detector finds nothing, so there is no seed at the begin
end; the recovery block gives the state back and the call only resets the begin
counter. -/
theorem C6_recovery_miss_is_silent_witness :
    recoverBegin exExt exImage
        (exState [exSite 50 100, exSite 50 105] (exLine 100 5) 5 3 0) =
      Except.ok (exState [exSite 50 100, exSite 50 105] (exLine 100 5) 5 3 0) ∧
    seekExtremitiesCanny exExt exImage
        (exState [exSite 50 100, exSite 50 105] (exLine 100 5) 5 3 0) =
      Except.ok { exState [exSite 50 100, exSite 50 105] (exLine 100 5) 5 3 0 with
        beginPtFound := 0 } := by
  obtain ⟨topLeft, Isub, hseed⟩ :=
    exSeedBegin (exState [exSite 50 100, exSite 50 105] (exLine 100 5) 5 3 0)
  have h := (C6_recovery_miss_is_silent exExt exImage
    (exState [exSite 50 100, exSite 50 105] (exLine 100 5) 5 3 0)).1
    topLeft Isub _ hseed (Or.inl rfl)
  exact ⟨h.1, h.2 ⟨by decide, by decide!⟩ (fun hc => absurd hc.1 (by decide))⟩

/-- Witness for C3: a Curve of length 2 with sample step 1 is closed; the head Site
goes. -/
theorem C3_closed_curve_drops_head_witness :
    ∃ st1, seekExtremities exExt exImage
        (exState [exSite 50 10, exSite 50 12] (exLine 10 2) 2 0 0) = some st1 ∧
      st1.list.elems = [exSite 50 12] ∧ st1.beginPtFound = 0 ∧ st1.endPtFound = 0 ∧
      st1.me = exMe :=
  C3_closed_curve_drops_head exExt exImage
    (exState [exSite 50 10, exSite 50 12] (exLine 10 2) 2 0 0)
    (by simp [exState]) (by decide!)

/-- Witness for C4: a Curve of length 1000 with sample step 1 is open. -/
theorem C4_failure_counters_open_curve_witness :
    ∃ (st1 : vpMeNurbs) (B E : List vpMeSite), seekExtremities exExt exImage
        (exState [exSite 50 100, exSite 50 900] (exLine 100 1000) 1000 0 0) = some st1 ∧
      st1.list.elems = B ++ [exSite 50 100, exSite 50 900] ++ E ∧
      st1.beginPtFound = 0 + (if B = [] then 1 else 0) ∧
      st1.endPtFound = 0 + (if E = [] then 1 else 0) ∧
      0 ≤ st1.beginPtFound ∧ 0 ≤ st1.endPtFound :=
  C4_failure_counters_open_curve exExt exImage
    (exState [exSite 50 100, exSite 50 900] (exLine 100 1000) 1000 0 0)
    (by right; decide!)

/-- Witness for C7: two live Sites on a Curve of length 2 are enough, nothing is
rebuilt. -/
theorem C7_reSample_iff_below_threshold_witness :
    ∃ st1, reSample exExt exImage
        (exState [exSite 50 10, exSite 50 12] (exLine 10 2) 2 0 0) = some st1 ∧
      st1.list.elems = [exSite 50 10, exSite 50 12] :=
  have h := (C7_reSample_iff_below_threshold exExt exImage
    (exState [exSite 50 10, exSite 50 12] (exLine 10 2) 2 0 0) (by decide!)).2 (by decide!)
  ⟨h.choose, h.choose_spec.1, h.choose_spec.2.1⟩

/-- Witness for C8: two live Sites on a Curve of length 1000 with sample step 1 are
below `floor(0.7·1000) = 700`, the list is rebuilt. -/
theorem C8_reSample_below_floor_witness :
    reSample exExt exImage
        (exState [exSite 50 100, exSite 50 900] (exLine 100 1000) 1000 0 0) =
      (sample exExt exImage
        (exState [exSite 50 100, exSite 50 900] (exLine 100 1000) 1000 0 0)).bind (fun l =>
        (exExt.initTracking exImage exMe l).map fun l1 =>
          { exState [exSite 50 100, exSite 50 900] (exLine 100 1000) 1000 0 0 with
            list := l1 }) ∧
    (0 ≤ exMe.points_to_track → ∃ l, sample exExt exImage
        (exState [exSite 50 100, exSite 50 900] (exLine 100 1000) 1000 0 0) = some l) :=
  C8_reSample_below_floor exExt exImage
    (exState [exSite 50 100, exSite 50 900] (exLine 100 1000) 1000 0 0)
    (by decide!) (by decide!)

/-! ### Local resampler -/

theorem zipAfter_nil {α : Type} (pre : List α) (x : α) (post : List α) :
    vpList.zipAfter pre x [] post = vpList.zip pre x post := by
  simp [vpList.zipAfter, vpList.zip]

theorem zipAfter_cons {α : Type} (pre : List α) (x y : α) (F post : List α) :
    vpList.zipAfter (pre ++ [x]) y F post = vpList.zipAfter pre x (y :: F) post := by
  simp [vpList.zipAfter]
  omega

theorem zipAfter_addRight {α : Type} (pre : List α) (x v : α) (post : List α) :
    (vpList.zip pre x post).addRight v = some (vpList.zipAfter (pre ++ [x]) v [] post) := by
  rw [zip_addRight, zipAfter_nil]

theorem zipAfter_next {α : Type} (pre : List α) (x t : α) (F post : List α) :
    (vpList.zipAfter pre x F (t :: post)).next = some (vpList.zip (pre ++ x :: F) t post) := by
  simp [vpList.zipAfter, vpList.zip, vpList.next]
  omega

theorem zipAfter_as_zip {α : Type} (pre : List α) (x : α) (F post : List α) :
    ∃ pre1 y, vpList.zipAfter pre x F post = vpList.zip pre1 y post := by
  induction F generalizing pre x with
  | nil => exact ⟨pre, x, zipAfter_nil pre x post⟩
  | cons f F ih =>
    obtain ⟨pre1, y, h⟩ := ih (pre ++ [x]) f
    exact ⟨pre1, y, by rw [← zipAfter_cons, h]⟩

theorem fillLoop_eq (ext : Ext) (I : vpImage) (me : vpMe) (nurbs : vpNurbs)
    (iPend : vpImagePoint) (uend : ℚ) : ∀ (fuel : Nat) (u : ℚ) (iP iP_1 : vpImagePoint)
    (pre : List vpMeSite) (x : vpMeSite) (G post : List vpMeSite),
    fillLoop ext I me nurbs iPend uend fuel u iP iP_1 (vpList.zipAfter pre x G post) =
      (fillSites ext I me nurbs iPend uend fuel u iP iP_1).map
        fun F => vpList.zipAfter pre x (G ++ F) post := by
  intro fuel
  induction fuel with
  | zero => intro u iP iP_1 pre x G post; rfl
  | succ f ih =>
    intro u iP iP_1 pre x G post
    simp only [fillLoop, fillSites]
    split
    · split
      · cases hd : computeDelta ext (nurbs.computeCurveDersPoint (u + 1 / 100)).2.i
          (nurbs.computeCurveDersPoint (u + 1 / 100)).2.j with
        | none => rfl
        | some delta =>
          simp only [Option.some_bind]
          split
          · have hadd : (vpList.zipAfter pre x G post).addRight
                (ext.track I me ((default : vpMeSite).init3
                  (nurbs.computeCurveDersPoint (u + 1 / 100)).1.i
                  (nurbs.computeCurveDersPoint (u + 1 / 100)).1.j delta)) =
                some (vpList.zipAfter pre x (G ++ [ext.track I me
                  ((default : vpMeSite).init3
                  (nurbs.computeCurveDersPoint (u + 1 / 100)).1.i
                  (nurbs.computeCurveDersPoint (u + 1 / 100)).1.j delta)]) post) := by
              simp only [vpList.zipAfter, vpList.addRight]
              have hne : (pre ++ x :: G ++ post).isEmpty = false := by
                cases pre <;> simp
              have h1 : (pre ++ x :: G ++ post).take (pre.length + 1 + G.length)
                  = pre ++ x :: G := by
                have := @List.take_left' _ (pre ++ x :: G) post (pre.length + 1 + G.length)
                  (by simp; omega)
                simpa using this
              have h2 : (pre ++ x :: G ++ post).drop (pre.length + 1 + G.length) = post := by
                have := @List.drop_left' _ (pre ++ x :: G) post (pre.length + 1 + G.length)
                  (by simp; omega)
                simpa using this
              simp only [hne, Bool.false_eq_true, if_false, h1, h2]
              rw [if_pos (by simp; omega)]
              simp
              omega
            rw [hadd, Option.some_bind, ih]
            cases fillSites ext I me nurbs iPend uend f (u + 1 / 100)
              (nurbs.computeCurveDersPoint (u + 1 / 100)).1
              (nurbs.computeCurveDersPoint (u + 1 / 100)).1 with
            | none => rfl
            | some F => simp
          · exact ih _ _ _ _ _ _ _
      · exact ih _ _ _ _ _ _ _
    · simp

theorem paramScanLoop_some (nurbs : vpNurbs) (iP0 iPend : vpImagePoint) :
    ∀ (fuel : Nat) (u ubegin uend d1 d2 : ℚ), ⌈(1 - u) * 100⌉.toNat + 1 ≤ fuel →
      ∃ r, paramScanLoop nurbs iP0 iPend fuel u ubegin uend d1 d2 = some r := by
  intro fuel
  induction fuel with
  | zero => intro u ubegin uend d1 d2 h; omega
  | succ f ih =>
    intro u ubegin uend d1 d2 h
    simp only [paramScanLoop]
    split
    · rename_i hu
      apply ih
      have h1 : (1 - (u + 1 / 100)) * 100 = (1 - u) * 100 - 1 := by ring
      have h2 : (0 : Int) < ⌈(1 - u) * 100⌉ := Int.ceil_pos.mpr (by linarith)
      rw [h1, Int.ceil_sub_one]
      omega
    · exact ⟨_, rfl⟩

theorem fillSites_some (ext : Ext) (I : vpImage) (me : vpMe) (nurbs : vpNurbs)
    (iPend : vpImagePoint) (uend : ℚ) : ∀ (fuel : Nat) (u : ℚ) (iP iP_1 : vpImagePoint),
      ⌈(uend - u) * 100⌉.toNat + 1 ≤ fuel →
      ∃ F, fillSites ext I me nurbs iPend uend fuel u iP iP_1 = some F := by
  intro fuel
  induction fuel with
  | zero => intro u iP iP_1 h; omega
  | succ f ih =>
    intro u iP iP_1 h
    simp only [fillSites]
    split
    · rename_i hc
      have hf : ⌈(uend - (u + 1 / 100)) * 100⌉.toNat + 1 ≤ f := by
        have h1 : (uend - (u + 1 / 100)) * 100 = (uend - u) * 100 - 1 := by ring
        have h2 : (0 : Int) < ⌈(uend - u) * 100⌉ := Int.ceil_pos.mpr (by linarith [hc.2])
        rw [h1, Int.ceil_sub_one]
        omega
      split
      · obtain ⟨delta, hd⟩ := computeDelta_some ext
          (nurbs.computeCurveDersPoint (u + 1 / 100)).2.i
          (nurbs.computeCurveDersPoint (u + 1 / 100)).2.j
        rw [hd, Option.some_bind]
        split
        · obtain ⟨F, hF⟩ := ih (u + 1 / 100) (nurbs.computeCurveDersPoint (u + 1 / 100)).1
            (nurbs.computeCurveDersPoint (u + 1 / 100)).1 hf
          exact ⟨_, by rw [hF]; rfl⟩
        · exact ih _ _ _ hf
      · exact ih _ _ _ hf
    · exact ⟨[], rfl⟩

theorem gapSites_some (ext : Ext) (I : vpImage) (me : vpMe) (nurbs : vpNurbs)
    (s t : vpMeSite) : ∃ F, gapSites ext I me nurbs s t = some F := by
  obtain ⟨⟨ub, ue⟩, hr⟩ := paramScanLoop_some nurbs ⟨s.ifloat, s.jfloat⟩ ⟨t.ifloat, t.jfloat⟩
    101 0 0 0 1000000 1000000 (by norm_num; decide)
  simp only [gapSites, hr, Option.some_bind]
  split
  · exact fillSites_some ext I me nurbs _ ue _ ub _ _ (le_refl _)
  · exact ⟨[], rfl⟩

theorem gapFill_eq (ext : Ext) (I : vpImage) (me : vpMe) (nurbs : vpNurbs)
    (s t : vpMeSite) (pre : List vpMeSite) (x : vpMeSite) (post : List vpMeSite) :
    gapFill ext I me nurbs s t (vpList.zip pre x post) =
      (gapSites ext I me nurbs s t).map fun F => vpList.zipAfter pre x F post := by
  simp only [gapFill, gapSites]
  cases paramScanLoop nurbs ⟨s.ifloat, s.jfloat⟩ ⟨t.ifloat, t.jfloat⟩
    101 0 0 0 1000000 1000000 with
  | none => rfl
  | some r =>
    obtain ⟨ub, ue⟩ := r
    simp only [Option.some_bind]
    split
    · rw [← zipAfter_nil, fillLoop_eq]
      simp
    · simp [zipAfter_nil]

theorem pairSites_some (ext : Ext) (I : vpImage) (me : vpMe) (nurbs : vpNurbs) (n : Int)
    (s t : vpMeSite) : ∃ F, pairSites ext I me nurbs n s t = some F := by
  simp only [pairSites]
  split
  · exact gapSites_some ext I me nurbs s t
  · exact ⟨[], rfl⟩

theorem allPairSites_some (ext : Ext) (I : vpImage) (me : vpMe) (nurbs : vpNurbs) (n : Int) :
    ∀ (l : List vpMeSite), ∃ Fs, allPairSites ext I me nurbs n l = some Fs ∧
      Fs.length = l.length - 1 := by
  intro l
  induction l with
  | nil => exact ⟨[], rfl, rfl⟩
  | cons s rest ih =>
    cases rest with
    | nil => exact ⟨[], rfl, rfl⟩
    | cons t rest2 =>
      obtain ⟨F, hF⟩ := pairSites_some ext I me nurbs n s t
      obtain ⟨Fs, hFs, hlen⟩ := ih
      refine ⟨F :: Fs, ?_, ?_⟩
      · simp only [allPairSites, hF, Option.some_bind, hFs]; rfl
      · simp at hlen ⊢; exact hlen

theorem allPairSites_get (ext : Ext) (I : vpImage) (me : vpMe) (nurbs : vpNurbs) (n : Int) :
    ∀ (l : List vpMeSite) (Fs : List (List vpMeSite)),
      allPairSites ext I me nurbs n l = some Fs →
      ∀ (i : Nat) (s t : vpMeSite), l[i]? = some s → l[i + 1]? = some t →
        ∃ F, Fs[i]? = some F ∧ pairSites ext I me nurbs n s t = some F := by
  intro l
  induction l with
  | nil => intro Fs _ i s t hs; simp at hs
  | cons a rest ih =>
    intro Fs h i s t hs ht
    cases rest with
    | nil => simp at ht
    | cons b rest2 =>
      simp only [allPairSites] at h
      cases hF : pairSites ext I me nurbs n a b with
      | none => simp [hF] at h
      | some F =>
        cases hFs : allPairSites ext I me nurbs n (b :: rest2) with
        | none => simp [hF, hFs] at h
        | some Fs1 =>
          simp [hF, hFs] at h
          subst h
          cases i with
          | zero =>
            simp at hs ht
            subst hs ht
            exact ⟨F, by simp, hF⟩
          | succ j =>
            have := ih Fs1 hFs j s t (by simpa using hs) (by simpa using ht)
            simpa using this

theorem localReSampleLoop_zip (ext : Ext) (I : vpImage) (me : vpMe) (nurbs : vpNurbs)
    (n : Int) : ∀ (post pre : List vpMeSite) (x : vpMeSite) (fuel : Nat)
    (Fs : List (List vpMeSite)), post.length + 1 ≤ fuel →
      allPairSites ext I me nurbs n (x :: post) = some Fs →
      ∃ c, localReSampleLoop ext I me nurbs n fuel (vpList.zip pre x post) =
        some ⟨pre ++ weave (x :: post) Fs, c⟩ := by
  intro post
  induction post with
  | nil =>
    intro pre x fuel Fs hf hFs
    obtain ⟨f, rfl⟩ : ∃ f, fuel = f + 1 := ⟨fuel - 1, by omega⟩
    simp only [allPairSites, Option.some.injEq] at hFs
    subst hFs
    exact ⟨pre.length + 1,
      by simp only [localReSampleLoop, zip_nextOutside]; simp [weave, vpList.zip]⟩
  | cons t rest ih =>
    intro pre x fuel Fs hf hFs
    obtain ⟨f, rfl⟩ : ∃ f, fuel = f + 1 := ⟨fuel - 1, by omega⟩
    simp only [List.length_cons] at hf
    simp only [allPairSites] at hFs
    cases hF : pairSites ext I me nurbs n x t with
    | none => simp [hF] at hFs
    | some F =>
      cases hFs1 : allPairSites ext I me nurbs n (t :: rest) with
      | none => simp [hF, hFs1] at hFs
      | some Fs1 =>
        simp [hF, hFs1] at hFs
        subst hFs
        obtain ⟨c, hc⟩ := ih (pre ++ x :: F) t f Fs1 (by omega) hFs1
        simp only [localReSampleLoop, zip_nextOutside, zip_value, zip_nextValue,
          Option.some_bind]
        by_cases hg : n ≤ me.points_to_track
        · by_cases hsel : gapSelected me x t = true
          · have hF2 : gapSites ext I me nurbs x t = some F := by
              simpa [pairSites, hg, hsel] using hF
            refine ⟨c, ?_⟩
            simp only [List.isEmpty_cons, Bool.not_false, Bool.true_and, hg, decide_True,
              if_true, hsel, gapFill_eq, hF2, Option.map_some', Option.some_bind,
              zipAfter_next, hc]
            simp [weave]
          · have hF2 : F = [] := by
              have : some ([] : List vpMeSite) = some F := by
                simpa [pairSites, hsel] using hF
              exact (Option.some.inj this).symm
            subst hF2
            refine ⟨c, ?_⟩
            simp only [List.isEmpty_cons, Bool.not_false, Bool.true_and, hg, decide_True,
              if_true, hsel, Bool.false_eq_true, if_false, Option.some_bind, zip_next]
            have hc2 : localReSampleLoop ext I me nurbs n f (vpList.zip (pre ++ [x]) t rest)
                = some ⟨pre ++ [x] ++ weave (t :: rest) Fs1, c⟩ := by
              simpa using hc
            rw [hc2]
            simp [weave]
        · have hall : ∀ (l : List vpMeSite) (Gs : List (List vpMeSite)),
              allPairSites ext I me nurbs n l = some Gs → weave l Gs = l := by
            intro l
            induction l with
            | nil => intro Gs _; cases Gs <;> rfl
            | cons a r ihl =>
              intro Gs hG
              cases r with
              | nil =>
                simp only [allPairSites, Option.some.injEq] at hG
                subst hG; rfl
              | cons b r2 =>
                simp only [allPairSites, pairSites, hg, false_and, if_false,
                  Option.some_bind] at hG
                cases hr : allPairSites ext I me nurbs n (b :: r2) with
                | none => simp [hr] at hG
                | some Gs1 =>
                  simp [hr] at hG
                  subst hG
                  simp [weave, ihl Gs1 hr]
          have hw : weave (x :: t :: rest) (F :: Fs1) = x :: t :: rest := by
            apply hall
            simp [allPairSites, hF, hFs1]
          refine ⟨pre.length + 1, ?_⟩
          simp only [hg, decide_False, Bool.and_false, Bool.false_eq_true, if_false, hw]
          rfl

/-- Run of `localReSample` on a non-empty list: the call returns, the new list is the old one
with the inserted Sites of each consecutive pair woven in, and nothing else changes. -/
theorem localReSample_eq (ext : Ext) (I : vpImage) (st : vpMeNurbs)
    (hne : st.list.elems ≠ []) :
    ∃ (st1 : vpMeNurbs) (Fs : List (List vpMeSite)),
      localReSample ext I st = some st1 ∧
      allPairSites ext I { st.me with range := 2 } st.nurbs (numberOfSignal st.list)
        st.list.elems = some Fs ∧
      st1.list.elems = weave st.list.elems Fs ∧ Fs.length + 1 = st.list.elems.length ∧
      st1.me = st.me ∧ st1.beginPtFound = st.beginPtFound ∧
      st1.endPtFound = st.endPtFound := by
  obtain ⟨Fs, hFs, hlen⟩ := allPairSites_some ext I { st.me with range := 2 } st.nurbs
    (numberOfSignal st.list) st.list.elems
  obtain ⟨x, post, hl⟩ : ∃ x post, st.list.elems = x :: post := by
    cases h : st.list.elems with
    | nil => exact absurd h hne
    | cons x post => exact ⟨x, post, rfl⟩
  have hFs2 := hFs
  rw [hl] at hFs2
  obtain ⟨c, hc⟩ := localReSampleLoop_zip ext I { st.me with range := 2 } st.nurbs
    (numberOfSignal st.list) post [] x (post.length + 1 + 1) Fs (by omega) hFs2
  have hfront : st.list.front = vpList.zip [] x post := by
    simp [vpList.front, vpList.zip, hl]
  refine ⟨{ st with list := ⟨weave (x :: post) Fs, c⟩,
                    me := { { st.me with range := 2 } with range := st.me.range } },
    Fs, ?_, hFs, ?_, ?_, ?_, rfl, rfl⟩
  · simp only [localReSample, hl, List.length_cons, hfront, hc, Option.map_some']
    simp
  · simp [hl]
  · rw [hl] at hlen ⊢
    simp at hlen ⊢
    omega
  · cases hme : st.me; simp

theorem gapSelected_iff (me : vpMe) (s t : vpMeSite) :
    gapSelected me s t = true ↔
      (4 * sqr me.sample_step < vpMeSite.sqrDistance s t ∧
        vpMeSite.sqrDistance s t < 1600) := by
  simp [gapSelected]

theorem pairSites_nonempty (ext : Ext) (I : vpImage) (me : vpMe) (nurbs : vpNurbs) (n : Int)
    (s t : vpMeSite) (F : List vpMeSite) (h : pairSites ext I me nurbs n s t = some F)
    (hF : F ≠ []) : n ≤ me.points_to_track ∧ gapSelected me s t = true := by
  by_contra hc
  simp only [pairSites, hc, if_false, Option.some.injEq] at h
  exact hF h.symm

/-- C10 (counterexample): with sample step 1, the consecutive Sites (50,10) and (50,50)
are at squared distance exactly 1600, inside `(4·sample_step², 1600]`, yet the pair is
not selected and `localReSample` inserts nothing between them. -/
theorem C10_counterexample :
    4 * sqr exMe.sample_step < vpMeSite.sqrDistance (exSite 50 10) (exSite 50 50) ∧
    vpMeSite.sqrDistance (exSite 50 10) (exSite 50 50) ≤ 1600 ∧
    gapSelected exMe (exSite 50 10) (exSite 50 50) = false ∧
    (localReSample exExt exImage
        (exState [exSite 50 10, exSite 50 50] (exLine 0 100) 100 0 0)).map
      (fun st => st.list.elems) = some [exSite 50 10, exSite 50 50] := by
  decide!

/-- C10 (amended): the selection test of `localReSample` holds exactly for
`4·sample_step² < d < 1600`, the bound 1600 excluded; on a non-empty list the call returns
the old list with the inserted Sites woven in, a pair gets inserted Sites only when the
live count is at most `points_to_track` and its squared distance is in that open
interval, and for such a pair the inserted Sites are those of the gap-fill walk. -/
theorem C10_gap_selection_open_interval (ext : Ext) (I : vpImage) (st : vpMeNurbs)
    (hne : st.list.elems ≠ []) :
    (∀ s t, gapSelected st.me s t = true ↔
      (4 * sqr st.me.sample_step < vpMeSite.sqrDistance s t ∧
        vpMeSite.sqrDistance s t < 1600)) ∧
    ∃ (st1 : vpMeNurbs) (Fs : List (List vpMeSite)),
      localReSample ext I st = some st1 ∧
      st1.list.elems = weave st.list.elems Fs ∧ Fs.length + 1 = st.list.elems.length ∧
      (∀ (i : Nat) (s t : vpMeSite) (F : List vpMeSite),
        st.list.elems[i]? = some s → st.list.elems[i + 1]? = some t →
        Fs[i]? = some F → F ≠ [] →
          numberOfSignal st.list ≤ st.me.points_to_track ∧
          4 * sqr st.me.sample_step < vpMeSite.sqrDistance s t ∧
          vpMeSite.sqrDistance s t < 1600) ∧
      (∀ (i : Nat) (s t : vpMeSite),
        st.list.elems[i]? = some s → st.list.elems[i + 1]? = some t →
        numberOfSignal st.list ≤ st.me.points_to_track →
        4 * sqr st.me.sample_step < vpMeSite.sqrDistance s t →
        vpMeSite.sqrDistance s t < 1600 →
          ∃ F, Fs[i]? = some F ∧
            gapSites ext I { st.me with range := 2 } st.nurbs s t = some F) := by
  refine ⟨fun s t => gapSelected_iff st.me s t, ?_⟩
  obtain ⟨st1, Fs, h1, hFs, h2, h3, _⟩ := localReSample_eq ext I st hne
  refine ⟨st1, Fs, h1, h2, h3, ?_, ?_⟩
  · intro i s t F hs ht hF hFne
    obtain ⟨F1, hF1, hp⟩ := allPairSites_get ext I _ st.nurbs _ _ Fs hFs i s t hs ht
    rw [hF] at hF1
    obtain rfl := Option.some.inj hF1
    have := pairSites_nonempty ext I _ st.nurbs _ s t F hp hFne
    exact ⟨this.1, (gapSelected_iff _ s t).mp this.2⟩
  · intro i s t hs ht hg h4 h5
    obtain ⟨F1, hF1, hp⟩ := allPairSites_get ext I _ st.nurbs _ _ Fs hFs i s t hs ht
    refine ⟨F1, hF1, ?_⟩
    have hsel : gapSelected { st.me with range := 2 } s t = true :=
      (gapSelected_iff _ s t).mpr ⟨h4, h5⟩
    have hg2 : numberOfSignal st.list ≤ ({ st.me with range := 2 } : vpMe).points_to_track := hg
    simpa only [pairSites, hg2, hsel, and_self, if_true] using hp

/-- Witness for C10 (amended): two Sites on the example line. -/
theorem C10_gap_selection_open_interval_witness :
    ∃ (st1 : vpMeNurbs) (Fs : List (List vpMeSite)),
      localReSample exExt exImage
        (exState [exSite 50 10, exSite 50 50] (exLine 0 100) 100 0 0) = some st1 ∧
      st1.list.elems = weave [exSite 50 10, exSite 50 50] Fs ∧ Fs.length + 1 = 2 :=
  have h := (C10_gap_selection_open_interval exExt exImage
    (exState [exSite 50 10, exSite 50 50] (exLine 0 100) 100 0 0) (by simp [exState])).2
  ⟨h.choose, h.choose_spec.choose, h.choose_spec.choose_spec.1,
    h.choose_spec.choose_spec.2.1, h.choose_spec.choose_spec.2.2.1⟩

theorem fillSites_chain (ext : Ext) (I : vpImage) (me : vpMe) (nurbs : vpNurbs)
    (iPend : vpImagePoint) (uend : ℚ)
    (htrack : ∀ p : vpMeSite, p.suppress = 0 → ext.track I me p = p) :
    ∀ (fuel : Nat) (u : ℚ) (iP : vpImagePoint) (s0 : vpMeSite) (F : List vpMeSite),
      fillSites ext I me nurbs iPend uend fuel u iP ⟨s0.ifloat, s0.jfloat⟩ = some F →
      List.Chain (fun x y => vpMeSite.sqrDistance x y > sqr me.sample_step) s0 F := by
  intro fuel
  induction fuel with
  | zero => intro u iP s0 F h; simp [fillSites] at h
  | succ f ih =>
    intro u iP s0 F h
    simp only [fillSites] at h
    split at h
    · split at h
      · rename_i hc
        simp only [Bool.and_eq_true, decide_eq_true_eq] at hc
        cases hd : computeDelta ext (nurbs.computeCurveDersPoint (u + 1 / 100)).2.i
          (nurbs.computeCurveDersPoint (u + 1 / 100)).2.j with
        | none =>
          rw [hd, Option.none_bind] at h
          cases h
        | some delta =>
          rw [hd, Option.some_bind] at h
          have hpix : ext.track I me ((default : vpMeSite).init3
              (nurbs.computeCurveDersPoint (u + 1 / 100)).1.i
              (nurbs.computeCurveDersPoint (u + 1 / 100)).1.j delta) =
              (default : vpMeSite).init3 (nurbs.computeCurveDersPoint (u + 1 / 100)).1.i
              (nurbs.computeCurveDersPoint (u + 1 / 100)).1.j delta := htrack _ rfl
          rw [hpix] at h
          have hs0 : ((default : vpMeSite).init3
              (nurbs.computeCurveDersPoint (u + 1 / 100)).1.i
              (nurbs.computeCurveDersPoint (u + 1 / 100)).1.j delta).suppress = 0 := rfl
          rw [if_pos hs0] at h
          cases hr : fillSites ext I me nurbs iPend uend f (u + 1 / 100)
            (nurbs.computeCurveDersPoint (u + 1 / 100)).1
            (nurbs.computeCurveDersPoint (u + 1 / 100)).1 with
          | none =>
            rw [hr] at h
            cases h
          | some G =>
            rw [hr] at h
            simp only [Option.map_some', Option.some.injEq] at h
            subst h
            refine List.Chain.cons ?_ ?_
            · have h1 := hc.1
              simp only [vpImagePoint.sqrDistance] at h1
              simp only [vpMeSite.sqrDistance, vpMeSite.init3]
              linarith [h1]
            · exact ih (u + 1 / 100) _
                ((default : vpMeSite).init3 (nurbs.computeCurveDersPoint (u + 1 / 100)).1.i
                  (nurbs.computeCurveDersPoint (u + 1 / 100)).1.j delta) G hr
      · exact ih _ _ _ _ h
    · simp only [Option.some.injEq] at h
      subst h
      exact List.Chain.nil

theorem gapSites_chain (ext : Ext) (I : vpImage) (me : vpMe) (nurbs : vpNurbs)
    (htrack : ∀ p : vpMeSite, p.suppress = 0 → ext.track I me p = p)
    (s t : vpMeSite) (F : List vpMeSite) (h : gapSites ext I me nurbs s t = some F) :
    List.Chain (fun x y => vpMeSite.sqrDistance x y > sqr me.sample_step) s F := by
  simp only [gapSites] at h
  cases hr : paramScanLoop nurbs ⟨s.ifloat, s.jfloat⟩ ⟨t.ifloat, t.jfloat⟩
    101 0 0 0 1000000 1000000 with
  | none => simp [hr] at h
  | some r =>
    obtain ⟨ub, ue⟩ := r
    rw [hr, Option.some_bind] at h
    split at h
    · exact fillSites_chain ext I me nurbs _ ue htrack _ _ _ s F h
    · simp only [Option.some.injEq] at h
      subst h
      exact List.Chain.nil

theorem pairSites_chain (ext : Ext) (I : vpImage) (me : vpMe) (nurbs : vpNurbs) (n : Int)
    (htrack : ∀ p : vpMeSite, p.suppress = 0 → ext.track I me p = p)
    (s t : vpMeSite) (F : List vpMeSite) (h : pairSites ext I me nurbs n s t = some F) :
    List.Chain (fun x y => vpMeSite.sqrDistance x y > sqr me.sample_step) s F := by
  simp only [pairSites] at h
  split at h
  · exact gapSites_chain ext I me nurbs htrack s t F h
  · simp only [Option.some.injEq] at h
    subst h
    exact List.Chain.nil

theorem weave_split {α : Type} : ∀ (l : List α) (Fs : List (List α)) (k : Nat) (s t : α)
    (F : List α), l[k]? = some s → l[k + 1]? = some t → Fs[k]? = some F →
    ∃ pre post, weave l Fs = pre ++ s :: F ++ t :: post := by
  intro l
  induction l with
  | nil => intro Fs k s t F hs; simp at hs
  | cons x xs ih =>
    intro Fs k s t F hs ht hF
    cases Fs with
    | nil => simp at hF
    | cons G Gs =>
      cases k with
      | zero =>
        simp at hs hF
        subst hs hF
        cases xs with
        | nil => simp at ht
        | cons y ys =>
          simp at ht
          subst ht
          cases Gs with
          | nil => exact ⟨[], ys, by simp [weave]⟩
          | cons H Hs => exact ⟨[], H ++ weave ys Hs, by simp [weave]⟩
      | succ j =>
        obtain ⟨pre, post, h⟩ := ih Gs j s t F (by simpa using hs) (by simpa using ht)
          (by simpa using hF)
        exact ⟨x :: G ++ pre, post, by simp [weave, h]⟩

theorem paramScanLoop_spec (nurbs : vpNurbs) (iP0 iPend : vpImagePoint) :
    ∀ (m k fuel : Nat) (ub ue d1 d2 : ℚ), k + m = 100 → m + 1 ≤ fuel →
      ((∀ j : Nat, 1 ≤ j → j ≤ k →
          d1 ≤ vpImagePoint.sqrDistance (nurbs.computeCurvePoint ((j : ℚ) / 100)) iP0) ∧
        (d1 < 1000000 → vpImagePoint.sqrDistance (nurbs.computeCurvePoint ub) iP0 = d1)) →
      ((∀ j : Nat, 1 ≤ j → j ≤ k →
          d2 ≤ vpImagePoint.sqrDistance (nurbs.computeCurvePoint ((j : ℚ) / 100)) iPend) ∧
        (d2 < 1000000 → vpImagePoint.sqrDistance (nurbs.computeCurvePoint ue) iPend = d2)) →
      ∃ ub1 ue1 e1 e2,
        paramScanLoop nurbs iP0 iPend fuel ((k : ℚ) / 100) ub ue d1 d2 = some (ub1, ue1) ∧
        ((∀ j : Nat, 1 ≤ j → j ≤ 100 →
            e1 ≤ vpImagePoint.sqrDistance (nurbs.computeCurvePoint ((j : ℚ) / 100)) iP0) ∧
          (e1 < 1000000 →
            vpImagePoint.sqrDistance (nurbs.computeCurvePoint ub1) iP0 = e1)) ∧
        ((∀ j : Nat, 1 ≤ j → j ≤ 100 →
            e2 ≤ vpImagePoint.sqrDistance (nurbs.computeCurvePoint ((j : ℚ) / 100)) iPend) ∧
          (e2 < 1000000 →
            vpImagePoint.sqrDistance (nurbs.computeCurvePoint ue1) iPend = e2)) := by
  intro m
  induction m with
  | zero =>
    intro k fuel ub ue d1 d2 hk hf h1 h2
    obtain ⟨f, rfl⟩ : ∃ f, fuel = f + 1 := ⟨fuel - 1, by omega⟩
    obtain rfl : k = 100 := by omega
    refine ⟨ub, ue, d1, d2, ?_, h1, h2⟩
    simp only [paramScanLoop]
    rw [if_neg (by norm_num)]
  | succ m ih =>
    intro k fuel ub ue d1 d2 hk hf h1 h2
    obtain ⟨f, rfl⟩ : ∃ f, fuel = f + 1 := ⟨fuel - 1, by omega⟩
    have hk100 : k < 100 := by omega
    have hu : ((k : ℚ) / 100) < 1 := by
      have : (k : ℚ) < 100 := by exact_mod_cast hk100
      linarith
    have hnext : (k : ℚ) / 100 + 1 / 100 = (((k + 1 : Nat) : ℚ)) / 100 := by
      push_cast; ring
    simp only [paramScanLoop]
    rw [if_pos hu, hnext]
    by_cases hb : vpImagePoint.sqrDistance
        (nurbs.computeCurvePoint (((k + 1 : Nat) : ℚ) / 100)) iP0 < d1
    · by_cases he : vpImagePoint.sqrDistance
          (nurbs.computeCurvePoint (((k + 1 : Nat) : ℚ) / 100)) iPend < d2
      · simp only [hb, he, if_true]
        apply ih (k + 1) f _ _ _ _ (by omega) (by omega)
        · refine ⟨fun j hj1 hj2 => ?_, fun _ => rfl⟩
          by_cases hjk : j ≤ k
          · have := h1.1 j hj1 hjk
            linarith
          · obtain rfl : j = k + 1 := by omega
            exact le_refl _
        · refine ⟨fun j hj1 hj2 => ?_, fun _ => rfl⟩
          by_cases hjk : j ≤ k
          · have := h2.1 j hj1 hjk
            linarith
          · obtain rfl : j = k + 1 := by omega
            exact le_refl _
      · simp only [hb, he, if_true, if_false]
        apply ih (k + 1) f _ _ _ _ (by omega) (by omega)
        · refine ⟨fun j hj1 hj2 => ?_, fun _ => rfl⟩
          by_cases hjk : j ≤ k
          · have := h1.1 j hj1 hjk
            linarith
          · obtain rfl : j = k + 1 := by omega
            exact le_refl _
        · refine ⟨fun j hj1 hj2 => ?_, h2.2⟩
          by_cases hjk : j ≤ k
          · exact h2.1 j hj1 hjk
          · obtain rfl : j = k + 1 := by omega
            exact not_lt.mp he
    · by_cases he : vpImagePoint.sqrDistance
          (nurbs.computeCurvePoint (((k + 1 : Nat) : ℚ) / 100)) iPend < d2
      · simp only [hb, he, if_true, if_false]
        apply ih (k + 1) f _ _ _ _ (by omega) (by omega)
        · refine ⟨fun j hj1 hj2 => ?_, h1.2⟩
          by_cases hjk : j ≤ k
          · exact h1.1 j hj1 hjk
          · obtain rfl : j = k + 1 := by omega
            exact not_lt.mp hb
        · refine ⟨fun j hj1 hj2 => ?_, fun _ => rfl⟩
          by_cases hjk : j ≤ k
          · have := h2.1 j hj1 hjk
            linarith
          · obtain rfl : j = k + 1 := by omega
            exact le_refl _
      · simp only [hb, he, if_false]
        apply ih (k + 1) f _ _ _ _ (by omega) (by omega)
        · refine ⟨fun j hj1 hj2 => ?_, h1.2⟩
          by_cases hjk : j ≤ k
          · exact h1.1 j hj1 hjk
          · obtain rfl : j = k + 1 := by omega
            exact not_lt.mp hb
        · refine ⟨fun j hj1 hj2 => ?_, h2.2⟩
          by_cases hjk : j ≤ k
          · exact h2.1 j hj1 hjk
          · obtain rfl : j = k + 1 := by omega
            exact not_lt.mp he

theorem grid_near (x : ℚ) (h0 : 0 ≤ x) (h1 : x ≤ 1) :
    ∃ j : Nat, 1 ≤ j ∧ j ≤ 100 ∧
      ((j : ℚ) / 100 - x) * ((j : ℚ) / 100 - x) ≤ 1 / 10000 := by
  by_cases hx : x ≤ 1 / 100
  · refine ⟨1, le_refl _, by norm_num, ?_⟩
    push_cast
    nlinarith
  · have hx2 : 1 / 100 < x := not_le.mp hx
    have hc0 : (0 : Int) < ⌈x * 100⌉ := Int.ceil_pos.mpr (by linarith)
    have hc1 : ⌈x * 100⌉ ≤ 100 := Int.ceil_le.mpr (by push_cast; linarith)
    have hle : x * 100 ≤ ((⌈x * 100⌉ : Int) : ℚ) := Int.le_ceil _
    have hlt : ((⌈x * 100⌉ : Int) : ℚ) < x * 100 + 1 := Int.ceil_lt_add_one _
    have hcast : ((⌈x * 100⌉.toNat : Nat) : ℚ) = ((⌈x * 100⌉ : Int) : ℚ) := by
      have : ((⌈x * 100⌉.toNat : Nat) : Int) = ⌈x * 100⌉ := Int.toNat_of_nonneg hc0.le
      exact_mod_cast this
    refine ⟨⌈x * 100⌉.toNat, by omega, by omega, ?_⟩
    rw [hcast]
    nlinarith

theorem line_sqrDistance (p0 d : vpImagePoint) (u v : ℚ) :
    vpImagePoint.sqrDistance ⟨p0.i + u * d.i, p0.j + u * d.j⟩
      ⟨p0.i + v * d.i, p0.j + v * d.j⟩ = (u - v) * (u - v) * (d.i * d.i + d.j * d.j) := by
  simp only [vpImagePoint.sqrDistance]
  ring

theorem sq_le_of_mul_le (x r L : ℚ) (hL : 0 < L) (hr : 0 ≤ r)
    (h : x * x * L ≤ r * r * L) : -r ≤ x ∧ x ≤ r := by
  have h1 : x * x ≤ r * r := le_of_mul_le_mul_right h hL
  constructor <;> nlinarith

/-- The insertion walk on a straight line, started within `r` (the sample step in
parameter units) of the parameter `a` of the first Site, inserts at least one Site. -/
theorem fillSites_inserts (ext : Ext) (I : vpImage) (me : vpMe) (nurbs : vpNurbs)
    (p0 d : vpImagePoint) (a b r ue : ℚ) (s : vpMeSite)
    (hline : ∀ u, (nurbs.computeCurveDersPoint u).1 = ⟨p0.i + u * d.i, p0.j + u * d.j⟩)
    (hs : s.ifloat = p0.i + a * d.i ∧ s.jfloat = p0.j + a * d.j)
    (hL : 0 < d.i * d.i + d.j * d.j)
    (hstep : sqr me.sample_step = r * r * (d.i * d.i + d.j * d.j))
    (hr : 1 / 100 ≤ r) (hb : b = a + 3 * r) (hue : b - r ≤ ue)
    (hbound : ∀ u, a ≤ u → u ≤ b →
      ext.outOfImage ⟨p0.i + u * d.i, p0.j + u * d.j⟩ 0 I.rows I.cols = false)
    (htrack : ∀ p : vpMeSite, p.suppress = 0 → ext.track I me p = p) :
    ∀ (fuel : Nat) (u : ℚ), a - r ≤ u → u ≤ a + r →
      ⌈(ue - u) * 100⌉.toNat + 1 ≤ fuel →
      ∃ F, fillSites ext I me nurbs ⟨p0.i + b * d.i, p0.j + b * d.j⟩ ue fuel u
        ⟨p0.i + u * d.i, p0.j + u * d.j⟩ ⟨s.ifloat, s.jfloat⟩ = some F ∧ F ≠ [] := by
  intro fuel
  induction fuel with
  | zero => intro u _ _ h; omega
  | succ f ih =>
    intro u hu1 hu2 hfuel
    have hrpos : 0 < r := by linarith
    have hc1 : vpImagePoint.sqrDistance ⟨p0.i + u * d.i, p0.j + u * d.j⟩
        ⟨p0.i + b * d.i, p0.j + b * d.j⟩ > sqr me.sample_step := by
      rw [line_sqrDistance, hstep]
      apply mul_lt_mul_of_pos_right _ hL
      nlinarith
    have hc2 : u < ue := by linarith
    have hf : ⌈(ue - (u + 1 / 100)) * 100⌉.toNat + 1 ≤ f := by
      have h1 : (ue - (u + 1 / 100)) * 100 = (ue - u) * 100 - 1 := by ring
      have h2 : (0 : Int) < ⌈(ue - u) * 100⌉ := Int.ceil_pos.mpr (by linarith)
      rw [h1, Int.ceil_sub_one]
      omega
    simp only [fillSites]
    rw [if_pos ⟨hc1, hc2⟩, hline (u + 1 / 100)]
    have hdist : vpImagePoint.sqrDistance
        ⟨p0.i + (u + 1 / 100) * d.i, p0.j + (u + 1 / 100) * d.j⟩ ⟨s.ifloat, s.jfloat⟩ =
        (u + 1 / 100 - a) * (u + 1 / 100 - a) * (d.i * d.i + d.j * d.j) := by
      rw [hs.1, hs.2, line_sqrDistance]
    by_cases hfar : r < u + 1 / 100 - a
    · have hgt : vpImagePoint.sqrDistance
          ⟨p0.i + (u + 1 / 100) * d.i, p0.j + (u + 1 / 100) * d.j⟩ ⟨s.ifloat, s.jfloat⟩
          > sqr me.sample_step := by
        rw [hdist, hstep]
        apply mul_lt_mul_of_pos_right _ hL
        nlinarith
      have hin := hbound (u + 1 / 100) (by linarith) (by linarith)
      have hcond : (decide (vpImagePoint.sqrDistance
          ⟨p0.i + (u + 1 / 100) * d.i, p0.j + (u + 1 / 100) * d.j⟩ ⟨s.ifloat, s.jfloat⟩
          > sqr me.sample_step) &&
          !ext.outOfImage ⟨p0.i + (u + 1 / 100) * d.i, p0.j + (u + 1 / 100) * d.j⟩ 0
            I.rows I.cols) = true := by
        simp only [Bool.and_eq_true, decide_eq_true_eq, hin, Bool.not_false, and_true]
        exact hgt
      rw [if_pos hcond]
      obtain ⟨delta, hd⟩ := computeDelta_some ext
        (nurbs.computeCurveDersPoint (u + 1 / 100)).2.i
        (nurbs.computeCurveDersPoint (u + 1 / 100)).2.j
      rw [hd, Option.some_bind]
      have hpix : ext.track I me ((default : vpMeSite).init3
          (p0.i + (u + 1 / 100) * d.i) (p0.j + (u + 1 / 100) * d.j) delta) =
          (default : vpMeSite).init3 (p0.i + (u + 1 / 100) * d.i)
            (p0.j + (u + 1 / 100) * d.j) delta := htrack _ rfl
      have hs0 : ((default : vpMeSite).init3 (p0.i + (u + 1 / 100) * d.i)
          (p0.j + (u + 1 / 100) * d.j) delta).suppress = 0 := rfl
      rw [hpix, if_pos hs0]
      obtain ⟨G, hG⟩ := fillSites_some ext I me nurbs ⟨p0.i + b * d.i, p0.j + b * d.j⟩ ue f
        (u + 1 / 100) ⟨p0.i + (u + 1 / 100) * d.i, p0.j + (u + 1 / 100) * d.j⟩
        ⟨p0.i + (u + 1 / 100) * d.i, p0.j + (u + 1 / 100) * d.j⟩ hf
      rw [hG]
      exact ⟨_, rfl, by simp⟩
    · have hnear : ¬ vpImagePoint.sqrDistance
          ⟨p0.i + (u + 1 / 100) * d.i, p0.j + (u + 1 / 100) * d.j⟩ ⟨s.ifloat, s.jfloat⟩
          > sqr me.sample_step := by
        rw [hdist, hstep, not_lt]
        apply mul_le_mul_of_nonneg_right _ hL.le
        nlinarith
      have hcond : (decide (vpImagePoint.sqrDistance
          ⟨p0.i + (u + 1 / 100) * d.i, p0.j + (u + 1 / 100) * d.j⟩ ⟨s.ifloat, s.jfloat⟩
          > sqr me.sample_step) &&
          !ext.outOfImage ⟨p0.i + (u + 1 / 100) * d.i, p0.j + (u + 1 / 100) * d.j⟩ 0
            I.rows I.cols) = false := by
        simp only [Bool.and_eq_false_imp, decide_eq_true_eq]
        intro h
        exact absurd h hnear
      rw [if_neg (by rw [hcond]; simp)]
      exact ih (u + 1 / 100) (by linarith) (by linarith) hf

theorem gapSites_nonempty (ext : Ext) (I : vpImage) (me : vpMe) (nurbs : vpNurbs)
    (p0 d : vpImagePoint) (a b : ℚ) (s t : vpMeSite)
    (hpt : ∀ u, nurbs.computeCurvePoint u = ⟨p0.i + u * d.i, p0.j + u * d.j⟩)
    (hline : ∀ u, (nurbs.computeCurveDersPoint u).1 = ⟨p0.i + u * d.i, p0.j + u * d.j⟩)
    (hs : s.ifloat = p0.i + a * d.i ∧ s.jfloat = p0.j + a * d.j)
    (ht : t.ifloat = p0.i + b * d.i ∧ t.jfloat = p0.j + b * d.j)
    (hab : 0 ≤ a ∧ a < b ∧ b ≤ 1) (hstep : 0 < me.sample_step)
    (hdist : vpMeSite.sqrDistance s t = 9 * sqr me.sample_step)
    (hbound : ∀ u, a ≤ u → u ≤ b →
      ext.outOfImage ⟨p0.i + u * d.i, p0.j + u * d.j⟩ 0 I.rows I.cols = false)
    (htrack : ∀ p : vpMeSite, p.suppress = 0 → ext.track I me p = p)
    (h1600 : 9 * sqr me.sample_step < 1600)
    (hgrid : (d.i * d.i + d.j * d.j) / 10000 ≤ sqr me.sample_step) :
    ∃ F, gapSites ext I me nurbs s t = some F ∧ F ≠ [] := by
  have hsq : 0 < sqr me.sample_step := by simp only [sqr]; positivity
  have hd2 : (a - b) * (a - b) * (d.i * d.i + d.j * d.j) = 9 * sqr me.sample_step := by
    rw [← hdist]
    simp only [vpMeSite.sqrDistance, hs.1, hs.2, ht.1, ht.2]
    ring
  have hL0 : 0 ≤ d.i * d.i + d.j * d.j := by nlinarith [mul_self_nonneg d.i, mul_self_nonneg d.j]
  have hL : 0 < d.i * d.i + d.j * d.j := by
    rcases hL0.lt_or_eq with h | h
    · exact h
    · rw [← h] at hd2
      simp at hd2
      linarith
  have hrpos : 0 < (b - a) / 3 := by linarith [hab.2.1]
  have hst : sqr me.sample_step = (b - a) / 3 * ((b - a) / 3) * (d.i * d.i + d.j * d.j) := by
    have : (b - a) / 3 * ((b - a) / 3) * (d.i * d.i + d.j * d.j)
        = (a - b) * (a - b) * (d.i * d.i + d.j * d.j) / 9 := by ring
    rw [this, hd2]
    ring
  have hr : 1 / 100 ≤ (b - a) / 3 := by
    by_contra hc
    have hc2 : (b - a) / 3 < 1 / 100 := not_le.mp hc
    have h1 : (b - a) / 3 * ((b - a) / 3) < 1 / 10000 := by nlinarith
    have h2 : (b - a) / 3 * ((b - a) / 3) * (d.i * d.i + d.j * d.j)
        < 1 / 10000 * (d.i * d.i + d.j * d.j) := mul_lt_mul_of_pos_right h1 hL
    rw [← hst] at h2
    linarith
  obtain ⟨ub, ue, e1, e2, hscan, ⟨hm1, hv1⟩, ⟨hm2, hv2⟩⟩ :=
    paramScanLoop_spec nurbs ⟨s.ifloat, s.jfloat⟩ ⟨t.ifloat, t.jfloat⟩ 100 0 101 0 0
      1000000 1000000 rfl (le_refl _)
      ⟨fun j h1 h2 => absurd h1 (by omega), fun h => absurd h (lt_irrefl _)⟩
      ⟨fun j h1 h2 => absurd h1 (by omega), fun h => absurd h (lt_irrefl _)⟩
  have hzero : (((0 : Nat) : ℚ) / 100) = 0 := by norm_num
  rw [hzero] at hscan
  have hfa : ∀ u, vpImagePoint.sqrDistance (nurbs.computeCurvePoint u) ⟨s.ifloat, s.jfloat⟩
      = (u - a) * (u - a) * (d.i * d.i + d.j * d.j) := by
    intro u; rw [hpt, hs.1, hs.2, line_sqrDistance]
  have hfb : ∀ u, vpImagePoint.sqrDistance (nurbs.computeCurvePoint u) ⟨t.ifloat, t.jfloat⟩
      = (u - b) * (u - b) * (d.i * d.i + d.j * d.j) := by
    intro u; rw [hpt, ht.1, ht.2, line_sqrDistance]
  have hnear : ∀ x, 0 ≤ x → x ≤ 1 → ∃ j : Nat, 1 ≤ j ∧ j ≤ 100 ∧
      ((j : ℚ) / 100 - x) * ((j : ℚ) / 100 - x) * (d.i * d.i + d.j * d.j)
        ≤ sqr me.sample_step := by
    intro x hx0 hx1
    obtain ⟨j, hj1, hj2, hj3⟩ := grid_near x hx0 hx1
    refine ⟨j, hj1, hj2, ?_⟩
    have := mul_le_mul_of_nonneg_right hj3 hL.le
    linarith
  have hub : -((b - a) / 3) ≤ ub - a ∧ ub - a ≤ (b - a) / 3 := by
    obtain ⟨j, hj1, hj2, hj3⟩ := hnear a hab.1 (by linarith [hab.2.1, hab.2.2])
    have h1 := hm1 j hj1 hj2
    rw [hfa] at h1
    have h2 := hv1 (by linarith)
    rw [hfa] at h2
    apply sq_le_of_mul_le _ _ _ hL hrpos.le
    rw [← hst, h2]
    linarith
  have hue : -((b - a) / 3) ≤ ue - b ∧ ue - b ≤ (b - a) / 3 := by
    obtain ⟨j, hj1, hj2, hj3⟩ := hnear b (by linarith [hab.1, hab.2.1]) hab.2.2
    have h1 := hm2 j hj1 hj2
    rw [hfb] at h1
    have h2 := hv2 (by linarith)
    rw [hfb] at h2
    apply sq_le_of_mul_le _ _ _ hL hrpos.le
    rw [← hst, h2]
    linarith
  simp only [gapSites, hscan, Option.some_bind]
  have hne1 : ub ≠ 1 := by
    intro h
    linarith [hub.2, hab.2.2]
  rw [if_pos (Or.inl hne1), hline ub]
  have hw := fillSites_inserts ext I me nurbs p0 d a b ((b - a) / 3) ue s hline hs hL hst hr
    (by ring) (by linarith [hue.1]) hbound htrack (⌈(ue - ub) * 100⌉.toNat + 1) ub
    (by linarith [hub.1]) (by linarith [hub.2]) (le_refl _)
  rw [ht.1, ht.2]
  exact hw

theorem vpMathRound_bounds (x : ℚ) (a b : Int) (ha : (a : ℚ) ≤ x) (hb : x ≤ (b : ℚ)) :
    a ≤ vpMathRound x ∧ vpMathRound x ≤ b := by
  unfold vpMathRound
  split
  · constructor
    · rw [Int.le_floor]; linarith
    · have h : ⌊x + 1 / 2⌋ < b + 1 := by
        rw [Int.floor_lt]; push_cast; linarith
      omega
  · constructor
    · have h : a - 1 < ⌈x - 1 / 2⌉ := by
        rw [Int.lt_ceil]; push_cast; linarith
      omega
    · rw [Int.ceil_le]; linarith

theorem exOutOfImage_inside (iP : vpImagePoint) (rows cols : Int)
    (h1 : 3 ≤ iP.i) (h2 : iP.i ≤ ((rows - 3 : Int) : ℚ))
    (h3 : 3 ≤ iP.j) (h4 : iP.j ≤ ((cols - 3 : Int) : ℚ)) :
    exOutOfImage iP 0 rows cols = false := by
  have hi := vpMathRound_bounds iP.i 3 (rows - 3) (by exact_mod_cast h1) h2
  have hj := vpMathRound_bounds iP.j 3 (cols - 3) (by exact_mod_cast h3) h4
  simp only [exOutOfImage, Bool.not_eq_false', Bool.and_eq_true, decide_eq_true_eq]
  refine ⟨⟨⟨?_, ?_⟩, ?_⟩, ?_⟩ <;> omega

/-- C9 (counterexample): two Sites (50,110) and (50,113) at squared distance `9·1²` on
the straight line of row 50 from column 10 to column 1010, everything in bounds (for the
in-bounds test of the example and for the file-static one) and the tracker accepting
every candidate where it is: the 0.01-step scan gives both Sites the same parameter and
`localReSample` inserts nothing. On the line of row 50 from column 9.5 to column 49.5
with the Sites (50,10) and (50,13), two Sites are inserted and the second one, at column
12.3, is closer than the sample step to the Site (50,13). -/
theorem C9_counterexample :
    (vpMeSite.sqrDistance (exSite 50 110) (exSite 50 113) = 9 * sqr exMe.sample_step ∧
      (exLine 10 1000).computeCurvePoint (1 / 10) = ⟨50, 110⟩ ∧
      (exLine 10 1000).computeCurvePoint (103 / 1000) = ⟨50, 113⟩ ∧
      exExt.outOfImage ⟨50, 10⟩ 0 exImage.rows exImage.cols = false ∧
      exExt.outOfImage ⟨50, 1010⟩ 0 exImage.rows exImage.cols = false ∧
      outOfImage ⟨50, 10⟩ 0 exImage.rows exImage.cols = false ∧
      outOfImage ⟨50, 1010⟩ 0 exImage.rows exImage.cols = false ∧
      (localReSample exExt exImage
          (exState [exSite 50 110, exSite 50 113] (exLine 10 1000) 1000 0 0)).map
        (fun st => st.list.elems) = some [exSite 50 110, exSite 50 113]) ∧
    (vpMeSite.sqrDistance (exSite 50 10) (exSite 50 13) = 9 * sqr exMe.sample_step ∧
      (exLine (19 / 2) 40).computeCurvePoint (1 / 80) = ⟨50, 10⟩ ∧
      (exLine (19 / 2) 40).computeCurvePoint (7 / 80) = ⟨50, 13⟩ ∧
      exExt.outOfImage ⟨50, 19 / 2⟩ 0 exImage.rows exImage.cols = false ∧
      exExt.outOfImage ⟨50, 99 / 2⟩ 0 exImage.rows exImage.cols = false ∧
      outOfImage ⟨50, 19 / 2⟩ 0 exImage.rows exImage.cols = false ∧
      outOfImage ⟨50, 99 / 2⟩ 0 exImage.rows exImage.cols = false ∧
      (localReSample exExt exImage
          (exState [exSite 50 10, exSite 50 13] (exLine (19 / 2) 40) 40 0 0)).map
        (fun st => st.list.elems.map fun s => (s.ifloat, s.jfloat)) =
        some [(50, 10), (50, 111 / 10), (50, 123 / 10), (50, 13)] ∧
      vpMeSite.sqrDistance (exSite 50 (123 / 10)) (exSite 50 13) < sqr exMe.sample_step) := by
  decide!

/-- C9 (amended): a consecutive pair `s`, `t` at squared distance `9·sample_step²` on a
straight-line Curve (at the parameters `a < b` in `[0,1]`), the Curve in bounds between
them for the test that `localReSample` calls, the inherited `outOfImage` with margin 0,
and the tracker accepting every candidate where it is. When moreover the live count
is at most `points_to_track`, `9·sample_step² < 1600` and the Curve advances by at most
`sample_step` per 0.01 of parameter, `localReSample` returns a list `pre ++ s :: F ++ t ::
post` with at least one inserted Site in `F`; and in every gap each inserted Site is
farther than `sample_step` from the Site right before it in the new list. -/
theorem C9_gap_fill_on_line (ext : Ext) (I : vpImage) (st : vpMeNurbs) (k : Nat)
    (s t : vpMeSite) (p0 d : vpImagePoint) (a b : ℚ)
    (hs : st.list.elems[k]? = some s) (ht : st.list.elems[k + 1]? = some t)
    (hpt : ∀ u, st.nurbs.computeCurvePoint u = ⟨p0.i + u * d.i, p0.j + u * d.j⟩)
    (hline : ∀ u, (st.nurbs.computeCurveDersPoint u).1 = ⟨p0.i + u * d.i, p0.j + u * d.j⟩)
    (hsa : s.ifloat = p0.i + a * d.i ∧ s.jfloat = p0.j + a * d.j)
    (htb : t.ifloat = p0.i + b * d.i ∧ t.jfloat = p0.j + b * d.j)
    (hab : 0 ≤ a ∧ a < b ∧ b ≤ 1) (hstep : 0 < st.me.sample_step)
    (hdist : vpMeSite.sqrDistance s t = 9 * sqr st.me.sample_step)
    (hbound : ∀ u, a ≤ u → u ≤ b →
      ext.outOfImage ⟨p0.i + u * d.i, p0.j + u * d.j⟩ 0 I.rows I.cols = false)
    (htrack : ∀ p : vpMeSite, p.suppress = 0 →
      ext.track I { st.me with range := 2 } p = p)
    (hn : numberOfSignal st.list ≤ st.me.points_to_track)
    (h1600 : 9 * sqr st.me.sample_step < 1600)
    (hgrid : (d.i * d.i + d.j * d.j) / 10000 ≤ sqr st.me.sample_step) :
    ∃ (st1 : vpMeNurbs) (Fs : List (List vpMeSite)) (F pre post : List vpMeSite),
      localReSample ext I st = some st1 ∧
      st1.list.elems = weave st.list.elems Fs ∧ Fs.length + 1 = st.list.elems.length ∧
      Fs[k]? = some F ∧ F ≠ [] ∧
      st1.list.elems = pre ++ s :: F ++ t :: post ∧
      (∀ (i : Nat) (x : vpMeSite) (G : List vpMeSite),
        st.list.elems[i]? = some x → Fs[i]? = some G →
        List.Chain (fun y z => vpMeSite.sqrDistance y z > sqr st.me.sample_step) x G) := by
  have hne : st.list.elems ≠ [] := by
    intro h; rw [h] at hs; simp at hs
  obtain ⟨st1, Fs, h1, hFs, h2, h3, _⟩ := localReSample_eq ext I st hne
  obtain ⟨F, hF, hp⟩ := allPairSites_get ext I _ st.nurbs _ _ Fs hFs k s t hs ht
  have hsel : gapSelected { st.me with range := 2 } s t = true := by
    rw [gapSelected_iff, hdist]
    have hsq : 0 < sqr st.me.sample_step := by simp only [sqr]; positivity
    exact ⟨by linarith, h1600⟩
  have hn2 : numberOfSignal st.list ≤ ({ st.me with range := 2 } : vpMe).points_to_track := hn
  have hg : gapSites ext I { st.me with range := 2 } st.nurbs s t = some F := by
    simpa only [pairSites, hn2, hsel, and_self, if_true] using hp
  obtain ⟨F1, hF1, hF1ne⟩ := gapSites_nonempty ext I { st.me with range := 2 } st.nurbs
    p0 d a b s t hpt hline hsa htb hab hstep hdist hbound htrack h1600 hgrid
  rw [hg] at hF1
  obtain rfl := Option.some.inj hF1
  obtain ⟨pre, post, hsplit⟩ := weave_split st.list.elems Fs k s t F hs ht hF
  refine ⟨st1, Fs, F, pre, post, h1, h2, h3, hF, hF1ne, by rw [h2, hsplit], ?_⟩
  intro i x G hx hG
  have hlen : i < Fs.length := by
    by_contra hc
    rw [List.getElem?_eq_none (by omega)] at hG
    cases hG
  have hi1 : i + 1 < st.list.elems.length := by omega
  obtain ⟨G1, hG1, hp1⟩ := allPairSites_get ext I _ st.nurbs _ _ Fs hFs i x
    (st.list.elems[i + 1]) hx (List.getElem?_eq_getElem hi1)
  rw [hG] at hG1
  obtain rfl := Option.some.inj hG1
  exact pairSites_chain ext I { st.me with range := 2 } st.nurbs _ htrack x _ G hp1

/-- Witness for C9 (amended): the Sites (50,10) and (50,13) on the line of row 50 from
column 0 to column 100, which advances by one pixel, the sample step, per 0.01 of
parameter. -/
theorem C9_gap_fill_on_line_witness :
    ∃ (st1 : vpMeNurbs) (F pre post : List vpMeSite),
      localReSample exExt exImage
        (exState [exSite 50 10, exSite 50 13] (exLine 0 100) 100 0 0) = some st1 ∧
      F ≠ [] ∧ st1.list.elems = pre ++ exSite 50 10 :: F ++ exSite 50 13 :: post := by
  obtain ⟨st1, Fs, F, pre, post, h1, _, _, _, h5, h6, _⟩ :=
    C9_gap_fill_on_line exExt exImage
      (exState [exSite 50 10, exSite 50 13] (exLine 0 100) 100 0 0) 0
      (exSite 50 10) (exSite 50 13) ⟨50, 0⟩ ⟨0, 100⟩ (1 / 10) (13 / 100) rfl rfl
      (by intro u; simp only [exState, exLine, vpImagePoint.mk.injEq]; constructor <;> ring)
      (by intro u; simp only [exState, exLine, vpImagePoint.mk.injEq]; constructor <;> ring)
      (by decide!) (by decide!) (by decide!) (by decide!) (by decide!)
      (by
        intro u hu1 hu2
        apply exOutOfImage_inside <;> simp only [exImage] <;> push_cast <;> linarith)
      (by
        intro p hp
        cases p
        simp only at hp
        subst hp
        rfl)
      (by decide!) (by decide!) (by decide!)
  exact ⟨st1, F, pre, post, h1, h5, h6⟩

/-! ### Robot velocities -/

theorem saturateLoop_spec : ∀ (vs ms : List ℚ) (s : ℚ), 0 ≤ s → s ≤ 1 →
    ∃ r, vpRobot.saturateLoop vs ms s = some r ∧ 0 ≤ r ∧ r ≤ s ∧
      ∀ (i : Nat) (v m : ℚ), vs[i]? = some v → ms[i]? = some m → |v| * r ≤ |m| := by
  intro vs
  induction vs with
  | nil =>
    intro ms s h0 h1
    exact ⟨s, by simp [vpRobot.saturateLoop], h0, le_refl _, by simp⟩
  | cons v vs ih =>
    intro ms s h0 h1
    cases ms with
    | nil => exact ⟨s, by simp [vpRobot.saturateLoop], h0, le_refl _, by simp⟩
    | cons m ms =>
      simp only [vpRobot.saturateLoop]
      by_cases hgt : |v| > |m|
      · have hvpos : 0 < |v| := lt_of_le_of_lt (abs_nonneg m) hgt
        have hq0 : 0 ≤ |m| / |v| := div_nonneg (abs_nonneg m) hvpos.le
        have hq1 : |m| / |v| < 1 := (div_lt_one hvpos).mpr hgt
        rw [if_pos hgt, if_neg hvpos.ne']
        obtain ⟨r, hr, hr0, hrs, hall⟩ := ih ms (if |m| / |v| < s then |m| / |v| else s)
          (by split <;> assumption) (by split <;> linarith)
        refine ⟨r, hr, hr0, ?_, ?_⟩
        · split at hrs <;> linarith
        · intro i x y hx hy
          cases i with
          | zero =>
            simp at hx hy
            subst hx hy
            have hrq : r ≤ |m| / |v| := by split at hrs <;> linarith
            calc |v| * r ≤ |v| * (|m| / |v|) := mul_le_mul_of_nonneg_left hrq hvpos.le
              _ = |m| := by field_simp
          | succ j => exact hall j x y (by simpa using hx) (by simpa using hy)
      · rw [if_neg hgt]
        obtain ⟨r, hr, hr0, hrs, hall⟩ := ih ms s h0 h1
        refine ⟨r, hr, hr0, hrs, ?_⟩
        intro i x y hx hy
        cases i with
        | zero =>
          simp at hx hy
          subst hx hy
          have : |v| * r ≤ |v| * 1 := mul_le_mul_of_nonneg_left (by linarith) (abs_nonneg v)
          linarith [not_lt.mp hgt]
        | succ j => exact hall j x y (by simpa using hx) (by simpa using hy)

/-- C19: for `v_in` and `v_max` of equal size, `saturateVelocities` returns a vector of
that size equal to `v_in` times one factor `scale` with `0 ≤ scale ≤ 1`, every entry of
it is at most the matching entry of `v_max` in absolute value, and no quotient with a
zero divisor is formed (exact rational arithmetic). -/
theorem C19_saturateVelocities_scales (v_in v_max : List ℚ)
    (hsize : v_in.length = v_max.length) :
    ∃ (scale : ℚ) (v_sat : List ℚ),
      vpRobot.saturateVelocities v_in v_max = Except.ok v_sat ∧
      v_sat.length = v_in.length ∧ 0 ≤ scale ∧ scale ≤ 1 ∧
      v_sat = v_in.map (fun v => v * scale) ∧
      ∀ (i : Nat) (x m : ℚ), v_sat[i]? = some x → v_max[i]? = some m → |x| ≤ |m| := by
  obtain ⟨r, hr, hr0, hr1, hall⟩ := saturateLoop_spec v_in v_max 1 (by norm_num) (le_refl _)
  refine ⟨r, v_in.map (fun v => v * r), ?_, by simp, hr0, hr1, rfl, ?_⟩
  · simp [vpRobot.saturateVelocities, hsize, hr]
  · intro i x m hx hm
    rw [List.getElem?_map] at hx
    cases hv : v_in[i]? with
    | none => simp [hv] at hx
    | some v =>
      simp only [hv, Option.map_some', Option.some.injEq] at hx
      subst hx
      rw [abs_mul, abs_of_nonneg hr0]
      exact hall i v m hv hm

/-- Witness for C19: the vectors of the example in the source, with 10 degrees written
as 1/6. -/
theorem C19_saturateVelocities_scales_witness :
    ∃ (scale : ℚ) (v_sat : List ℚ),
      vpRobot.saturateVelocities [1 / 10, 2 / 10, 3 / 10, 1 / 6, -1 / 6, 2 / 6]
        [3 / 10, 3 / 10, 3 / 10, 1 / 6, 1 / 6, 1 / 6] = Except.ok v_sat ∧
      v_sat.length = 6 ∧ 0 ≤ scale ∧ scale ≤ 1 ∧
      v_sat = [1 / 10, 2 / 10, 3 / 10, 1 / 6, -1 / 6, 2 / 6].map (fun v => v * scale) ∧
      ∀ (i : Nat) (x m : ℚ), v_sat[i]? = some x →
        [3 / 10, 3 / 10, 3 / 10, (1 : ℚ) / 6, 1 / 6, 1 / 6][i]? = some m → |x| ≤ |m| :=
  C19_saturateVelocities_scales [1 / 10, 2 / 10, 3 / 10, 1 / 6, -1 / 6, 2 / 6]
    [3 / 10, 3 / 10, 3 / 10, 1 / 6, 1 / 6, 1 / 6] rfl

/-- C20: `saturateVelocities` raises `dimensionError` exactly when `v_in` and `v_max` have
different sizes; for equal sizes, the size 0 included, it returns a vector. -/
theorem C20_dimensionError_iff_sizes_differ (v_in v_max : List ℚ) :
    (vpRobot.saturateVelocities v_in v_max = Except.error vpRobotException.dimensionError ↔
      v_in.length ≠ v_max.length) ∧
    (v_in.length = v_max.length →
      ∃ v_sat, vpRobot.saturateVelocities v_in v_max = Except.ok v_sat) ∧
    vpRobot.saturateVelocities [] [] = Except.ok [] := by
  refine ⟨?_, ?_, by simp [vpRobot.saturateVelocities, vpRobot.saturateLoop]⟩
  · constructor
    · intro h hlen
      obtain ⟨r, hr, _⟩ := saturateLoop_spec v_in v_max 1 (by norm_num) (le_refl _)
      simp [vpRobot.saturateVelocities, hlen, hr] at h
    · intro h
      simp [vpRobot.saturateVelocities, h]
  · intro hlen
    obtain ⟨r, hr, _⟩ := saturateLoop_spec v_in v_max 1 (by norm_num) (le_refl _)
    exact ⟨v_in.map (fun v => v * r), by simp [vpRobot.saturateVelocities, hlen, hr]⟩

/-- Witness for C20: equal sizes give a vector. -/
theorem C20_dimensionError_iff_sizes_differ_witness :
    ∃ v_sat, vpRobot.saturateVelocities [1, 2] [3, 4] = Except.ok v_sat :=
  (C20_dimensionError_iff_sizes_differ [1, 2] [3, 4]).2.1 rfl

/-! ### Angle search -/

theorem findAngleLoop_outOfImage (I : vpImage) (iP : vpImagePoint) (me : vpMe)
    (hout : outOfImage iP (((me.mask_size - 1) >>> 1) + me.strip) I.rows I.cols = true) :
    ∀ (n i : Nat) (angle convlt : ℚ), 0 ≤ convlt →
      findAngleLoop I iP me n i angle convlt = Except.ok (angle, convlt) := by
  intro n
  induction n with
  | zero => intro i angle convlt _; rfl
  | succ n ih =>
    intro i angle convlt h0
    have hconv : findAngleConv I iP me i = Except.ok 0 := by
      simp only [findAngleConv, hout, if_true]
    rw [findAngleLoop, hconv]
    show (if |(0:ℚ)| > convlt then _ else _) = _
    rw [abs_zero, if_neg (not_lt.mpr h0)]
    exact ih (i + 1) angle convlt h0

theorem findAngle_outOfImage (I : vpImage) (iP : vpImagePoint) (me : vpMe)
    (hout : outOfImage iP (((me.mask_size - 1) >>> 1) + me.strip) I.rows I.cols = true) :
    findAngle I iP me = Except.ok (0, 0) :=
  findAngleLoop_outOfImage I iP me hout 180 0 0 0 (le_refl _)

theorem findAngle_throws (I : vpImage) (iP : vpImagePoint) (me : vpMe)
    (hang : me.anglestep = 0)
    (hin : outOfImage iP (((me.mask_size - 1) >>> 1) + me.strip) I.rows I.cols = false) :
    findAngle I iP me = Except.error Err.divideByZeroError := by
  have hconv : findAngleConv I iP me 0 = Except.error Err.divideByZeroError := by
    simp [findAngleConv, hin, hang]
  simp only [findAngle, findAngleLoop, hconv, Except.bind]

/-- C13 (counterexample): with angular resolution 0, at the point (0,0) of a 100×100
image, which is too close to the image edge for the mask, `findAngle` returns the angle 0
and the convolution 0 and throws nothing. -/
theorem C13_counterexample :
    exMeNoAngle.anglestep = 0 ∧
    findAngle exWhite ⟨0, 0⟩ exMeNoAngle = Except.ok (0, 0) :=
  ⟨rfl, findAngle_outOfImage exWhite ⟨0, 0⟩ exMeNoAngle (by decide!)⟩

/-- C13 (amended): with angular resolution 0, `findAngle` throws the divide-by-zero
exception exactly when the point is not `outOfImage` for the margin
`(mask_size - 1)/2 + strip`; for a point that is `outOfImage` it returns the angle 0 and
the convolution 0. -/
theorem C13_zero_anglestep_throws_inside (I : vpImage) (iP : vpImagePoint) (me : vpMe)
    (hang : me.anglestep = 0) :
    (outOfImage iP (((me.mask_size - 1) >>> 1) + me.strip) I.rows I.cols = false →
      findAngle I iP me = Except.error Err.divideByZeroError) ∧
    (outOfImage iP (((me.mask_size - 1) >>> 1) + me.strip) I.rows I.cols = true →
      findAngle I iP me = Except.ok (0, 0)) :=
  ⟨findAngle_throws I iP me hang, findAngle_outOfImage I iP me⟩

/-- Witness for C13 (amended): inside the image the exception is thrown. -/
theorem C13_zero_anglestep_throws_inside_witness :
    findAngle exWhite ⟨50, 50⟩ exMeNoAngle = Except.error Err.divideByZeroError :=
  (C13_zero_anglestep_throws_inside exWhite ⟨50, 50⟩ exMeNoAngle rfl).1 (by decide!)

/-! ### Sampler invariants -/

theorem sampleLoop_inv (ext : Ext) (I : vpImage) (me : vpMe) (nurbs : vpNurbs) (step : ℚ) :
    ∀ (fuel : Nat) (u : ℚ) (pt_1 : vpImagePoint) (list l1 : vpList vpMeSite),
      sampleLoop ext I me nurbs step fuel u pt_1 list = some l1 →
      list.cur = list.elems.length →
      (∀ s ∈ list.elems, ext.outOfImage ⟨s.ifloat, s.jfloat⟩ 0 I.rows I.cols = false) →
      List.Chain' (fun a b => vpMeSite.sqrDistance a b ≥ sqr me.sample_step) list.elems →
      (∀ last ∈ list.elems.getLast?, (⟨last.ifloat, last.jfloat⟩ : vpImagePoint) = pt_1) →
      (∀ s ∈ l1.elems, ext.outOfImage ⟨s.ifloat, s.jfloat⟩ 0 I.rows I.cols = false) ∧
      List.Chain' (fun a b => vpMeSite.sqrDistance a b ≥ sqr me.sample_step) l1.elems := by
  intro fuel
  induction fuel with
  | zero => intro u pt_1 list l1 h; simp [sampleLoop] at h
  | succ f ih =>
    intro u pt_1 list l1 h hc hin hch hlast
    simp only [sampleLoop] at h
    split at h
    · cases hd : computeDelta ext (nurbs.computeCurveDersPoint u).2.i
        (nurbs.computeCurveDersPoint u).2.j with
      | none => rw [hd, Option.none_bind] at h; cases h
      | some delta =>
        rw [hd, Option.some_bind] at h
        split at h
        · rename_i hcond
          simp only [Bool.and_eq_true, Bool.not_eq_true', decide_eq_true_eq] at hcond
          rw [addRight_at_end list _ hc, Option.some_bind] at h
          refine ih _ _ _ _ h (by simp) ?_ ?_ ?_
          · intro s hs
            simp only [List.mem_append, List.mem_singleton] at hs
            rcases hs with hs | hs
            · exact hin s hs
            · subst hs; exact hcond.1
          · rw [List.chain'_append]
            refine ⟨hch, List.chain'_singleton _, ?_⟩
            intro x hx y hy
            simp only [List.head?_cons, Option.mem_def, Option.some.injEq] at hy
            subst hy
            have hx1 := hlast x hx
            have h2 := hcond.2
            rw [← hx1] at h2
            simp only [vpImagePoint.sqrDistance] at h2
            simp only [vpMeSite.sqrDistance, vpMeSite.init3, ge_iff_le]
            linarith [h2]
          · intro last hl
            simp only [List.getLast?_append, List.getLast?_singleton, Option.mem_def] at hl
            change some _ = some last at hl
            injection hl with hl
            subst hl
            rfl
        · exact ih _ _ _ _ h hc hin hch hlast
    · simp only [Option.some.injEq] at h
      subst h
      exact ⟨hin, hch⟩

/-- C17 (counterexample): on the 200-row example image, with the in-bounds test of the
example collaborators, the Sampler run with 2 points to track on the line of row 197.4
from column 10 to column 110 keeps the three Sites of row 197.4, which is above
`rows - 3 = 197`; the file-static `outOfImage`, whose bounds the claim quotes, holds at
these points, but it is not the test that the member function `sample` calls. -/
theorem C17_counterexample :
    (sample exExt exImage
        { exState [exSite 50 10] (exLineAt (987 / 5) 10 100) 100 0 0 with
          me := { exMe with points_to_track := 2 } }).map
      (fun l => l.elems.map fun s => (s.ifloat, s.jfloat)) =
      some [(987 / 5, 10), (987 / 5, 60), (987 / 5, 110)] ∧
    ¬ ((987 / 5 : ℚ) ≤ (((exImage.rows : Int) - 3 : Int) : ℚ)) ∧
    outOfImage ⟨987 / 5, 10⟩ 0 exImage.rows exImage.cols = true := by
  decide!

/-- C17 (amended): for `points_to_track ≥ 0` the Sampler returns; its list does not depend
on the list it replaces (the old Sites are discarded), every Site of it passes the
in-bounds test that `sample` calls, the inherited `outOfImage` with margin 0, and two
consecutive Sites are at squared distance at least `sample_step²`. -/
theorem C17_sample_sites_in_bounds_and_spaced (ext : Ext) (I : vpImage) (st : vpMeNurbs)
    (hp : 0 ≤ st.me.points_to_track) :
    ∃ l, sample ext I st = some l ∧
      (∀ l0, sample ext I { st with list := l0 } = some l) ∧
      (∀ s ∈ l.elems, ext.outOfImage ⟨s.ifloat, s.jfloat⟩ 0 I.rows I.cols = false) ∧
      List.Chain' (fun a b => vpMeSite.sqrDistance a b ≥ sqr st.me.sample_step) l.elems := by
  obtain ⟨l, hl⟩ := sample_some ext I st hp
  have hl2 := hl
  simp only [sample] at hl2
  rw [if_neg (by omega)] at hl2
  have hinv := sampleLoop_inv ext I st.me st.nurbs _ _ _ _ _ l hl2 (by simp [vpList.kill])
    (by simp [vpList.kill, vpList.front]) (by simp [vpList.kill, vpList.front])
    (by simp [vpList.kill, vpList.front])
  exact ⟨l, hl, fun l0 => by rw [sample_indep, hl], hinv.1, hinv.2⟩

/-- Witness for C17: the example line sampled with 100 points to track. -/
theorem C17_sample_sites_in_bounds_and_spaced_witness :
    ∃ l, sample exExt exImage (exState [exSite 50 10] (exLine 10 200) 200 0 0) = some l ∧
      (∀ s ∈ l.elems,
        exExt.outOfImage ⟨s.ifloat, s.jfloat⟩ 0 exImage.rows exImage.cols = false) ∧
      List.Chain' (fun a b => vpMeSite.sqrDistance a b ≥ sqr exMe.sample_step) l.elems := by
  obtain ⟨l, h1, _, h3, h5⟩ := C17_sample_sites_in_bounds_and_spaced exExt exImage
    (exState [exSite 50 10] (exLine 10 200) 200 0 0) (by decide)
  exact ⟨l, h1, h3, h5⟩

/-! ### Search range seen by the tracker -/

theorem seekBeginLoop_congr (ext : Ext) (tr : vpImage → vpMe → vpMeSite → vpMeSite)
    (I : vpImage) (me : vpMe) (htr : ∀ P, tr I me P = ext.track I me P)
    (end0 : vpImagePoint) (si co sample threshold : ℚ) :
    ∀ (k : Nat) (P : vpMeSite) (list : vpList vpMeSite) (added : Bool),
      seekBeginLoop { ext with track := tr } I me end0 si co sample threshold k P list added =
        seekBeginLoop ext I me end0 si co sample threshold k P list added := by
  intro k
  induction k with
  | zero => intro P list added; rfl
  | succ k ih =>
    intro P list added
    simp only [seekBeginLoop, htr, ih]

theorem seekEndLoop_congr (ext : Ext) (tr : vpImage → vpMe → vpMeSite → vpMeSite)
    (I : vpImage) (me : vpMe) (htr : ∀ P, tr I me P = ext.track I me P)
    (begin0 : vpImagePoint) (si co sample threshold : ℚ) :
    ∀ (k : Nat) (P : vpMeSite) (list : vpList vpMeSite) (added : Bool),
      seekEndLoop { ext with track := tr } I me begin0 si co sample threshold k P list added =
        seekEndLoop ext I me begin0 si co sample threshold k P list added := by
  intro k
  induction k with
  | zero => intro P list added; rfl
  | succ k ih =>
    intro P list added
    simp only [seekEndLoop, htr, ih]

theorem seekExtremities_congr (ext : Ext) (tr : vpImage → vpMe → vpMeSite → vpMeSite)
    (I : vpImage) (st : vpMeNurbs)
    (htr : ∀ P, tr I { st.me with range := 2 } P = ext.track I { st.me with range := 2 } P) :
    seekExtremities { ext with track := tr } I st = seekExtremities ext I st := by
  simp only [seekExtremities, seekBeginLoop_congr ext tr I _ htr,
    seekEndLoop_congr ext tr I _ htr]

theorem retrackLoopBegin_congr (ext : Ext) (tr : vpImage → vpMe → vpMeSite → vpMeSite)
    (I : vpImage) (me : vpMe) (htr : ∀ P, tr I me P = ext.track I me P) :
    ∀ (n : Nat) (list : vpList vpMeSite),
      retrackLoopBegin { ext with track := tr } I me n list =
        retrackLoopBegin ext I me n list := by
  intro n
  induction n with
  | zero => intro list; rfl
  | succ n ih =>
    intro list
    simp only [retrackLoopBegin, htr, ih]

theorem retrackLoopEnd_congr (ext : Ext) (tr : vpImage → vpMe → vpMeSite → vpMeSite)
    (I : vpImage) (me : vpMe) (htr : ∀ P, tr I me P = ext.track I me P) :
    ∀ (n : Nat) (list : vpList vpMeSite),
      retrackLoopEnd { ext with track := tr } I me n list =
        retrackLoopEnd ext I me n list := by
  intro n
  induction n with
  | zero => intro list; rfl
  | succ n ih =>
    intro list
    simp only [retrackLoopEnd, htr, ih]

theorem lastPtLoopBegin_congr (ext : Ext) (tr : vpImage → vpMe → vpMeSite → vpMeSite)
    (nurbs : vpNurbs) (topLeft : vpImagePoint) : ∀ (fuel : Nat) (u : ℚ) (p : vpImagePoint),
      lastPtLoopBegin { ext with track := tr } nurbs topLeft fuel u p =
        lastPtLoopBegin ext nurbs topLeft fuel u p := by
  intro fuel
  induction fuel with
  | zero => intro u p; rfl
  | succ f ih => intro u p; simp only [lastPtLoopBegin, ih]

theorem lastPtLoopEnd_congr (ext : Ext) (tr : vpImage → vpMe → vpMeSite → vpMeSite)
    (nurbs : vpNurbs) (topLeft : vpImagePoint) : ∀ (fuel : Nat) (u : ℚ) (p : vpImagePoint),
      lastPtLoopEnd { ext with track := tr } nurbs topLeft fuel u p =
        lastPtLoopEnd ext nurbs topLeft fuel u p := by
  intro fuel
  induction fuel with
  | zero => intro u p; rfl
  | succ f ih => intro u p; simp only [lastPtLoopEnd, ih]

theorem removeInWindowBegin_congr (ext : Ext) (tr : vpImage → vpMe → vpMeSite → vpMeSite)
    (topLeft : vpImagePoint) : ∀ (fuel : Nat) (list : vpList vpMeSite),
      removeInWindowBegin { ext with track := tr } topLeft fuel list =
        removeInWindowBegin ext topLeft fuel list := by
  intro fuel
  induction fuel with
  | zero => intro list; rfl
  | succ f ih => intro list; simp only [removeInWindowBegin, ih]

theorem removeInWindowEnd_congr (ext : Ext) (tr : vpImage → vpMe → vpMeSite → vpMeSite)
    (topLeft : vpImagePoint) : ∀ (fuel : Nat) (list : vpList vpMeSite),
      removeInWindowEnd { ext with track := tr } topLeft fuel list =
        removeInWindowEnd ext topLeft fuel list := by
  intro fuel
  induction fuel with
  | zero => intro list; rfl
  | succ f ih => intro list; simp only [removeInWindowEnd, ih]

theorem recoverBegin_congr (ext : Ext) (tr : vpImage → vpMe → vpMeSite → vpMeSite)
    (I : vpImage) (st : vpMeNurbs)
    (htr : ∀ P, tr I { st.me with range := 3 } P = ext.track I { st.me with range := 3 } P) :
    recoverBegin { ext with track := tr } I st = recoverBegin ext I st := by
  simp only [recoverBegin, seedBegin, lastPtLoopBegin_congr, removeInWindowBegin_congr,
    retrackLoopBegin_congr ext tr I _ htr]

theorem recoverEnd_congr (ext : Ext) (tr : vpImage → vpMe → vpMeSite → vpMeSite)
    (I : vpImage) (st : vpMeNurbs)
    (htr : ∀ P, tr I { st.me with range := 3 } P = ext.track I { st.me with range := 3 } P) :
    recoverEnd { ext with track := tr } I st = recoverEnd ext I st := by
  simp only [recoverEnd, seedEnd, lastPtLoopEnd_congr, removeInWindowEnd_congr,
    retrackLoopEnd_congr ext tr I _ htr]

theorem except_bind_congr {ε α β : Type} (x : Except ε α) (f g : α → Except ε β)
    (h : ∀ a, x = Except.ok a → f a = g a) : x.bind f = x.bind g := by
  cases x with
  | error e => rfl
  | ok a => exact h a rfl

theorem seekExtremitiesCanny_congr (ext : Ext) (tr : vpImage → vpMe → vpMeSite → vpMeSite)
    (I : vpImage) (st : vpMeNurbs)
    (htr : ∀ P, tr I { st.me with range := 3 } P = ext.track I { st.me with range := 3 } P) :
    seekExtremitiesCanny { ext with track := tr } I st = seekExtremitiesCanny ext I st := by
  simp only [seekExtremitiesCanny, recoverBegin_congr ext tr I st htr]
  apply except_bind_congr
  intro s1 hb
  have hme : s1.me = st.me := by
    split at hb
    · obtain ⟨s0, h0, hb⟩ := except_bind_ok hb
      injection hb with hb
      subst hb
      exact (recoverBegin_frame ext I st s0 h0).1
    · injection hb with hb
      subst hb
      rfl
  rw [recoverEnd_congr ext tr I s1 (by rw [hme]; exact htr)]

/-- C18 (counterexample): with the configured search range 4, the tracker is called on
the extension candidates of `seekExtremities` with the range 2, not 8: every candidate
spliced at an end carries the range 2 that the probing tracker wrote into it. -/
theorem C18_counterexample :
    exMe.range = 4 ∧
    (seekExtremities exProbe exImage
        (exState [exSite 50 100, exSite 50 900] (exLine 100 800) 800 0 0)).map
      (fun st => st.list.elems.map fun s => s.mask_sign) = some [2, 2, 2, 1, 1, 2, 2, 2] := by
  decide!

/-- C18 (amended): the tracker is called on the extension candidates of
`seekExtremities` with the search range 2, and on the recovered points of
`seekExtremitiesCanny` with the search range 3, whatever the configured range: what the
tracker does for any other search range has no influence on the result of either call. -/
theorem C18_tracker_range_is_two_and_three (ext : Ext)
    (tr : vpImage → vpMe → vpMeSite → vpMeSite) (I : vpImage) (st : vpMeNurbs) :
    ((∀ P, tr I { st.me with range := 2 } P = ext.track I { st.me with range := 2 } P) →
      seekExtremities { ext with track := tr } I st = seekExtremities ext I st) ∧
    ((∀ P, tr I { st.me with range := 3 } P = ext.track I { st.me with range := 3 } P) →
      seekExtremitiesCanny { ext with track := tr } I st = seekExtremitiesCanny ext I st) :=
  ⟨seekExtremities_congr ext tr I st, seekExtremitiesCanny_congr ext tr I st⟩

/-- Witness for C18 (amended): a tracker that answers as the example tracker for the
search range 2 and gives the default Site for every other range leaves the result of
`seekExtremities` as it is. -/
theorem C18_tracker_range_is_two_and_three_witness :
    seekExtremities
        { exExt with track := fun I me s =>
            if me.range = 2 then exExt.track I me s else default }
        exImage (exState [exSite 50 100, exSite 50 900] (exLine 100 800) 800 0 0) =
      seekExtremities exExt exImage
        (exState [exSite 50 100, exSite 50 900] (exLine 100 800) 800 0 0) :=
  (C18_tracker_range_is_two_and_three exExt
    (fun I me s => if me.range = 2 then exExt.track I me s else default) exImage
    (exState [exSite 50 100, exSite 50 900] (exLine 100 800) 800 0 0)).1 (fun _ => rfl)

/-! ### Distance to the image edge -/

theorem seekExtremitiesCanny_neither (ext : Ext) (I : vpImage) (st : vpMeNurbs)
    (hb : ¬ (3 ≤ st.beginPtFound ∧
      farFromImageEdge I ⟨st.list.firstValue.ifloat, st.list.firstValue.jfloat⟩ = true))
    (he : ¬ (3 ≤ st.endPtFound ∧
      farFromImageEdge I ⟨st.list.lastValue.ifloat, st.list.lastValue.jfloat⟩ = true)) :
    seekExtremitiesCanny ext I st = Except.ok st := by
  have hc1 : (decide (st.beginPtFound ≥ 3) &&
      farFromImageEdge I ⟨st.list.firstValue.ifloat, st.list.firstValue.jfloat⟩) = false := by
    rw [Bool.eq_false_iff]
    intro hc
    simp only [Bool.and_eq_true, decide_eq_true_eq, ge_iff_le] at hc
    exact hb hc
  have hc2 : (decide (st.endPtFound ≥ 3) &&
      farFromImageEdge I ⟨st.list.lastValue.ifloat, st.list.lastValue.jfloat⟩) = false := by
    rw [Bool.eq_false_iff]
    intro hc
    simp only [Bool.and_eq_true, decide_eq_true_eq, ge_iff_le] at hc
    exact he hc
  simp only [seekExtremitiesCanny, hc1, Except.bind, Bool.false_eq_true, if_false, hc2]

/-- C16 (counterexample): in a 100×100 image `farFromImageEdge` accepts the point
(79, 50), whose distance `rows - 1 - i` to the last row is exactly 20, and the point
(50, 79), whose distance to the last column is exactly 20, while it rejects (20, 50) and
(50, 20), whose distance to the first row and column is exactly 20. -/
theorem C16_counterexample :
    farFromImageEdge exWhite ⟨79, 50⟩ = true ∧ ((exWhite.rows : ℚ) - 1 - 79 = 20) ∧
    farFromImageEdge exWhite ⟨50, 79⟩ = true ∧ ((exWhite.cols : ℚ) - 1 - 79 = 20) ∧
    farFromImageEdge exWhite ⟨20, 50⟩ = false ∧ farFromImageEdge exWhite ⟨50, 20⟩ = false := by
  decide!

/-- C16 (amended): `farFromImageEdge(I, p)` is true exactly when `20 < p.i < rows - 20`
and `20 < p.j < cols - 20`, the distance to the bottom and right borders being measured
as `rows - p.i` and `cols - p.j`. Contour Recovery runs for an end exactly when that
end's failure counter is at least 3 and the predicate holds for the end Site: with
neither trigger the call returns the state as it is, with the trigger of one end only
the call is the recovery of that end followed by the reset of its counter. -/
theorem C16_farFromImageEdge_iff (ext : Ext) (I : vpImage) (st : vpMeNurbs)
    (iP : vpImagePoint) :
    (farFromImageEdge I iP = true ↔
      (20 < iP.i ∧ iP.i < (I.rows : ℚ) - 20 ∧ 20 < iP.j ∧ iP.j < (I.cols : ℚ) - 20)) ∧
    (¬ (3 ≤ st.beginPtFound ∧
        farFromImageEdge I ⟨st.list.firstValue.ifloat, st.list.firstValue.jfloat⟩ = true) →
      ¬ (3 ≤ st.endPtFound ∧
        farFromImageEdge I ⟨st.list.lastValue.ifloat, st.list.lastValue.jfloat⟩ = true) →
      seekExtremitiesCanny ext I st = Except.ok st) ∧
    ((3 ≤ st.beginPtFound ∧
        farFromImageEdge I ⟨st.list.firstValue.ifloat, st.list.firstValue.jfloat⟩ = true) →
      ¬ (3 ≤ st.endPtFound ∧
        farFromImageEdge I ⟨st.list.lastValue.ifloat, st.list.lastValue.jfloat⟩ = true) →
      ∀ s1, recoverBegin ext I st = Except.ok s1 →
        seekExtremitiesCanny ext I st = Except.ok { s1 with beginPtFound := 0 }) ∧
    (¬ (3 ≤ st.beginPtFound ∧
        farFromImageEdge I ⟨st.list.firstValue.ifloat, st.list.firstValue.jfloat⟩ = true) →
      (3 ≤ st.endPtFound ∧
        farFromImageEdge I ⟨st.list.lastValue.ifloat, st.list.lastValue.jfloat⟩ = true) →
      ∀ s1, recoverEnd ext I st = Except.ok s1 →
        seekExtremitiesCanny ext I st = Except.ok { s1 with endPtFound := 0 }) := by
  refine ⟨?_, seekExtremitiesCanny_neither ext I st,
    fun hb he s1 h => seekExtremitiesCanny_begin_only ext I st s1 hb he h,
    fun hb he s1 h => seekExtremitiesCanny_end_only ext I st s1 hb he h⟩
  simp only [farFromImageEdge, Bool.and_eq_true, decide_eq_true_eq]
  push_cast
  constructor
  · rintro ⟨⟨⟨h1, h2⟩, h3⟩, h4⟩
    exact ⟨h3, h1, h4, h2⟩
  · rintro ⟨h1, h2, h3, h4⟩
    exact ⟨⟨⟨h2, h4⟩, h1⟩, h3⟩

/-- Witness for C16 (amended): with both failure counters at 0 the call returns the
state as it is. -/
theorem C16_farFromImageEdge_iff_witness :
    seekExtremitiesCanny exExt exImage
        (exState [exSite 50 100, exSite 50 105] (exLine 100 5) 5 0 0) =
      Except.ok (exState [exSite 50 100, exSite 50 105] (exLine 100 5) 5 0 0) :=
  (C16_farFromImageEdge_iff exExt exImage
    (exState [exSite 50 100, exSite 50 105] (exLine 100 5) 5 0 0) ⟨0, 0⟩).2.1
    (fun h => absurd h.1 (by decide)) (fun h => absurd h.1 (by decide))

/-! ### Angle normalisation -/

theorem subPiLoopIn_spec {K : Type} [LinearOrderedField K] [FloorRing K] (pi : K)
    (hpi : 0 < pi) : ∀ (fuel : Nat) (x : K), ⌈x / pi⌉.toNat + 1 ≤ fuel →
    ∃ (y : K) (k : Nat), subPiLoopIn pi fuel x = some y ∧ y ≤ pi ∧ y = x - k * pi ∧
      (x ≤ pi → y = x) ∧ (0 ≤ x → 0 ≤ y) := by
  intro fuel
  induction fuel with
  | zero => intro x h; omega
  | succ f ih =>
    intro x h
    simp only [subPiLoopIn]
    split
    · rename_i hx
      have h1 : (x - pi) / pi = x / pi - 1 := by
        field_simp [hpi.ne']
      have h2 : (1 : K) < x / pi := by
        rw [lt_div_iff₀ hpi]; simpa using hx
      have h3 : (1 : Int) < ⌈x / pi⌉ := by
        have := Int.le_ceil (x / pi)
        have h4 : ((1 : Int) : K) < ((⌈x / pi⌉ : Int) : K) := by
          push_cast; linarith
        exact_mod_cast h4
      obtain ⟨y, k, hy, hle, hk, _, h0⟩ := ih (x - pi) (by rw [h1, Int.ceil_sub_one]; omega)
      refine ⟨y, k + 1, hy, hle, ?_, ?_, ?_⟩
      · rw [hk]; push_cast; ring
      · intro hxp; exact absurd hx (not_lt.mpr hxp)
      · intro _
        exact h0 (by linarith [show pi < x from hx])
    · rename_i hx
      exact ⟨x, 0, rfl, not_lt.mp hx, by simp, fun _ => rfl, fun h => h⟩

theorem addPiLoopIn_spec {K : Type} [LinearOrderedField K] [FloorRing K] (pi : K)
    (hpi : 0 < pi) : ∀ (fuel : Nat) (x : K), ⌈-x / pi⌉.toNat + 1 ≤ fuel →
    ∃ (y : K) (k : Nat), addPiLoopIn pi fuel x = some y ∧ 0 ≤ y ∧ y = x + k * pi ∧
      (0 ≤ x → y = x) ∧ (x < 0 → y < pi) := by
  intro fuel
  induction fuel with
  | zero => intro x h; omega
  | succ f ih =>
    intro x h
    simp only [addPiLoopIn]
    split
    · rename_i hx
      have h1 : -(x + pi) / pi = -x / pi - 1 := by
        field_simp [hpi.ne']
        ring
      have h2 : (0 : K) < -x / pi := by
        apply div_pos _ hpi
        linarith
      have h3 : (0 : Int) < ⌈-x / pi⌉ := Int.ceil_pos.mpr h2
      obtain ⟨y, k, hy, hle, hk, hfix, hlt⟩ :=
        ih (x + pi) (by rw [h1, Int.ceil_sub_one]; omega)
      refine ⟨y, k + 1, hy, hle, ?_, ?_, ?_⟩
      · rw [hk]; push_cast; ring
      · intro h0; exact absurd hx (not_lt.mpr h0)
      · intro _
        rcases lt_or_le (x + pi) 0 with hneg | hpos
        · exact hlt hneg
        · rw [hfix hpos]; linarith
    · rename_i hx
      exact ⟨x, 0, rfl, not_lt.mp hx, by simp, fun _ => rfl, fun h => absurd h hx⟩

theorem normalizeAngleIn_spec {K : Type} [LinearOrderedField K] [FloorRing K] (pi : K)
    (hpi : 0 < pi) (x : K) :
    ∃ (y : K) (k : Int), normalizeAngleIn pi x = some y ∧ 0 ≤ y ∧ y ≤ pi ∧
      y = x + k * pi ∧ (x < pi → y < pi) ∧ (0 ≤ x → x ≤ pi → y = x) := by
  obtain ⟨y1, k1, hy1, hle1, hk1, hfix1, hpos1⟩ :=
    subPiLoopIn_spec pi hpi (⌈x / pi⌉.toNat + 1) x (le_refl _)
  obtain ⟨y, k2, hy, hge, hk2, hfix2, hlt2⟩ :=
    addPiLoopIn_spec pi hpi (⌈-y1 / pi⌉.toNat + 1) y1 (le_refl _)
  refine ⟨y, (k2 : Int) - (k1 : Int), ?_, hge, ?_, ?_, ?_, ?_⟩
  · simp only [normalizeAngleIn, hy1, Option.some_bind, hy]
  · rcases lt_or_le y1 0 with hneg | hpos
    · exact (hlt2 hneg).le
    · rw [hfix2 hpos]; exact hle1
  · rw [hk2, hk1]; push_cast; ring
  · intro hx
    rcases lt_or_le y1 0 with hneg | hpos
    · exact hlt2 hneg
    · rw [hfix2 hpos, hfix1 hx.le]; exact hx
  · intro h0 hx
    rw [hfix2 (hpos1 h0), hfix1 hx]

theorem subPiLoop_eq_In : ∀ (fuel : Nat) (x : ℚ), subPiLoop fuel x = subPiLoopIn M_PI fuel x := by
  intro fuel
  induction fuel with
  | zero => intro x; rfl
  | succ f ih => intro x; simp only [subPiLoop, subPiLoopIn, ih]

theorem addPiLoop_eq_In : ∀ (fuel : Nat) (x : ℚ), addPiLoop fuel x = addPiLoopIn M_PI fuel x := by
  intro fuel
  induction fuel with
  | zero => intro x; rfl
  | succ f ih => intro x; simp only [addPiLoop, addPiLoopIn, ih]

theorem normalizeAngle_eq_In (x : ℚ) : normalizeAngle x = normalizeAngleIn M_PI x := by
  simp only [normalizeAngle, normalizeAngleIn, subPiLoop_eq_In, addPiLoop_eq_In]

theorem computeDelta_eq_In (ext : Ext) (di dj : ℚ) :
    computeDelta ext di dj = computeDeltaIn M_PI ext.atan2 di dj :=
  normalizeAngle_eq_In _

theorem computeDeltaIn_spec {K : Type} [LinearOrderedField K] [FloorRing K] (pi : K)
    (atan2 : K → K → K) (hpi : 0 < pi) (di dj : K) (hle : atan2 di dj ≤ pi) :
    ∃ (δ : K) (k : Int), computeDeltaIn pi atan2 di dj = some δ ∧ 0 ≤ δ ∧ δ < pi ∧
      δ = atan2 di dj - pi / 2 + k * pi := by
  obtain ⟨y, k, hy, h0, _, hk, hlt, _⟩ := normalizeAngleIn_spec pi hpi (atan2 di dj - pi / 2)
  exact ⟨y, k, hy, h0, hlt (by linarith), hk⟩

theorem findAngleConv_ok (I : vpImage) (iP : vpImagePoint) (me : vpMe)
    (hang : me.anglestep ≠ 0) (i : Nat) : ∃ c, findAngleConv I iP me i = Except.ok c := by
  simp only [findAngleConv, hang, ne_eq, not_false_eq_true, if_true]
  split <;> exact ⟨_, rfl⟩

theorem except_of_toOption {ε α : Type} {x : Except ε α} {a : α}
    (h : x.toOption = some a) : x = Except.ok a := by
  cases x with
  | error e => cases h
  | ok b => cases h; rfl

theorem findAngleLoop_range (I : vpImage) (iP : vpImagePoint) (me : vpMe)
    (hang : me.anglestep ≠ 0) :
    ∀ (n i : Nat) (angle convlt : ℚ), 0 ≤ angle → angle ≤ M_PI →
      ∃ a c, findAngleLoop I iP me n i angle convlt = Except.ok (a, c) ∧
        0 ≤ a ∧ a ≤ M_PI := by
  intro n
  induction n with
  | zero => intro i angle convlt h0 h1; exact ⟨angle, convlt, rfl, h0, h1⟩
  | succ n ih =>
    intro i angle convlt h0 h1
    obtain ⟨c, hc⟩ := findAngleConv_ok I iP me hang i
    rw [findAngleLoop, hc]
    show ∃ a c1, (if |c| > convlt then _ else _) = Except.ok (a, c1) ∧ _
    split
    · obtain ⟨y, _, hy, hy0, hy1, _⟩ :=
        normalizeAngleIn_spec M_PI M_PI_pos (vpMathRad i + M_PI / 2)
      rw [normalizeAngle_eq_In, hy]
      exact ih (i + 1) y |c| hy0 hy1
    · exact ih (i + 1) angle convlt h0 h1

/-- C15 (counterexample): with the angular resolution 1 and a mask bank that answers
only for the direction 90, `findAngle` at the point (50, 50) of a white 100×100 image
returns the angle `M_PI` itself, which is not below `M_PI`: for the direction 90 the
angle is `rad(90) + M_PI/2 = M_PI` and the loop `while (angle > M_PI)` leaves it. -/
theorem C15_counterexample :
    exMe90.anglestep ≠ 0 ∧
    findAngle exWhite ⟨50, 50⟩ exMe90 = Except.ok (M_PI, 6375) ∧ ¬ (M_PI < M_PI) :=
  ⟨by decide, except_of_toOption (by decide!), lt_irrefl _⟩

/-- C15 (amended): for a non-zero angular resolution `findAngle` returns, and its angle
lies in the closed range from 0 to `M_PI`, the upper end included. The same holds with
the arithmetic of every ordered field `K` and every positive constant `pi`: the
normalised angle `rad(i) + pi/2` of a direction `i` lies in `[0, pi]`, and for the
direction 90 it is `pi` itself. -/
theorem C15_findAngle_in_closed_range (I : vpImage) (iP : vpImagePoint) (me : vpMe)
    (hang : me.anglestep ≠ 0) :
    (∃ a c, findAngle I iP me = Except.ok (a, c) ∧ 0 ≤ a ∧ a ≤ M_PI) ∧
    ∀ (K : Type) [LinearOrderedField K] [FloorRing K] (pi : K), 0 < pi →
      (∀ i : Nat, ∃ a, normalizeAngleIn pi ((i : K) * pi / 180 + pi / 2) = some a ∧
        0 ≤ a ∧ a ≤ pi) ∧
      normalizeAngleIn pi ((90 : K) * pi / 180 + pi / 2) = some pi := by
  refine ⟨findAngleLoop_range I iP me hang 180 0 0 0 (le_refl _) M_PI_pos.le, ?_⟩
  intro K _ _ pi hpi
  constructor
  · intro i
    obtain ⟨y, _, hy, h0, h1, _⟩ := normalizeAngleIn_spec pi hpi ((i : K) * pi / 180 + pi / 2)
    exact ⟨y, hy, h0, h1⟩
  · have hx : (90 : K) * pi / 180 + pi / 2 = pi := by ring
    obtain ⟨y, _, hy, _, _, _, _, hfix⟩ := normalizeAngleIn_spec pi hpi pi
    rw [hx, hy, hfix hpi.le (le_refl _)]

/-- Witness for C15 (amended): the example configuration on the white image, and the
rational numbers with `M_PI`. -/
theorem C15_findAngle_in_closed_range_witness :
    (∃ a c, findAngle exWhite ⟨50, 50⟩ exMe = Except.ok (a, c) ∧ 0 ≤ a ∧ a ≤ M_PI) ∧
    normalizeAngleIn M_PI ((90 : ℚ) * M_PI / 180 + M_PI / 2) = some M_PI :=
  ⟨(C15_findAngle_in_closed_range exWhite ⟨50, 50⟩ exMe (by decide)).1,
   ((C15_findAngle_in_closed_range exWhite ⟨50, 50⟩ exMe (by decide)).2 ℚ M_PI M_PI_pos).2⟩

/-! ### Orientations assigned from the Curve -/

theorem computeDelta_range (ext : Ext) (hat : ∀ y x, ext.atan2 y x ≤ M_PI) (di dj : ℚ) :
    ∃ δ, computeDelta ext di dj = some δ ∧ 0 ≤ δ ∧ δ < M_PI := by
  obtain ⟨δ, _, h, h0, h1, _⟩ := computeDeltaIn_spec M_PI ext.atan2 M_PI_pos di dj (hat di dj)
  exact ⟨δ, by rw [computeDelta_eq_In, h], h0, h1⟩

theorem sampleLoop_alpha (ext : Ext) (hat : ∀ y x, ext.atan2 y x ≤ M_PI) (I : vpImage)
    (me : vpMe) (nurbs : vpNurbs) (step : ℚ) :
    ∀ (fuel : Nat) (u : ℚ) (pt_1 : vpImagePoint) (list l1 : vpList vpMeSite),
      sampleLoop ext I me nurbs step fuel u pt_1 list = some l1 →
      list.cur = list.elems.length →
      (∀ s ∈ list.elems, alphaInRange s) → ∀ s ∈ l1.elems, alphaInRange s := by
  intro fuel
  induction fuel with
  | zero => intro u pt_1 list l1 h; simp [sampleLoop] at h
  | succ f ih =>
    intro u pt_1 list l1 h hc hin
    simp only [sampleLoop] at h
    split at h
    · obtain ⟨delta, hd, hd0, hd1⟩ := computeDelta_range ext hat
        (nurbs.computeCurveDersPoint u).2.i (nurbs.computeCurveDersPoint u).2.j
      rw [hd, Option.some_bind] at h
      split at h
      · rw [addRight_at_end list _ hc, Option.some_bind] at h
        refine ih _ _ _ _ h (by simp) ?_
        intro s hs
        simp only [List.mem_append, List.mem_singleton] at hs
        rcases hs with hs | hs
        · exact hin s hs
        · subst hs; exact ⟨hd0, hd1⟩
      · exact ih _ _ _ _ h hc hin
    · simp only [Option.some.injEq] at h
      subst h
      exact hin

theorem sample_alpha (ext : Ext) (hat : ∀ y x, ext.atan2 y x ≤ M_PI) (I : vpImage)
    (st : vpMeNurbs) (l : vpList vpMeSite) (h : sample ext I st = some l) :
    ∀ s ∈ l.elems, alphaInRange s := by
  simp only [sample] at h
  split at h
  · cases h
  · exact sampleLoop_alpha ext hat I st.me st.nurbs _ _ _ _ _ l h (by simp [vpList.kill])
      (by simp [vpList.kill, vpList.front])

theorem fillSites_alpha (ext : Ext) (hat : ∀ y x, ext.atan2 y x ≤ M_PI) (I : vpImage)
    (me : vpMe) (nurbs : vpNurbs) (iPend : vpImagePoint) (uend : ℚ) :
    ∀ (fuel : Nat) (u : ℚ) (iP iP_1 : vpImagePoint) (F : List vpMeSite),
      fillSites ext I me nurbs iPend uend fuel u iP iP_1 = some F →
      ∀ s ∈ F, ∃ c, s = ext.track I me c ∧ alphaInRange c := by
  intro fuel
  induction fuel with
  | zero => intro u iP iP_1 F h; simp [fillSites] at h
  | succ f ih =>
    intro u iP iP_1 F h
    simp only [fillSites] at h
    split at h
    · split at h
      · obtain ⟨delta, hd, hd0, hd1⟩ := computeDelta_range ext hat
          (nurbs.computeCurveDersPoint (u + 1 / 100)).2.i
          (nurbs.computeCurveDersPoint (u + 1 / 100)).2.j
        rw [hd, Option.some_bind] at h
        split at h
        · cases hF : fillSites ext I me nurbs iPend uend f (u + 1 / 100)
            (nurbs.computeCurveDersPoint (u + 1 / 100)).1
            (nurbs.computeCurveDersPoint (u + 1 / 100)).1 with
          | none => rw [hF] at h; cases h
          | some F1 =>
            rw [hF] at h
            simp only [Option.map_some', Option.some.injEq] at h
            subst h
            intro s hs
            rcases List.mem_cons.mp hs with hs | hs
            · exact ⟨_, hs, hd0, hd1⟩
            · exact ih _ _ _ F1 hF s hs
        · exact ih _ _ _ F h
      · exact ih _ _ _ F h
    · simp only [Option.some.injEq] at h
      subst h
      intro s hs
      cases hs

theorem allPairSites_alpha (ext : Ext) (hat : ∀ y x, ext.atan2 y x ≤ M_PI) (I : vpImage)
    (me : vpMe) (nurbs : vpNurbs) (n : Int) :
    ∀ (l : List vpMeSite) (Fs : List (List vpMeSite)),
      allPairSites ext I me nurbs n l = some Fs →
      ∀ F ∈ Fs, ∀ s ∈ F, ∃ c, s = ext.track I me c ∧ alphaInRange c := by
  intro l
  induction l with
  | nil => intro Fs h; simp [allPairSites] at h; subst h; intro F hF; cases hF
  | cons a t ih =>
    cases t with
    | nil => intro Fs h; simp [allPairSites] at h; subst h; intro F hF; cases hF
    | cons b rest =>
      intro Fs h
      simp only [allPairSites] at h
      cases hp : pairSites ext I me nurbs n a b with
      | none => rw [hp] at h; cases h
      | some F0 =>
        rw [hp, Option.some_bind] at h
        cases hr : allPairSites ext I me nurbs n (b :: rest) with
        | none => rw [hr] at h; cases h
        | some Fs1 =>
          rw [hr] at h
          simp only [Option.map_some', Option.some.injEq] at h
          subst h
          intro F hF
          rcases List.mem_cons.mp hF with hF | hF
          · subst hF
            simp only [pairSites] at hp
            split at hp
            · simp only [gapSites] at hp
              cases hscan : paramScanLoop nurbs ⟨a.ifloat, a.jfloat⟩ ⟨b.ifloat, b.jfloat⟩
                101 0 0 0 1000000 1000000 with
              | none => rw [hscan] at hp; cases hp
              | some r =>
                rw [hscan, Option.some_bind] at hp
                split at hp
                · exact fillSites_alpha ext hat I me nurbs _ _ _ _ _ _ F hp
                · simp only [Option.some.injEq] at hp
                  subst hp
                  intro s hs
                  cases hs
            · simp only [Option.some.injEq] at hp
              subst hp
              intro s hs
              cases hs
          · exact ih Fs1 hr F hF

theorem updateDeltaScan_some (nurbs : vpNurbs) (pt : vpImagePoint) :
    ∀ (fuel : Nat) (u d d_1 : ℚ), ⌈(1 - u) * 100⌉.toNat + 1 ≤ fuel →
      ∃ u1, updateDeltaScan nurbs pt fuel u d d_1 = some u1 := by
  intro fuel
  induction fuel with
  | zero => intro u d d_1 h; omega
  | succ f ih =>
    intro u d d_1 h
    simp only [updateDeltaScan]
    split
    · rename_i hc
      apply ih
      have h1 : (1 - (u + 1 / 100)) * 100 = (1 - u) * 100 - 1 := by ring
      have h2 : (0 : ℚ) < (1 - u) * 100 := by linarith [hc.2]
      have h3 : (0 : Int) < ⌈(1 - u) * 100⌉ := Int.ceil_pos.mpr h2
      rw [h1, Int.ceil_sub_one]
      omega
    · exact ⟨u, rfl⟩

theorem reoriented_refl : ∀ l : List vpMeSite, List.Forall₂ reoriented l l
  | [] => List.Forall₂.nil
  | _ :: l => List.Forall₂.cons (Or.inl rfl) (reoriented_refl l)

theorem updateDeltaLoop_zip (ext : Ext) (hat : ∀ y x, ext.atan2 y x ≤ M_PI)
    (nurbs : vpNurbs) :
    ∀ (post pre : List vpMeSite) (x : vpMeSite) (fuel : Nat) (u d d_1 : ℚ),
      post.length + 2 ≤ fuel →
      ∃ (l1 : vpList vpMeSite) (new : List vpMeSite),
        updateDeltaLoop ext nurbs fuel u d d_1 (vpList.zip pre x post) = some l1 ∧
        l1.elems = pre ++ new ∧ List.Forall₂ reoriented (x :: post) new := by
  intro post
  induction post with
  | nil =>
    intro pre x fuel u d d_1 hf
    obtain ⟨f, rfl⟩ : ∃ f, fuel = f + 2 := ⟨fuel - 2, by simp at hf; omega⟩
    rw [updateDeltaLoop]
    by_cases hu : u < 1
    · rw [if_pos ⟨hu, zip_outside pre x []⟩]
      obtain ⟨u1, hu1⟩ := updateDeltaScan_some nurbs
        ⟨((vpList.zip pre x []).value.i : ℚ), ((vpList.zip pre x []).value.j : ℚ)⟩ _ u d d_1
        (le_refl _)
      simp only [hu1, Option.some_bind]
      obtain ⟨δ, hδ, h0, h1⟩ := computeDelta_range ext hat
        (nurbs.computeCurveDersPoint (u1 - 1 / 100)).2.i
        (nurbs.computeCurveDersPoint (u1 - 1 / 100)).2.j
      simp only [hδ, Option.some_bind, zip_modify, zip_value]
      have hnext : (vpList.zip pre { x with alpha := δ } []).next =
          some ⟨pre ++ [{ x with alpha := δ }], pre.length + 2⟩ := by
        simp [vpList.zip, vpList.next]
      rw [hnext, Option.some_bind, updateDeltaLoop]
      have hout : (⟨pre ++ [{ x with alpha := δ }], pre.length + 2⟩ :
          vpList vpMeSite).outside = true := by
        simp [vpList.outside]
      rw [if_neg (by rw [hout]; simp)]
      exact ⟨_, [{ x with alpha := δ }], rfl, rfl,
        List.Forall₂.cons (Or.inr ⟨δ, rfl, h0, h1⟩) List.Forall₂.nil⟩
    · rw [if_neg (fun h => hu h.1)]
      exact ⟨_, [x], rfl, rfl, reoriented_refl _⟩
  | cons y post ih =>
    intro pre x fuel u d d_1 hf
    obtain ⟨f, rfl⟩ : ∃ f, fuel = f + 1 := ⟨fuel - 1, by simp at hf; omega⟩
    rw [updateDeltaLoop]
    by_cases hu : u < 1
    · rw [if_pos ⟨hu, zip_outside pre x (y :: post)⟩]
      obtain ⟨u1, hu1⟩ := updateDeltaScan_some nurbs
        ⟨((vpList.zip pre x (y :: post)).value.i : ℚ),
          ((vpList.zip pre x (y :: post)).value.j : ℚ)⟩ _ u d d_1 (le_refl _)
      simp only [hu1, Option.some_bind]
      obtain ⟨δ, hδ, h0, h1⟩ := computeDelta_range ext hat
        (nurbs.computeCurveDersPoint (u1 - 1 / 100)).2.i
        (nurbs.computeCurveDersPoint (u1 - 1 / 100)).2.j
      simp only [hδ, Option.some_bind, zip_modify, zip_value, zip_next]
      obtain ⟨l1, new, hl1, he, hall⟩ := ih (pre ++ [{ x with alpha := δ }]) y f
        (u1 - 1 / 100) 1000000000000 2250000000000 (by simp at hf ⊢; omega)
      refine ⟨l1, { x with alpha := δ } :: new, hl1, ?_, ?_⟩
      · rw [he]; simp
      · exact List.Forall₂.cons (Or.inr ⟨δ, rfl, h0, h1⟩) hall
    · rw [if_neg (fun h => hu h.1)]
      exact ⟨_, x :: y :: post, rfl, rfl, reoriented_refl _⟩

theorem updateDelta_spec (ext : Ext) (hat : ∀ y x, ext.atan2 y x ≤ M_PI) (st : vpMeNurbs) :
    ∃ l1, updateDelta ext st = some l1 ∧ List.Forall₂ reoriented st.list.elems l1.elems := by
  cases hl : st.list.elems with
  | nil =>
    refine ⟨st.list.front, ?_, ?_⟩
    · simp only [updateDelta, hl, List.length_nil, updateDeltaLoop]
      rw [if_neg]
      simp [vpList.outside, vpList.front, hl]
    · simp [vpList.front, hl]
  | cons x post =>
    have hz : st.list.front = vpList.zip [] x post := by
      simp [vpList.front, vpList.zip, hl]
    obtain ⟨l1, new, h1, he, hall⟩ := updateDeltaLoop_zip ext hat st.nurbs post [] x
      (post.length + 2) 0 1000000000000 1000000000000 (le_refl _)
    refine ⟨l1, ?_, ?_⟩
    · simp only [updateDelta, hl, hz, List.length_cons]
      exact h1
    · rw [he]; exact hall

/-- C14: in every ordered field `K` (the real numbers among them), for a positive `pi`
and an `atan2` whose values are at most `pi`, `computeDelta` returns for every pair an
angle `δ` with `0 ≤ δ < pi` that differs from `atan2(Δrow, Δcol) - pi/2` by an integer
multiple of `pi`; the embedded `computeDelta` is this function for `M_PI`. Hence every
Site of the Sampler has its orientation in `[0, M_PI)`, every Site the Local Resampler
inserts is the tracked image of a candidate with orientation in `[0, M_PI)`, and the
Orientation Updater returns and leaves every Site as it was or gives it an orientation
in `[0, M_PI)`. -/
theorem C14_computeDelta_in_half_open_range {K : Type} [LinearOrderedField K] [FloorRing K]
    (pi : K) (atan2 : K → K → K) (hpi : 0 < pi) (hat : ∀ y x, atan2 y x ≤ pi)
    (ext : Ext) (hext : ∀ y x, ext.atan2 y x ≤ M_PI) (I : vpImage) (st : vpMeNurbs)
    (hne : st.list.elems ≠ []) :
    (∀ di dj : K, ∃ (δ : K) (k : Int), computeDeltaIn pi atan2 di dj = some δ ∧
      0 ≤ δ ∧ δ < pi ∧ δ = atan2 di dj - pi / 2 + k * pi) ∧
    (∀ di dj : ℚ, computeDelta ext di dj = computeDeltaIn M_PI ext.atan2 di dj) ∧
    (0 ≤ st.me.points_to_track →
      ∃ l, sample ext I st = some l ∧ ∀ s ∈ l.elems, alphaInRange s) ∧
    (∃ (st1 : vpMeNurbs) (Fs : List (List vpMeSite)),
      localReSample ext I st = some st1 ∧ st1.list.elems = weave st.list.elems Fs ∧
      ∀ F ∈ Fs, ∀ s ∈ F, ∃ c, s = ext.track I { st.me with range := 2 } c ∧
        alphaInRange c) ∧
    (∃ l1, updateDelta ext st = some l1 ∧
      List.Forall₂ reoriented st.list.elems l1.elems) := by
  refine ⟨fun di dj => computeDeltaIn_spec pi atan2 hpi di dj (hat di dj),
    computeDelta_eq_In ext, ?_, ?_, updateDelta_spec ext hext st⟩
  · intro hp
    obtain ⟨l, hl⟩ := sample_some ext I st hp
    exact ⟨l, hl, sample_alpha ext hext I st l hl⟩
  · obtain ⟨st1, Fs, h1, h2, h3, _⟩ := localReSample_eq ext I st hne
    exact ⟨st1, Fs, h1, h3, allPairSites_alpha ext hext I _ st.nurbs _ _ Fs h2⟩

/-- Witness for C14: the real numbers with the number π and the argument of `x + iy` for
`atan2(y, x)`, and the example tracker on the example line with two Sites. -/
theorem C14_computeDelta_in_half_open_range_witness :
    (∀ di dj : ℝ, ∃ (δ : ℝ) (k : Int),
      computeDeltaIn Real.pi (fun y x => Complex.arg ⟨x, y⟩) di dj = some δ ∧
      0 ≤ δ ∧ δ < Real.pi ∧ δ = Complex.arg ⟨dj, di⟩ - Real.pi / 2 + k * Real.pi) ∧
    (∃ l1, updateDelta exExt (exState [exSite 50 100, exSite 50 900] (exLine 100 800) 800 0 0)
        = some l1 ∧
      List.Forall₂ reoriented [exSite 50 100, exSite 50 900] l1.elems) :=
  have h := C14_computeDelta_in_half_open_range Real.pi (fun y x => Complex.arg ⟨x, y⟩)
    Real.pi_pos (fun _ _ => Complex.arg_le_pi _) exExt (fun _ _ => M_PI_pos.le) exImage
    (exState [exSite 50 100, exSite 50 900] (exLine 100 800) 800 0 0) (by decide)
  ⟨h.1, h.2.2.2.2⟩


/-! ### Chain-code trace on pixels -/

theorem traceLoop_eq_End (Isub : vpImage) (fb : vpImagePoint) (fd : Nat) :
    ∀ (fuel : Nat) (border : vpImagePoint) (dir : Nat) (dB : vpImagePoint)
      (acc : List vpImagePoint),
      traceLoop Isub fb fd fuel border dir dB acc =
        (traceLoopEnd Isub fb fd fuel border dir dB acc).map fun r => r.1 := by
  intro fuel
  induction fuel with
  | zero => intro border dir dB acc; rfl
  | succ f ih =>
    intro border dir dB acc
    rw [traceLoop, traceLoopEnd]
    simp only [ih]
    split <;> rfl

theorem traceContour_eq (Isub : vpImage) (fb : vpImagePoint) (h : fb ≠ ⟨-1, -1⟩) :
    traceContour Isub fb = (traceStart Isub fb).bind fun dir =>
      orDiverges (traceLoop Isub fb (computeFreemanChainElement Isub fb dir).2
        (8 * Isub.rows * Isub.cols + 2) fb (computeFreemanChainElement Isub fb dir).2
        default [fb]) := by
  rw [traceContour, if_pos h]
  rfl

theorem vpMathRound_intCast (a : Int) : vpMathRound (a : ℚ) = a := by
  unfold vpMathRound
  split
  · rw [Int.floor_eq_iff]
    constructor <;> norm_num
  · rw [Int.ceil_eq_iff]
    constructor <;> norm_num

theorem forceNat_eq {α : Type} (n : Nat) (k : Nat → α) : forceNat n k = k n := by
  cases n <;> rfl

theorem inImagePixel_iff (rows cols a b : Nat) :
    inImagePixel rows cols a b = true ↔ 1 ≤ a ∧ a ≤ rows ∧ 1 ≤ b ∧ b ≤ cols := by
  simp only [inImagePixel, Bool.and_eq_true, Nat.ble_eq]

theorem isInImage_ofPixel (I : vpImage) (a b : Nat) :
    isInImage I (ofPixel (a, b)) = inImagePixel I.rows I.cols a b := by
  rw [Bool.eq_iff_iff, inImagePixel_iff]
  simp only [isInImage, ofPixel, Bool.and_eq_true, decide_eq_true_eq, ge_iff_le, sub_nonneg]
  have h1 : ((1 : ℚ) ≤ (a : ℚ)) ↔ 1 ≤ a := by exact_mod_cast Iff.rfl
  have h2 : ((1 : ℚ) ≤ (b : ℚ)) ↔ 1 ≤ b := by exact_mod_cast Iff.rfl
  have h3 : ((a : ℚ) - 1 < (I.rows : ℚ)) ↔ a ≤ I.rows := by
    rw [sub_lt_iff_lt_add]
    have : ((a : ℚ) < (I.rows : ℚ) + 1) ↔ a < I.rows + 1 := by exact_mod_cast Iff.rfl
    rw [this]; omega
  have h4 : ((b : ℚ) - 1 < (I.cols : ℚ)) ↔ b ≤ I.cols := by
    rw [sub_lt_iff_lt_add]
    have : ((b : ℚ) < (I.cols : ℚ) + 1) ↔ b < I.cols + 1 := by exact_mod_cast Iff.rfl
    rw [this]; omega
  rw [h1, h2, h3, h4]
  tauto

theorem vpMathRound_pred (a : Nat) (ha : 1 ≤ a) :
    (vpMathRound ((a : ℚ) - 1)).toNat = Nat.pred a := by
  have h : ((a : ℚ) - 1) = (((a : Int) - 1 : Int) : ℚ) := by push_cast; ring
  rw [h, vpMathRound_intCast]
  cases a with
  | zero => omega
  | succ n => simp

theorem hasGoodLevel_ofPixel (I : vpImage) (a b : Nat) :
    hasGoodLevel I (ofPixel (a, b)) = goodPixel I.rows I.cols (foreground I) a b := by
  simp only [hasGoodLevel, goodPixel, isInImage_ofPixel, foreground]
  cases h : inImagePixel I.rows I.cols a b with
  | false => rfl
  | true =>
    obtain ⟨ha, _, hb, _⟩ := (inImagePixel_iff _ _ _ _).mp h
    simp only [ofPixel, vpMathRound_pred a ha, vpMathRound_pred b hb, Bool.not_true,
      Bool.false_eq_true, if_false, Bool.true_and]
    by_cases hp : I.pix (Nat.pred a) (Nat.pred b) > 0 <;> simp [hp]

theorem add_freeman (a b d : Nat) (ha : 1 ≤ a) (hb : 1 ≤ b) (hd : d < 8)
    (diP : vpImagePoint) :
    (ofPixel (a, b)).add (computeFreemanParameters d diP) =
      ofPixel (Nat.pred (Nat.add a (freemanRow d)), Nat.pred (Nat.add b (freemanCol d))) := by
  obtain ⟨a, rfl⟩ : ∃ n, a = n + 1 := ⟨a - 1, by omega⟩
  obtain ⟨b, rfl⟩ : ∃ n, b = n + 1 := ⟨b - 1, by omega⟩
  interval_cases d <;>
    simp [computeFreemanParameters, freemanRow, freemanCol, ofPixel, vpImagePoint.add] <;>
    ring_nf <;> simp

theorem goodPixel_pos {rows cols : Nat} {fg : Nat → Nat → Bool} {a b : Nat}
    (h : goodPixel rows cols fg a b = true) : 1 ≤ a ∧ 1 ≤ b := by
  simp only [goodPixel, Bool.and_eq_true] at h
  obtain ⟨ha, _, hb, _⟩ := (inImagePixel_iff _ _ _ _).mp h.1
  exact ⟨ha, hb⟩

theorem nat_mod_eq (x y : Nat) : Nat.mod x y = x % y := rfl

theorem nat_beq_decide (a b : Nat) : Nat.beq a b = decide (a = b) := by
  by_cases h : a = b
  · subst h; simp [Nat.beq_refl]
  · have hf : Nat.beq a b = false := by
      cases hb : Nat.beq a b with
      | false => rfl
      | true => exact absurd (Nat.eq_of_beq_eq_true hb) h
    simp [hf, h]

theorem chain_ofPixel (I : vpImage) (a b e : Nat) (he : e < 8) :
    (computeFreemanChainElement I (ofPixel (a, b)) e).2 =
      chainPixel (goodPixel I.rows I.cols (foreground I)) a b e := by
  unfold computeFreemanChainElement chainPixel
  rw [hasGoodLevel_ofPixel]
  cases hg : goodPixel I.rows I.cols (foreground I) a b with
  | false => rfl
  | true =>
    obtain ⟨ha, hb⟩ := goodPixel_pos hg
    simp only [add_freeman a b _ ha hb (Nat.mod_lt _ (by decide : 8 > 0)),
      add_freeman a b e ha hb he, hasGoodLevel_ofPixel, if_true, cond_true, probePixel,
      Bool.cond_eq_ite, apply_ite Prod.snd, nat_mod_eq, Nat.add_eq]

theorem chainPixel_lt (good : Nat → Nat → Bool) (a b e : Nat) (he : e < 8) :
    chainPixel good a b e < 8 := by
  unfold chainPixel
  simp only [Bool.cond_eq_ite]
  repeat' split
  all_goals first
    | exact he
    | exact Nat.mod_lt _ (by decide)

theorem ofPixel_inj {p q : Nat × Nat} : ofPixel p = ofPixel q ↔ p = q := by
  constructor
  · intro h
    simp only [ofPixel, vpImagePoint.mk.injEq, sub_left_inj, Nat.cast_inj] at h
    exact Prod.ext h.1 h.2
  · intro h; rw [h]

theorem tracePixel_succ (rows cols : Nat) (good : Nat → Nat → Bool) (fa fb fd fuel a b d : Nat) :
    tracePixel rows cols good fa fb fd (fuel + 1) a b d =
      if goesOn rows cols fa fb fd (turnPixel good (a, b, d)).1 (turnPixel good (a, b, d)).2.1
          (turnPixel good (a, b, d)).2.2 = true then
        (tracePixel rows cols good fa fb fd fuel (turnPixel good (a, b, d)).1
          (turnPixel good (a, b, d)).2.1 (turnPixel good (a, b, d)).2.2).map
          fun r => (((turnPixel good (a, b, d)).1, (turnPixel good (a, b, d)).2.1) :: r.1, r.2)
      else some ([((turnPixel good (a, b, d)).1, (turnPixel good (a, b, d)).2.1)],
        turnPixel good (a, b, d)) := by
  rw [tracePixel]
  simp only [forceNat_eq, Bool.cond_eq_ite, turnPixel]

theorem goesOn_iff (rows cols fa fb fd a b d : Nat) :
    goesOn rows cols fa fb fd a b d = true ↔
      (((a, b) ≠ (fa, fb) ∨ d ≠ fd) ∧ inImagePixel rows cols a b = true) := by
  simp only [goesOn, nat_beq_decide, Bool.and_eq_true, Bool.or_eq_true, Bool.not_eq_true',
    decide_eq_false_iff_not, Bool.and_eq_false_iff, ne_eq, Prod.mk.injEq, not_and_or]

theorem traceLoopEnd_ofPixel (I : vpImage) (fa fb fd : Nat) :
    ∀ (fuel a b d : Nat) (dB : vpImagePoint) (acc : List vpImagePoint),
      1 ≤ a → 1 ≤ b → d < 8 →
      traceLoopEnd I (ofPixel (fa, fb)) fd fuel (ofPixel (a, b)) d dB acc =
        (tracePixel I.rows I.cols (goodPixel I.rows I.cols (foreground I)) fa fb fd
          fuel a b d).map
          fun r => (acc ++ r.1.map ofPixel, ofPixel (r.2.1, r.2.2.1), r.2.2.2) := by
  intro fuel
  induction fuel with
  | zero => intro a b d dB acc _ _ _; rfl
  | succ f ih =>
    intro a b d dB acc ha hb hd
    rw [traceLoopEnd, tracePixel_succ]
    simp only [add_freeman a b d ha hb hd, chain_ofPixel I _ _ d hd, isInImage_ofPixel,
      ne_eq, ofPixel_inj, goesOn_iff, turnPixel]
    split
    · rename_i hc
      obtain ⟨ha1, _, hb1, _⟩ := (inImagePixel_iff _ _ _ _).mp hc.2
      rw [ih _ _ _ _ _ ha1 hb1 (chainPixel_lt _ _ _ _ hd)]
      cases tracePixel I.rows I.cols (goodPixel I.rows I.cols (foreground I)) fa fb fd f
        (Nat.pred (Nat.add a (freemanRow d))) (Nat.pred (Nat.add b (freemanCol d)))
        (chainPixel (goodPixel I.rows I.cols (foreground I))
          (Nat.pred (Nat.add a (freemanRow d))) (Nat.pred (Nat.add b (freemanCol d))) d) with
      | none => rfl
      | some r => simp
    · simp

theorem sq_dist_cast (a : Nat) :
    ((a : ℚ) - 1 - 15) * ((a : ℚ) - 1 - 15) =
      ((Nat.add (Nat.pow (Nat.sub a 16) 2) (Nat.pow (Nat.sub 16 a) 2) : Nat) : ℚ) := by
  simp only [Nat.add_eq, Nat.pow_eq, Nat.sub_eq]
  rcases le_total a 16 with h | h
  · rw [Nat.sub_eq_zero_of_le h]
    push_cast [Nat.cast_sub h]
    ring
  · rw [Nat.sub_eq_zero_of_le h]
    push_cast [Nat.cast_sub h]
    ring

theorem findCenterPoint_ofPixel : ∀ l : List (Nat × Nat),
    findCenterPoint (l.map ofPixel) = centrePixel l
  | [] => rfl
  | p :: rest => by
    rw [List.map_cons, findCenterPoint, centrePixel, findCenterPoint_ofPixel rest]
    simp only [vpImagePoint.sqrDistance, ofPixel, sq_dist_cast, Bool.cond_eq_ite]
    have h : (((Nat.add (Nat.pow (Nat.sub p.1 16) 2) (Nat.pow (Nat.sub 16 p.1) 2) : Nat) : ℚ) +
        ((Nat.add (Nat.pow (Nat.sub p.2 16) 2) (Nat.pow (Nat.sub 16 p.2) 2) : Nat) : ℚ) ≤ 16) ↔
        (Nat.ble (Nat.add (Nat.add (Nat.pow (Nat.sub p.1 16) 2) (Nat.pow (Nat.sub 16 p.1) 2))
          (Nat.add (Nat.pow (Nat.sub p.2 16) 2) (Nat.pow (Nat.sub 16 p.2) 2))) 16 = true) := by
      rw [Nat.ble_eq]
      simp only [Nat.add_eq]
      exact_mod_cast Iff.rfl
    by_cases hc : Nat.ble (Nat.add (Nat.add (Nat.pow (Nat.sub p.1 16) 2)
        (Nat.pow (Nat.sub 16 p.1) 2))
        (Nat.add (Nat.pow (Nat.sub p.2 16) 2) (Nat.pow (Nat.sub 16 p.2) 2))) 16 = true
    · rw [if_pos (h.mpr hc), if_pos hc]
    · rw [if_neg (fun hq => hc (h.mp hq)), if_neg hc]

theorem startPixel_lt {rows cols a b d : Nat} (h : startPixel rows cols a b = some d) :
    d < 8 := by
  simp only [startPixel, Bool.cond_eq_ite] at h
  repeat' split at h
  all_goals (cases h <;> omega)

theorem traceStart_ofPixel (I : vpImage) (a b d : Nat)
    (h : startPixel I.rows I.cols a b = some d) :
    traceStart I (ofPixel (a, b)) = Except.ok d := by
  have h1 : ((a : ℚ) - 1 = 0) ↔ a = 1 := by
    rw [sub_eq_zero]; exact_mod_cast Iff.rfl
  have h2 : ((b : ℚ) - 1 = 0) ↔ b = 1 := by
    rw [sub_eq_zero]; exact_mod_cast Iff.rfl
  have h3 : ((a : ℚ) - 1 = (((I.rows : Int) - 1 : Int) : ℚ)) ↔ a = I.rows := by
    push_cast
    rw [sub_left_inj]; exact_mod_cast Iff.rfl
  have h4 : ((b : ℚ) - 1 = (((I.cols : Int) - 1 : Int) : ℚ)) ↔ b = I.cols := by
    push_cast
    rw [sub_left_inj]; exact_mod_cast Iff.rfl
  simp only [startPixel, Bool.cond_eq_ite, nat_beq_decide, decide_eq_true_eq] at h
  simp only [traceStart, ofPixel, h1, h2, h3, h4]
  repeat' split at h
  all_goals (cases h <;> simp_all)

theorem allLines_check : allLines.all lineCheckAll = true := by decide!

theorem goodPixel_congr (rows cols : Nat) (fg1 fg2 : Nat → Nat → Bool)
    (h : ∀ i j, i < rows → j < cols → fg1 i j = fg2 i j) :
    goodPixel rows cols fg1 = goodPixel rows cols fg2 := by
  funext a b
  simp only [goodPixel]
  cases hin : inImagePixel rows cols a b with
  | false => rfl
  | true =>
    obtain ⟨ha, ha2, hb, hb2⟩ := (inImagePixel_iff _ _ _ _).mp hin
    rw [h (Nat.pred a) (Nat.pred b) (by rw [Nat.pred_eq_sub_one]; omega)
      (by rw [Nat.pred_eq_sub_one]; omega)]

theorem ofPixel_succ (i j : Nat) : ofPixel (i + 1, j + 1) = ⟨(i : ℚ), (j : ℚ)⟩ := by
  simp [ofPixel]

theorem mem_borderPixels (i j : Nat) (hi : i < 32) (hj : j < 32)
    (hb : i = 0 ∨ i = 31 ∨ j = 0 ∨ j = 31) : (i + 1, j + 1) ∈ borderPixels := by
  simp only [borderPixels, List.mem_append, List.mem_map, List.mem_range, Prod.mk.injEq]
  rcases hb with h | h | h | h
  · exact Or.inl (Or.inl (Or.inl ⟨j, hj, by omega, rfl⟩))
  · exact Or.inl (Or.inl (Or.inr ⟨j, hj, by omega, rfl⟩))
  · exact Or.inl (Or.inr ⟨i, hi, rfl, by omega⟩)
  · exact Or.inr ⟨i, hi, rfl, by omega⟩

/-- The trace on a window whose foreground is a line, from a border pixel of the
line. -/
theorem line_trace (Isub : vpImage) (L : Line) (i j : Nat)
    (hrows : Isub.rows = 32) (hcols : Isub.cols = 32) (hL : L ∈ allLines)
    (hfg : ∀ a b, a < 32 → b < 32 → (Isub.pix a b > 0 ↔ L.on a b = true))
    (hi : i < 32) (hj : j < 32) (hon : L.on i j = true)
    (hborder : i = 0 ∨ i = 31 ∨ j = 0 ∨ j = 31) :
    ∃ (dir0 : Nat) (pts : List vpImagePoint),
      traceStart Isub ⟨(i : ℚ), (j : ℚ)⟩ = Except.ok dir0 ∧
      traceLoopEnd Isub ⟨(i : ℚ), (j : ℚ)⟩
          (computeFreemanChainElement Isub ⟨(i : ℚ), (j : ℚ)⟩ dir0).2
          (8 * Isub.rows * Isub.cols + 2) ⟨(i : ℚ), (j : ℚ)⟩
          (computeFreemanChainElement Isub ⟨(i : ℚ), (j : ℚ)⟩ dir0).2 default
          [⟨(i : ℚ), (j : ℚ)⟩] =
        some (pts, ⟨(i : ℚ), (j : ℚ)⟩,
          (computeFreemanChainElement Isub ⟨(i : ℚ), (j : ℚ)⟩ dir0).2) ∧
      traceContour Isub ⟨(i : ℚ), (j : ℚ)⟩ = Except.ok pts ∧
      findCenterPoint pts = L.nearCentre := by
  have hcheck : lineCheck L (i + 1, j + 1) = true := by
    have h1 := List.all_eq_true.mp allLines_check L hL
    have h2 := List.all_eq_true.mp h1 (i + 1, j + 1) (mem_borderPixels i j hi hj hborder)
    simpa [hon] using h2
  have hgood : goodPixel Isub.rows Isub.cols (foreground Isub) = goodPixel 32 32 L.on := by
    rw [hrows, hcols]
    apply goodPixel_congr
    intro a b ha hb
    rw [Bool.eq_iff_iff]
    simpa [foreground] using hfg a b ha hb
  simp only [lineCheck] at hcheck
  cases hstart : startPixel 32 32 (i + 1) (j + 1) with
  | none => rw [hstart] at hcheck; cases hcheck
  | some d0 =>
    rw [hstart] at hcheck
    simp only [lineTrace, forceNat_eq] at hcheck
    cases htr : tracePixel 32 32 (goodPixel 32 32 L.on) (i + 1) (j + 1)
        (chainPixel (goodPixel 32 32 L.on) (i + 1) (j + 1) d0) 8194 (i + 1) (j + 1)
        (chainPixel (goodPixel 32 32 L.on) (i + 1) (j + 1) d0) with
    | none => rw [htr] at hcheck; cases hcheck
    | some r =>
      rw [htr] at hcheck
      simp only [Option.map_some', Bool.and_eq_true, nat_beq_decide, decide_eq_true_eq,
        beq_iff_eq] at hcheck
      obtain ⟨⟨ha, hb⟩, hd, hcen⟩ := hcheck
      have hd0 : d0 < 8 := startPixel_lt hstart
      have hfd : (computeFreemanChainElement Isub ⟨(i : ℚ), (j : ℚ)⟩ d0).2 =
          chainPixel (goodPixel 32 32 L.on) (i + 1) (j + 1) d0 := by
        rw [← ofPixel_succ, chain_ofPixel Isub _ _ d0 hd0, hgood]
      have hend := traceLoopEnd_ofPixel Isub (i + 1) (j + 1)
        (chainPixel (goodPixel 32 32 L.on) (i + 1) (j + 1) d0) 8194 (i + 1) (j + 1)
        (chainPixel (goodPixel 32 32 L.on) (i + 1) (j + 1) d0) default
        [⟨(i : ℚ), (j : ℚ)⟩] (by omega) (by omega) (chainPixel_lt _ _ _ _ hd0)
      rw [hgood, hrows, hcols, htr, ofPixel_succ] at hend
      simp only [Option.map_some', ha, hb, hd, ofPixel_succ] at hend
      have hfuel : 8 * Isub.rows * Isub.cols + 2 = 8194 := by rw [hrows, hcols]
      refine ⟨d0, ⟨(i : ℚ), (j : ℚ)⟩ :: r.1.map ofPixel, ?_, ?_, ?_, ?_⟩
      · rw [← ofPixel_succ]
        exact traceStart_ofPixel Isub (i + 1) (j + 1) d0 (by rw [hrows, hcols]; exact hstart)
      · rw [hfd, hfuel, hend]
        rfl
      · rw [traceContour_eq Isub _ (by
          intro hc
          simp only [vpImagePoint.mk.injEq] at hc
          have : (0 : ℚ) ≤ (i : ℚ) := Nat.cast_nonneg i
          linarith [hc.1])]
        have hst : traceStart Isub ⟨(i : ℚ), (j : ℚ)⟩ = Except.ok d0 := by
          rw [← ofPixel_succ]
          exact traceStart_ofPixel Isub (i + 1) (j + 1) d0 (by rw [hrows, hcols]; exact hstart)
        rw [hst]
        show orDiverges _ = _
        rw [traceLoop_eq_End, hfd, hfuel, hend]
        rfl
      · have := findCenterPoint_ofPixel ((i + 1, j + 1) :: r.1)
        rw [List.map_cons, ofPixel_succ] at this
        rw [this, hcen]

/-- C11: in a 32×32 window whose foreground is exactly one line `L` (a full row, a full
column or a full diagonal), from a seed `(i, j)` that is a border pixel of the line, the
trace loop ends (within the fuel of `traceContour`) with the position equal to the seed
and the direction equal to the first traced direction, `traceContour` returns the traced
list, and `findCenterPoint` is true for it exactly when the line has a pixel within
squared distance 16 of (15, 15): for the rows and columns 11 to 19 and for the two
diagonals, hence for every line through the centre of the window. -/
theorem C11_line_trace_closes (Isub : vpImage) (L : Line) (i j : Nat)
    (hrows : Isub.rows = 32) (hcols : Isub.cols = 32) (hL : L ∈ allLines)
    (hfg : ∀ a b, a < 32 → b < 32 → (Isub.pix a b > 0 ↔ L.on a b = true))
    (hi : i < 32) (hj : j < 32) (hon : L.on i j = true)
    (hborder : i = 0 ∨ i = 31 ∨ j = 0 ∨ j = 31) :
    ∃ (dir0 : Nat) (pts : List vpImagePoint),
      traceStart Isub ⟨(i : ℚ), (j : ℚ)⟩ = Except.ok dir0 ∧
      traceLoopEnd Isub ⟨(i : ℚ), (j : ℚ)⟩
          (computeFreemanChainElement Isub ⟨(i : ℚ), (j : ℚ)⟩ dir0).2
          (8 * Isub.rows * Isub.cols + 2) ⟨(i : ℚ), (j : ℚ)⟩
          (computeFreemanChainElement Isub ⟨(i : ℚ), (j : ℚ)⟩ dir0).2 default
          [⟨(i : ℚ), (j : ℚ)⟩] =
        some (pts, ⟨(i : ℚ), (j : ℚ)⟩,
          (computeFreemanChainElement Isub ⟨(i : ℚ), (j : ℚ)⟩ dir0).2) ∧
      traceContour Isub ⟨(i : ℚ), (j : ℚ)⟩ = Except.ok pts ∧
      findCenterPoint pts = L.nearCentre :=
  line_trace Isub L i j hrows hcols hL hfg hi hj hon hborder

/-- Witness for C11: the window whose foreground is the row 15, traced from its left
end; the row passes by the centre. -/
theorem C11_line_trace_closes_witness :
    ∃ (dir0 : Nat) (pts : List vpImagePoint),
      traceStart exRowWindow ⟨((15 : Nat) : ℚ), ((0 : Nat) : ℚ)⟩ = Except.ok dir0 ∧
      traceLoopEnd exRowWindow ⟨((15 : Nat) : ℚ), ((0 : Nat) : ℚ)⟩
          (computeFreemanChainElement exRowWindow ⟨((15 : Nat) : ℚ), ((0 : Nat) : ℚ)⟩ dir0).2
          (8 * exRowWindow.rows * exRowWindow.cols + 2) ⟨((15 : Nat) : ℚ), ((0 : Nat) : ℚ)⟩
          (computeFreemanChainElement exRowWindow ⟨((15 : Nat) : ℚ), ((0 : Nat) : ℚ)⟩ dir0).2
          default [⟨((15 : Nat) : ℚ), ((0 : Nat) : ℚ)⟩] =
        some (pts, ⟨((15 : Nat) : ℚ), ((0 : Nat) : ℚ)⟩,
          (computeFreemanChainElement exRowWindow
            ⟨((15 : Nat) : ℚ), ((0 : Nat) : ℚ)⟩ dir0).2) ∧
      traceContour exRowWindow ⟨((15 : Nat) : ℚ), ((0 : Nat) : ℚ)⟩ = Except.ok pts ∧
      findCenterPoint pts = true :=
  C11_line_trace_closes exRowWindow (Line.row 15) 15 0 rfl rfl (by decide)
    (fun a b _ _ => by
      by_cases h : a = 15 <;> simp [exRowWindow, Line.on, nat_beq_decide, h])
    (by decide) (by decide) (by decide) (Or.inr (Or.inr (Or.inl rfl)))

theorem ofPixel_ne_none (a b : Nat) (ha : 1 ≤ a) : ofPixel (a, b) ≠ ⟨-1, -1⟩ := by
  intro hc
  simp only [ofPixel, vpImagePoint.mk.injEq] at hc
  have : (1 : ℚ) ≤ (a : ℚ) := by exact_mod_cast ha
  linarith [hc.1]

/-- The trace of `traceContour` from a pixel seed, on pixels. -/
theorem traceContour_ofPixel (I : vpImage) (fg : Nat → Nat → Bool)
    (hfg : ∀ i j, i < I.rows → j < I.cols → foreground I i j = fg i j)
    (a b d0 : Nat) (ha : 1 ≤ a) (hb : 1 ≤ b)
    (hstart : startPixel I.rows I.cols a b = some d0) :
    traceContour I (ofPixel (a, b)) =
      orDiverges ((tracePixel I.rows I.cols (goodPixel I.rows I.cols fg) a b
        (chainPixel (goodPixel I.rows I.cols fg) a b d0) (8 * I.rows * I.cols + 2) a b
        (chainPixel (goodPixel I.rows I.cols fg) a b d0)).map
        fun r => ofPixel (a, b) :: r.1.map ofPixel) := by
  have hd0 : d0 < 8 := startPixel_lt hstart
  have hgood := goodPixel_congr I.rows I.cols (foreground I) fg hfg
  rw [traceContour_eq I _ (ofPixel_ne_none a b ha), traceStart_ofPixel I a b d0 hstart]
  show orDiverges _ = _
  rw [traceLoop_eq_End, chain_ofPixel I a b d0 hd0,
    traceLoopEnd_ofPixel I a b _ _ a b _ default [ofPixel (a, b)] ha hb
      (chainPixel_lt _ _ _ _ hd0), hgood]
  cases tracePixel I.rows I.cols (goodPixel I.rows I.cols fg) a b
    (chainPixel (goodPixel I.rows I.cols fg) a b d0) (8 * I.rows * I.cols + 2) a b
    (chainPixel (goodPixel I.rows I.cols fg) a b d0) with
  | none => rfl
  | some r => rfl

theorem exComb_fg : ∀ i j, i < exComb.rows → j < exComb.cols →
    foreground exComb i j = combFg i j := by
  intro i j _ _
  rw [Bool.eq_iff_iff]
  simp only [foreground, exComb, combFg, nat_beq_decide, nat_mod_eq, decide_eq_true_eq,
    Bool.or_eq_true]
  by_cases h : i = 31 ∨ j % 2 = 0 <;> simp [h]

theorem exComb_trace :
    (tracePixel 32 32 (goodPixel 32 32 combFg) 32 16
      (chainPixel (goodPixel 32 32 combFg) 32 16 0) 8194 32 16
      (chainPixel (goodPixel 32 32 combFg) 32 16 0)).map (fun r => r.1.length) =
      some 1023 := by
  decide!

/-- C12 (counterexample): in the 32×32 window `exComb` (the last row and the columns of
even index are foreground) the seed that `findFirstBorder` returns for the point (31, 15)
is (31, 15), and the trace from it has 1024 points, more than the 124 border pixels of a
32×32 window. -/
theorem C12_counterexample :
    findFirstBorder exComb ⟨31, 15⟩ = ⟨31, 15⟩ ∧
    (∃ pts, traceContour exComb (findFirstBorder exComb ⟨31, 15⟩) = Except.ok pts ∧
      pts.length = 1024) ∧
    2 * 32 + 2 * 30 = 124 := by
  have hseed : findFirstBorder exComb ⟨31, 15⟩ = ⟨31, 15⟩ := by decide!
  refine ⟨hseed, ?_, rfl⟩
  have hp : (⟨31, 15⟩ : vpImagePoint) = ofPixel (32, 16) := by
    simp only [ofPixel, vpImagePoint.mk.injEq]; norm_num
  have h := traceContour_ofPixel exComb combFg exComb_fg 32 16 0 (by decide) (by decide) rfl
  have ht := exComb_trace
  rw [hseed, hp, h]
  show ∃ pts, orDiverges ((tracePixel 32 32 (goodPixel 32 32 combFg) 32 16
      (chainPixel (goodPixel 32 32 combFg) 32 16 0) 8194 32 16
      (chainPixel (goodPixel 32 32 combFg) 32 16 0)).map
      fun r => ofPixel (32, 16) :: r.1.map ofPixel) = Except.ok pts ∧ pts.length = 1024
  cases htr : tracePixel 32 32 (goodPixel 32 32 combFg) 32 16
      (chainPixel (goodPixel 32 32 combFg) 32 16 0) 8194 32 16
      (chainPixel (goodPixel 32 32 combFg) 32 16 0) with
  | none => rw [htr] at ht; cases ht
  | some r =>
    rw [htr] at ht
    simp only [Option.map_some', Option.some.injEq] at ht
    exact ⟨_, rfl, by simp [ht]⟩

/-! ### Length of a trace that ends -/

/-- A run of `tracePixel` that returns made `n + 1` turns: the loop condition held after
each of the first `n` turns and failed after the last, and any fuel above `n` gives the
same result. -/
theorem tracePixel_turns (rows cols : Nat) (good : Nat → Nat → Bool) (fa fb fd : Nat) :
    ∀ (fuel a b d : Nat) (r : List (Nat × Nat) × Nat × Nat × Nat),
      tracePixel rows cols good fa fb fd fuel a b d = some r →
      ∃ n, n < fuel ∧
        (∀ k, k < n → goesOn rows cols fa fb fd ((turnPixel good)^[k + 1] (a, b, d)).1
          ((turnPixel good)^[k + 1] (a, b, d)).2.1
          ((turnPixel good)^[k + 1] (a, b, d)).2.2 = true) ∧
        goesOn rows cols fa fb fd ((turnPixel good)^[n + 1] (a, b, d)).1
          ((turnPixel good)^[n + 1] (a, b, d)).2.1
          ((turnPixel good)^[n + 1] (a, b, d)).2.2 = false ∧
        r.1.length = n + 1 ∧
        ∀ fuel1, n < fuel1 → tracePixel rows cols good fa fb fd fuel1 a b d = some r := by
  intro fuel
  induction fuel with
  | zero => intro a b d r h; cases h
  | succ f ih =>
    intro a b d r h
    rw [tracePixel_succ] at h
    split at h
    · rename_i hc
      cases hrec : tracePixel rows cols good fa fb fd f (turnPixel good (a, b, d)).1
          (turnPixel good (a, b, d)).2.1 (turnPixel good (a, b, d)).2.2 with
      | none => rw [hrec] at h; cases h
      | some r1 =>
        rw [hrec] at h
        simp only [Option.map_some', Option.some.injEq] at h
        obtain ⟨n, hn, hall, hstop, hlen, hfuel⟩ := ih _ _ _ r1 hrec
        refine ⟨n + 1, by omega, ?_, ?_, ?_, ?_⟩
        · intro k hk
          cases k with
          | zero => exact hc
          | succ k =>
            rw [Function.iterate_succ_apply]
            exact hall k (by omega)
        · rw [Function.iterate_succ_apply]
          exact hstop
        · rw [← h]; simp [hlen]
        · intro fuel1 hf1
          obtain ⟨g, rfl⟩ : ∃ g, fuel1 = g + 1 := ⟨fuel1 - 1, by omega⟩
          rw [tracePixel_succ, if_pos hc, hfuel g (by omega)]
          simp only [Option.map_some', Option.some.injEq]
          exact h
    · rename_i hc
      simp only [Option.some.injEq] at h
      refine ⟨0, by omega, fun k hk => absurd hk (by omega), ?_, ?_, ?_⟩
      · simpa using hc
      · rw [← h]; rfl
      · intro fuel1 hf1
        obtain ⟨g, rfl⟩ : ∃ g, fuel1 = g + 1 := ⟨fuel1 - 1, by omega⟩
        rw [tracePixel_succ, if_neg hc]
        simp only [Option.some.injEq]
        exact h

theorem turnPixel_dir_lt (good : Nat → Nat → Bool) (s : Nat × Nat × Nat) (h : s.2.2 < 8) :
    ∀ k, ((turnPixel good)^[k] s).2.2 < 8 := by
  intro k
  induction k with
  | zero => exact h
  | succ k ih =>
    rw [Function.iterate_succ_apply']
    exact chainPixel_lt _ _ _ _ ih

/-- Pigeonhole: a deterministic walk that stops after `n + 1` turns and stays in a finite
set for the first `n` turns makes at most as many of them as the set has elements. -/
theorem walk_le_card {S : Type} [DecidableEq S] (f : S → S) (c : S → Bool) (T : Finset S)
    (s : S) (n : Nat) (hall : ∀ k, k < n → c (f^[k + 1] s) = true)
    (hstop : c (f^[n + 1] s) = false) (hT : ∀ k, k < n → f^[k + 1] s ∈ T) :
    n ≤ T.card := by
  have hinj : Set.InjOn (fun k => f^[k + 1] s) (Finset.range n : Set Nat) := by
    intro i hi j hj hij
    simp only [Finset.coe_range, Set.mem_Iio] at hi hj
    by_contra hne
    have key : ∀ i j, i < j → j < n → f^[i + 1] s = f^[j + 1] s → False := by
      intro i j hlt hj hij
      have h1 : f^[n + 1] s = f^[(n - j) + (i + 1)] s := by
        have e1 : n + 1 = (n - j) + (j + 1) := by omega
        rw [e1, Function.iterate_add_apply, ← hij, ← Function.iterate_add_apply]
      have h2 : (n - j) + (i + 1) = (n - j + i) + 1 := by omega
      rw [h1, h2, hall (n - j + i) (by omega)] at hstop
      cases hstop
    rcases Nat.lt_or_gt_of_ne hne with h | h
    · exact key i j h hj hij
    · exact key j i h hi hij.symm
  have := Finset.card_le_card_of_injOn (fun k => f^[k + 1] s)
    (fun k hk => hT k (Finset.mem_range.mp hk)) hinj
  simpa using this

/-- A trace on pixels that ends has at most `8 · rows · cols + 1` points after the seed,
and the fuel `8 · rows · cols + 2` is enough for it. -/
theorem tracePixel_bound (rows cols : Nat) (good : Nat → Nat → Bool) (fa fb fd : Nat)
    (fuel a b d : Nat) (hd : d < 8) (r : List (Nat × Nat) × Nat × Nat × Nat)
    (h : tracePixel rows cols good fa fb fd fuel a b d = some r) :
    r.1.length ≤ 8 * rows * cols + 1 ∧
      tracePixel rows cols good fa fb fd (8 * rows * cols + 2) a b d = some r := by
  obtain ⟨n, _, hall, hstop, hlen, hfuel⟩ := tracePixel_turns rows cols good fa fb fd fuel a b d r h
  have hn : n ≤ (Finset.Icc 1 rows ×ˢ Finset.Icc 1 cols ×ˢ Finset.range 8).card := by
    apply walk_le_card (turnPixel good)
      (fun s => goesOn rows cols fa fb fd s.1 s.2.1 s.2.2) _ (a, b, d) n hall hstop
    intro k hk
    have hin := ((goesOn_iff _ _ _ _ _ _ _ _).mp (hall k hk)).2
    obtain ⟨h1, h2, h3, h4⟩ := (inImagePixel_iff _ _ _ _).mp hin
    simp only [Finset.mem_product, Finset.mem_Icc, Finset.mem_range]
    exact ⟨⟨h1, h2⟩, ⟨h3, h4⟩, turnPixel_dir_lt good (a, b, d) hd (k + 1)⟩
  have hcard : (Finset.Icc 1 rows ×ˢ Finset.Icc 1 cols ×ˢ Finset.range 8).card =
      8 * rows * cols := by
    simp only [Finset.card_product, Nat.card_Icc, Finset.card_range]
    simp only [Nat.add_sub_cancel]
    ring
  rw [hcard] at hn
  exact ⟨by omega, hfuel _ (by omega)⟩

/-! ### Seed search -/

theorem foldl_flatMap_pairs {β : Type} (f : β → Nat → Nat → β) (m : Nat) :
    ∀ (l : List Nat) (b : β),
      l.foldl (fun acc i => (List.range m).foldl (fun acc j => f acc i j) acc) b =
        (l.flatMap fun i => (List.range m).map fun j => (i, j)).foldl
          (fun acc p => f acc p.1 p.2) b := by
  intro l
  induction l with
  | nil => intro b; rfl
  | cons i rest ih =>
    intro b
    rw [List.foldl_cons, ih, List.flatMap_cons, List.foldl_append, List.foldl_map]

theorem findFirstBorder_eq_scan (Isub : vpImage) (iP : vpImagePoint) :
    findFirstBorder Isub iP =
      ((scanPositions Isub).foldl (fun acc p => findFirstBorderStep Isub iP acc p.1 p.2)
        ((1000000 : ℚ), (⟨-1, -1⟩ : vpImagePoint))).2 := by
  rw [findFirstBorder, scanPositions,
    foldl_flatMap_pairs (findFirstBorderStep Isub iP) (Isub.cols + 1)]

theorem mem_scanPositions (Isub : vpImage) (i j : Nat) :
    (i, j) ∈ scanPositions Isub ↔ i ≤ Isub.rows ∧ j ≤ Isub.cols := by
  simp only [scanPositions, List.mem_flatMap, List.mem_range, List.mem_map, Prod.mk.injEq]
  constructor
  · rintro ⟨a, ha, b, hb, rfl, rfl⟩
    exact ⟨by omega, by omega⟩
  · rintro ⟨hi, hj⟩
    exact ⟨i, by omega, j, by omega, rfl, rfl⟩

theorem findFirstBorderStep_eq (Isub : vpImage) (iP : vpImagePoint) (acc : ℚ × vpImagePoint)
    (i j : Nat) :
    findFirstBorderStep Isub iP acc i j =
      if seedCandidate Isub iP i j ∧
          vpImagePoint.sqrDistance iP ⟨(i : ℚ), (j : ℚ)⟩ < acc.1 then
        (vpImagePoint.sqrDistance iP ⟨(i : ℚ), (j : ℚ)⟩, ⟨(i : ℚ), (j : ℚ)⟩)
      else acc := by
  unfold findFirstBorderStep seedCandidate borderTest
  by_cases h1 : i = 0 ∨ (i : Int) = (Isub.rows : Int) - 1 ∨ j = 0 ∨
      (j : Int) = (Isub.cols : Int) - 1
  · by_cases h2 : Isub.pix i j > 0
    · by_cases h3 : vpImagePoint.sqrDistance iP ⟨(i : ℚ), (j : ℚ)⟩ ≤ 16 ∧
          vpImagePoint.sqrDistance iP ⟨(i : ℚ), (j : ℚ)⟩ < acc.1
      · rw [if_pos h1, if_pos h2, if_pos h3, if_pos ⟨⟨h1, h2, h3.1⟩, h3.2⟩]
      · rw [if_pos h1, if_pos h2, if_neg h3, if_neg (fun h => h3 ⟨h.1.2.2, h.2⟩)]
    · rw [if_pos h1, if_neg h2, if_neg (fun h => h2 h.1.2.1)]
  · rw [if_neg h1, if_neg (fun h => h1 h.1.1)]

/-- State of the scan of `findFirstBorder` after the positions `l`: nothing found and no
candidate among them, or the first candidate of least squared distance among them. -/
theorem scan_inv (Isub : vpImage) (iP : vpImagePoint) :
    ∀ (l done : List (Nat × Nat)) (acc : ℚ × vpImagePoint),
      ((acc = ((1000000 : ℚ), (⟨-1, -1⟩ : vpImagePoint)) ∧
          ∀ p ∈ done, ¬ seedCandidate Isub iP p.1 p.2) ∨
        (∃ q ∈ done, seedCandidate Isub iP q.1 q.2 ∧
          acc = (vpImagePoint.sqrDistance iP ⟨(q.1 : ℚ), (q.2 : ℚ)⟩,
            ⟨(q.1 : ℚ), (q.2 : ℚ)⟩) ∧
          ∀ p ∈ done, seedCandidate Isub iP p.1 p.2 →
            vpImagePoint.sqrDistance iP ⟨(q.1 : ℚ), (q.2 : ℚ)⟩ ≤
              vpImagePoint.sqrDistance iP ⟨(p.1 : ℚ), (p.2 : ℚ)⟩)) →
      ((l.foldl (fun acc p => findFirstBorderStep Isub iP acc p.1 p.2) acc =
            ((1000000 : ℚ), (⟨-1, -1⟩ : vpImagePoint)) ∧
          ∀ p ∈ done ++ l, ¬ seedCandidate Isub iP p.1 p.2) ∨
        (∃ q ∈ done ++ l, seedCandidate Isub iP q.1 q.2 ∧
          l.foldl (fun acc p => findFirstBorderStep Isub iP acc p.1 p.2) acc =
            (vpImagePoint.sqrDistance iP ⟨(q.1 : ℚ), (q.2 : ℚ)⟩,
              ⟨(q.1 : ℚ), (q.2 : ℚ)⟩) ∧
          ∀ p ∈ done ++ l, seedCandidate Isub iP p.1 p.2 →
            vpImagePoint.sqrDistance iP ⟨(q.1 : ℚ), (q.2 : ℚ)⟩ ≤
              vpImagePoint.sqrDistance iP ⟨(p.1 : ℚ), (p.2 : ℚ)⟩)) := by
  intro l
  induction l with
  | nil => intro done acc h; simpa using h
  | cons x rest ih =>
    intro done acc h
    have hstep := ih (done ++ [x]) (findFirstBorderStep Isub iP acc x.1 x.2) ?_
    · simpa [List.append_assoc] using hstep
    · rw [findFirstBorderStep_eq]
      rcases h with ⟨hacc, hnone⟩ | ⟨q, hq, hqc, hacc, hmin⟩
      · by_cases hc : seedCandidate Isub iP x.1 x.2
        · have hlt : vpImagePoint.sqrDistance iP ⟨(x.1 : ℚ), (x.2 : ℚ)⟩ < acc.1 := by
            rw [hacc]
            show _ < (1000000 : ℚ)
            linarith [hc.2.2]
          rw [if_pos ⟨hc, hlt⟩]
          right
          refine ⟨x, by simp, hc, rfl, ?_⟩
          intro p hp hpc
          rcases List.mem_append.mp hp with hp | hp
          · exact absurd hpc (hnone p hp)
          · rw [List.mem_singleton.mp hp]
        · rw [if_neg (fun h => hc h.1)]
          left
          refine ⟨hacc, ?_⟩
          intro p hp
          rcases List.mem_append.mp hp with hp | hp
          · exact hnone p hp
          · rw [List.mem_singleton.mp hp]; exact hc
      · by_cases hc : seedCandidate Isub iP x.1 x.2 ∧
            vpImagePoint.sqrDistance iP ⟨(x.1 : ℚ), (x.2 : ℚ)⟩ < acc.1
        · rw [if_pos hc]
          right
          refine ⟨x, by simp, hc.1, rfl, ?_⟩
          intro p hp hpc
          rcases List.mem_append.mp hp with hp | hp
          · have := hmin p hp hpc
            have h2 := hc.2
            rw [hacc] at h2
            exact le_of_lt (lt_of_lt_of_le h2 this)
          · rw [List.mem_singleton.mp hp]
        · rw [if_neg hc]
          right
          refine ⟨q, by simp [hq], hqc, hacc, ?_⟩
          intro p hp hpc
          rcases List.mem_append.mp hp with hp | hp
          · exact hmin p hp hpc
          · rw [List.mem_singleton.mp hp] at hpc ⊢
            have : ¬ vpImagePoint.sqrDistance iP ⟨(x.1 : ℚ), (x.2 : ℚ)⟩ < acc.1 :=
              fun h => hc ⟨hpc, h⟩
            rw [hacc] at this
            exact not_lt.mp this

/-- What `findFirstBorder` returns: `(-1, -1)` when no visited position qualifies, else a
qualifying visited position of least squared distance to `iP`. The visited positions
are those with `i ≤ rows` and `j ≤ cols`. -/
theorem findFirstBorder_spec (Isub : vpImage) (iP : vpImagePoint) :
    (findFirstBorder Isub iP = ⟨-1, -1⟩ ∧
        ∀ i j, i ≤ Isub.rows → j ≤ Isub.cols → ¬ seedCandidate Isub iP i j) ∨
      (∃ i j, i ≤ Isub.rows ∧ j ≤ Isub.cols ∧ seedCandidate Isub iP i j ∧
        findFirstBorder Isub iP = ⟨(i : ℚ), (j : ℚ)⟩ ∧
        ∀ i1 j1, i1 ≤ Isub.rows → j1 ≤ Isub.cols → seedCandidate Isub iP i1 j1 →
          vpImagePoint.sqrDistance iP ⟨(i : ℚ), (j : ℚ)⟩ ≤
            vpImagePoint.sqrDistance iP ⟨(i1 : ℚ), (j1 : ℚ)⟩) := by
  have h := scan_inv Isub iP (scanPositions Isub) [] _ (Or.inl ⟨rfl, by simp⟩)
  rw [findFirstBorder_eq_scan]
  simp only [List.nil_append] at h
  rcases h with ⟨h1, h2⟩ | ⟨q, hq, hqc, h1, h2⟩
  · left
    refine ⟨by rw [h1], ?_⟩
    intro i j hi hj
    exact h2 (i, j) ((mem_scanPositions Isub i j).mpr ⟨hi, hj⟩)
  · right
    obtain ⟨hi, hj⟩ := (mem_scanPositions Isub q.1 q.2).mp hq
    refine ⟨q.1, q.2, hi, hj, hqc, by rw [h1], ?_⟩
    intro i1 j1 hi1 hj1 hc
    exact h2 (i1, j1) ((mem_scanPositions Isub i1 j1).mpr ⟨hi1, hj1⟩) hc

theorem traceStart_lt {I : vpImage} {p : vpImagePoint} {d : Nat}
    (h : traceStart I p = Except.ok d) : d < 8 := by
  simp only [traceStart] at h
  repeat' split at h
  all_goals (cases h <;> omega)

theorem findFirstBorder_pixel (Isub : vpImage) (iP : vpImagePoint)
    (h : findFirstBorder Isub iP ≠ ⟨-1, -1⟩) :
    ∃ i j : Nat, findFirstBorder Isub iP = ofPixel (i + 1, j + 1) := by
  rcases findFirstBorder_spec Isub iP with ⟨h1, _⟩ | ⟨i, j, _, _, _, h1, _⟩
  · exact absurd h1 h
  · exact ⟨i, j, by rw [h1, ofPixel_succ]⟩

/-- Every trace from a pixel seed that ends has at most `8 · rows · cols + 2` points, and
`traceContour` returns it. -/
theorem trace_bound (Isub : vpImage) (a b dir0 fuel : Nat) (ha : 1 ≤ a) (hb : 1 ≤ b)
    (pts : List vpImagePoint)
    (hstart : traceStart Isub (ofPixel (a, b)) = Except.ok dir0)
    (h : traceLoop Isub (ofPixel (a, b))
      (computeFreemanChainElement Isub (ofPixel (a, b)) dir0).2 fuel (ofPixel (a, b))
      (computeFreemanChainElement Isub (ofPixel (a, b)) dir0).2 default [ofPixel (a, b)] =
        some pts) :
    pts.length ≤ 8 * Isub.rows * Isub.cols + 2 ∧
      traceContour Isub (ofPixel (a, b)) = Except.ok pts := by
  have hd0 : dir0 < 8 := traceStart_lt hstart
  have hfd := chain_ofPixel Isub a b dir0 hd0
  have hlt := chainPixel_lt (goodPixel Isub.rows Isub.cols (foreground Isub)) a b dir0 hd0
  rw [traceLoop_eq_End, hfd, traceLoopEnd_ofPixel Isub a b _ fuel a b _ default _ ha hb hlt]
    at h
  cases htr : tracePixel Isub.rows Isub.cols (goodPixel Isub.rows Isub.cols (foreground Isub))
      a b (chainPixel (goodPixel Isub.rows Isub.cols (foreground Isub)) a b dir0) fuel a b
      (chainPixel (goodPixel Isub.rows Isub.cols (foreground Isub)) a b dir0) with
  | none => rw [htr] at h; cases h
  | some r =>
    rw [htr] at h
    simp only [Option.map_some', Option.some.injEq] at h
    obtain ⟨hlen, hfuel⟩ := tracePixel_bound _ _ _ _ _ _ _ _ _ _ hlt r htr
    constructor
    · rw [← h]
      simp only [List.length_append, List.length_singleton, List.length_map]
      omega
    · rw [traceContour_eq Isub _ (ofPixel_ne_none a b ha), hstart]
      show orDiverges _ = _
      rw [traceLoop_eq_End, hfd,
        traceLoopEnd_ofPixel Isub a b _ _ a b _ default _ ha hb hlt, hfuel]
      simp only [Option.map_some', orDiverges]
      rw [h]

/-- C12 (amended): for every window and every seed that `findFirstBorder` returns, a
trace loop that ends (with whatever number of turns) has produced at most
`8 · rows · cols + 2` points, 8194 for a 32×32 window, and `traceContour` returns these
points. -/
theorem C12_trace_length_bound (Isub : vpImage) (iP : vpImagePoint) (dir0 fuel : Nat)
    (pts : List vpImagePoint)
    (hseed : findFirstBorder Isub iP ≠ ⟨-1, -1⟩)
    (hstart : traceStart Isub (findFirstBorder Isub iP) = Except.ok dir0)
    (h : traceLoop Isub (findFirstBorder Isub iP)
      (computeFreemanChainElement Isub (findFirstBorder Isub iP) dir0).2 fuel
      (findFirstBorder Isub iP)
      (computeFreemanChainElement Isub (findFirstBorder Isub iP) dir0).2 default
      [findFirstBorder Isub iP] = some pts) :
    pts.length ≤ 8 * Isub.rows * Isub.cols + 2 ∧
      traceContour Isub (findFirstBorder Isub iP) = Except.ok pts := by
  obtain ⟨i, j, hij⟩ := findFirstBorder_pixel Isub iP hseed
  rw [hij] at hstart h ⊢
  exact trace_bound Isub (i + 1) (j + 1) dir0 fuel (by omega) (by omega) pts hstart h

theorem exRowWindow_seed : findFirstBorder exRowWindow ⟨15, 0⟩ = ⟨((15 : Nat) : ℚ), ((0 : Nat) : ℚ)⟩ := by
  decide!

theorem exRowWindow_trace :
    ∃ (dir0 : Nat) (pts : List vpImagePoint),
      traceStart exRowWindow ⟨((15 : Nat) : ℚ), ((0 : Nat) : ℚ)⟩ = Except.ok dir0 ∧
      traceLoop exRowWindow ⟨((15 : Nat) : ℚ), ((0 : Nat) : ℚ)⟩
          (computeFreemanChainElement exRowWindow ⟨((15 : Nat) : ℚ), ((0 : Nat) : ℚ)⟩ dir0).2
          8194 ⟨((15 : Nat) : ℚ), ((0 : Nat) : ℚ)⟩
          (computeFreemanChainElement exRowWindow ⟨((15 : Nat) : ℚ), ((0 : Nat) : ℚ)⟩ dir0).2
          default [⟨((15 : Nat) : ℚ), ((0 : Nat) : ℚ)⟩] = some pts := by
  obtain ⟨dir0, pts, h1, h2, _, _⟩ := line_trace exRowWindow (Line.row 15) 15 0 rfl rfl
    (by decide)
    (fun a b _ _ => by
      by_cases h : a = 15 <;> simp [exRowWindow, Line.on, nat_beq_decide, h])
    (by decide) (by decide) (by decide) (Or.inr (Or.inr (Or.inl rfl)))
  refine ⟨dir0, pts, h1, ?_⟩
  rw [traceLoop_eq_End]
  have h3 : 8 * exRowWindow.rows * exRowWindow.cols + 2 = 8194 := rfl
  rw [h3] at h2
  rw [h2]
  rfl

/-- Witness for C12 (amended): the trace of the window whose foreground is the row 15,
from the seed found for the point (15, 0). -/
theorem C12_trace_length_bound_witness :
    ∃ pts : List vpImagePoint, pts.length ≤ 8 * exRowWindow.rows * exRowWindow.cols + 2 ∧
      traceContour exRowWindow (findFirstBorder exRowWindow ⟨15, 0⟩) = Except.ok pts := by
  obtain ⟨dir0, pts, h1, h2⟩ := exRowWindow_trace
  rw [← exRowWindow_seed] at h1 h2
  exact ⟨pts, C12_trace_length_bound exRowWindow ⟨15, 0⟩ dir0 8194 pts
    (by rw [exRowWindow_seed]; decide) h1 h2⟩

theorem exOutside_seed : findFirstBorder exOutside ⟨31, 0⟩ = ⟨32, 0⟩ := by decide!

/-- C27: at the position `(rows, 0)`, below the last row, and at the position
`(0, cols)`, right of the last column, `findFirstBorder` reads the pixel `Isub(i, j)`,
for every window; and the level read there decides the result: on a window whose pixels
are all 0, with the level 255 behind the position (32, 0), the seed returned for the
point (31, 0) is (32, 0). -/
theorem C27_findFirstBorder_reads_outside (Isub : vpImage) :
    (Isub.rows, 0) ∈ findFirstBorderReads Isub ∧
    (0, Isub.cols) ∈ findFirstBorderReads Isub ∧
    (∀ i j, i < exOutside.rows → j < exOutside.cols → exOutside.pix i j = 0) ∧
    findFirstBorder exOutside ⟨31, 0⟩ = ⟨32, 0⟩ := by
  refine ⟨?_, ?_, ?_, exOutside_seed⟩
  · simp only [findFirstBorderReads, List.mem_filter, mem_scanPositions]
    exact ⟨⟨le_refl _, Nat.zero_le _⟩, by simp⟩
  · simp only [findFirstBorderReads, List.mem_filter, mem_scanPositions]
    exact ⟨⟨Nat.zero_le _, le_refl _⟩, by simp⟩
  · intro i j hi hj
    have hi32 : i ≠ 32 := by
      have : exOutside.rows = 32 := rfl
      omega
    simp [exOutside, hi32]

theorem seedCandidate_inside (Isub : vpImage) (iP : vpImagePoint)
    (hout : ∀ i j, i ≤ Isub.rows → j ≤ Isub.cols → (i = Isub.rows ∨ j = Isub.cols) →
      borderTest Isub i j → Isub.pix i j = 0)
    (i j : Nat) (hi : i ≤ Isub.rows) (hj : j ≤ Isub.cols) (hc : seedCandidate Isub iP i j) :
    i < Isub.rows ∧ j < Isub.cols := by
  by_contra hcon
  have h0 : Isub.pix i j = 0 := hout i j hi hj (by omega) hc.1
  have := hc.2.1
  omega

/-- C23: on a window whose pixels are all 0, with the level 255 behind the position
(32, 0) below the last row, `findFirstBorder` returns (32, 0) for the point (31, 0): not
`(-1, -1)`, although no border pixel of the window is positive, and not a pixel of the
window. When the levels that are read outside the window are 0, `findFirstBorder` returns
`(-1, -1)` exactly when no border pixel of the window is positive and within squared
distance 16 of `iP`, and otherwise a border pixel of the window that is positive, within
squared distance 16 and of least squared distance among these. -/
theorem C23_findFirstBorder_nearest_border_pixel (Isub : vpImage) (iP : vpImagePoint) :
    ((∀ i j, i < exOutside.rows → j < exOutside.cols → ¬ seedCandidate exOutside ⟨31, 0⟩ i j) ∧
      findFirstBorder exOutside ⟨31, 0⟩ = ⟨32, 0⟩) ∧
    ((∀ i j, i ≤ Isub.rows → j ≤ Isub.cols → (i = Isub.rows ∨ j = Isub.cols) →
        borderTest Isub i j → Isub.pix i j = 0) →
      (findFirstBorder Isub iP = ⟨-1, -1⟩ ↔
        ∀ i j, i < Isub.rows → j < Isub.cols → ¬ seedCandidate Isub iP i j) ∧
      (findFirstBorder Isub iP ≠ ⟨-1, -1⟩ →
        ∃ i j, i < Isub.rows ∧ j < Isub.cols ∧ seedCandidate Isub iP i j ∧
          findFirstBorder Isub iP = ⟨(i : ℚ), (j : ℚ)⟩ ∧
          ∀ i1 j1, i1 < Isub.rows → j1 < Isub.cols → seedCandidate Isub iP i1 j1 →
            vpImagePoint.sqrDistance iP ⟨(i : ℚ), (j : ℚ)⟩ ≤
              vpImagePoint.sqrDistance iP ⟨(i1 : ℚ), (j1 : ℚ)⟩)) := by
  refine ⟨⟨?_, exOutside_seed⟩, ?_⟩
  · intro i j hi hj hc
    have hi32 : i ≠ 32 := by
      have : exOutside.rows = 32 := rfl
      omega
    have := hc.2.1
    simp [exOutside, hi32] at this
  · intro hout
    rcases findFirstBorder_spec Isub iP with ⟨h1, h2⟩ | ⟨i, j, hi, hj, hc, h1, h2⟩
    · refine ⟨⟨fun _ a b ha hb => h2 a b ha.le hb.le, fun _ => h1⟩, fun h => absurd h1 h⟩
    · obtain ⟨hi1, hj1⟩ := seedCandidate_inside Isub iP hout i j hi hj hc
      have hne : findFirstBorder Isub iP ≠ ⟨-1, -1⟩ := by
        rw [h1]
        intro hcon
        simp only [vpImagePoint.mk.injEq] at hcon
        have : (0 : ℚ) ≤ (i : ℚ) := Nat.cast_nonneg i
        linarith [hcon.1]
      refine ⟨⟨fun h => absurd h hne, fun h => absurd hc (h i j hi1 hj1)⟩, fun _ => ?_⟩
      exact ⟨i, j, hi1, hj1, hc, h1, fun a b ha hb hcab => h2 a b ha.le hb.le hcab⟩

/-- Witness for C23: the window whose foreground is the row 15 reads 0 outside, and the
seed for the point (15, 0) is not `(-1, -1)`. -/
theorem C23_findFirstBorder_nearest_border_pixel_witness :
    ∃ i j, i < exRowWindow.rows ∧ j < exRowWindow.cols ∧
      seedCandidate exRowWindow ⟨15, 0⟩ i j ∧
      findFirstBorder exRowWindow ⟨15, 0⟩ = ⟨(i : ℚ), (j : ℚ)⟩ ∧
      ∀ i1 j1, i1 < exRowWindow.rows → j1 < exRowWindow.cols →
        seedCandidate exRowWindow ⟨15, 0⟩ i1 j1 →
        vpImagePoint.sqrDistance ⟨15, 0⟩ ⟨(i : ℚ), (j : ℚ)⟩ ≤
          vpImagePoint.sqrDistance ⟨15, 0⟩ ⟨(i1 : ℚ), (j1 : ℚ)⟩ :=
  ((C23_findFirstBorder_nearest_border_pixel exRowWindow ⟨15, 0⟩).2
    (fun i j _ _ h hb => by
      have hr : exRowWindow.rows = 32 := rfl
      have hc : exRowWindow.cols = 32 := rfl
      have h15 : i ≠ 15 := by
        simp only [borderTest, hr, hc] at hb
        omega
      simp [exRowWindow, h15])).2
    (by rw [exRowWindow_seed]; decide)

/-! ### A trace that never ends -/

theorem loopStates_closed : ∀ s ∈ loopStates,
    turnPixel (goodPixel 32 32 loopFg) s ∈ loopStates ∧
      goesOn 32 32 1 4 4 (turnPixel (goodPixel 32 32 loopFg) s).1
        (turnPixel (goodPixel 32 32 loopFg) s).2.1
        (turnPixel (goodPixel 32 32 loopFg) s).2.2 = true := by
  decide

theorem loop_never_ends : ∀ (fuel : Nat) (s : Nat × Nat × Nat), s ∈ loopStates →
    tracePixel 32 32 (goodPixel 32 32 loopFg) 1 4 4 fuel s.1 s.2.1 s.2.2 = none := by
  intro fuel
  induction fuel with
  | zero => intro s _; rfl
  | succ f ih =>
    intro s hs
    obtain ⟨hmem, hon⟩ := loopStates_closed s hs
    rw [tracePixel_succ, if_pos hon, ih _ hmem]
    rfl

theorem exLoop_fg : ∀ i j, i < exLoop.rows → j < exLoop.cols →
    foreground exLoop i j = loopFg i j := by
  intro i j _ _
  rw [Bool.eq_iff_iff]
  simp only [foreground, exLoop, loopFg, nat_beq_decide, decide_eq_true_eq,
    Bool.or_eq_true, Bool.and_eq_true]
  by_cases h : (i = 0 ∧ j = 0) ∨ (i = 0 ∧ j = 3) ∨ (i = 1 ∧ j = 1) <;> simp [h]

theorem exLoop_seed : findFirstBorder exLoop ⟨0, 3⟩ = ⟨0, 3⟩ := by decide!

/-- C26: on the 32×32 window `exLoop`, whose foreground is the three pixels (0, 0),
(0, 3) and (1, 1), the seed that `findFirstBorder` returns for the point (0, 3) is
(0, 3), the initial direction is 4, and the trace loop from this seed does not end,
whatever number of turns it is given: it walks along the first row to (0, 0) and then
goes to and fro between (0, 0) and (1, 1) for ever. -/
theorem C26_trace_never_ends :
    findFirstBorder exLoop ⟨0, 3⟩ = ⟨0, 3⟩ ∧
    traceStart exLoop (findFirstBorder exLoop ⟨0, 3⟩) = Except.ok 4 ∧
    (∀ fuel : Nat, traceLoop exLoop (findFirstBorder exLoop ⟨0, 3⟩)
      (computeFreemanChainElement exLoop (findFirstBorder exLoop ⟨0, 3⟩) 4).2 fuel
      (findFirstBorder exLoop ⟨0, 3⟩)
      (computeFreemanChainElement exLoop (findFirstBorder exLoop ⟨0, 3⟩) 4).2 default
      [findFirstBorder exLoop ⟨0, 3⟩] = none) ∧
    traceContour exLoop (findFirstBorder exLoop ⟨0, 3⟩) = Except.error Err.diverges := by
  have hp : (⟨0, 3⟩ : vpImagePoint) = ofPixel (1, 4) := by
    simp only [ofPixel, vpImagePoint.mk.injEq]; norm_num
  have hgood := goodPixel_congr exLoop.rows exLoop.cols (foreground exLoop) loopFg exLoop_fg
  have hfd : chainPixel (goodPixel 32 32 loopFg) 1 4 4 = 4 := by decide
  have hstart : traceStart exLoop (ofPixel (1, 4)) = Except.ok 4 :=
    traceStart_ofPixel exLoop 1 4 4 rfl
  refine ⟨exLoop_seed, ?_, ?_, ?_⟩
  · rw [exLoop_seed, hp]; exact hstart
  · intro fuel
    rw [exLoop_seed, hp, traceLoop_eq_End, chain_ofPixel exLoop 1 4 4 (by decide), hgood]
    show Option.map _ (traceLoopEnd exLoop (ofPixel (1, 4))
      (chainPixel (goodPixel 32 32 loopFg) 1 4 4) fuel (ofPixel (1, 4))
      (chainPixel (goodPixel 32 32 loopFg) 1 4 4) default [ofPixel (1, 4)]) = none
    rw [hfd, traceLoopEnd_ofPixel exLoop 1 4 4 fuel 1 4 4 default _ (by decide) (by decide)
      (by decide), hgood]
    show Option.map _ (Option.map _ (tracePixel 32 32 (goodPixel 32 32 loopFg) 1 4 4 fuel
      1 4 4)) = none
    rw [loop_never_ends fuel (1, 4, 4) (by decide)]
    rfl
  · rw [exLoop_seed, hp,
      traceContour_ofPixel exLoop loopFg exLoop_fg 1 4 4 (by decide) (by decide) rfl]
    show orDiverges (Option.map _ (tracePixel 32 32 (goodPixel 32 32 loopFg) 1 4
      (chainPixel (goodPixel 32 32 loopFg) 1 4 4) (8 * 32 * 32 + 2) 1 4
      (chainPixel (goodPixel 32 32 loopFg) 1 4 4))) = _
    rw [hfd, loop_never_ends _ (1, 4, 4) (by decide)]
    rfl

/-! ### One step of the chain code -/

/-- C22: for every image, point `iP` and heading `e` in 0..7,
`computeFreemanChainElement` returns true and the heading `(e + k) mod 8` for the first
`k` in the order 2, 1, 0, 7, 6, 5, 4, 3 whose neighbour qualifies, when `iP` itself
qualifies; it returns false and leaves the heading exactly when `iP` does not qualify or
none of the eight neighbours does. To qualify is `hasGoodLevel`, which for a pixel is to
be inside the image with a positive level. -/
theorem C22_chain_element_first_qualifying (I : vpImage) (iP : vpImagePoint) (e : Nat)
    (he : e < 8) :
    (computeFreemanChainElement I iP e =
      match probeOrder.find? (neighbourGood I iP e) with
      | some k => if hasGoodLevel I iP then (true, (e + k) % 8) else (false, e)
      | none => (false, e)) ∧
    ((computeFreemanChainElement I iP e).1 = false ↔
      (hasGoodLevel I iP = false ∨ ∀ k, k < 8 → neighbourGood I iP e k = false)) ∧
    ((computeFreemanChainElement I iP e).1 = false →
      (computeFreemanChainElement I iP e).2 = e) ∧
    (∀ a b : Nat, hasGoodLevel I (ofPixel (a + 1, b + 1)) =
      (decide (a < I.rows) && decide (b < I.cols) && decide (I.pix a b > 0))) := by
  have he0 : (e + 0) % 8 = e := by rw [Nat.add_zero, Nat.mod_eq_of_lt he]
  have hmain : computeFreemanChainElement I iP e =
      match probeOrder.find? (neighbourGood I iP e) with
      | some k => if hasGoodLevel I iP then (true, (e + k) % 8) else (false, e)
      | none => (false, e) := by
    unfold computeFreemanChainElement probeOrder
    simp only [List.find?, neighbourGood, he0]
    cases hasGoodLevel I iP <;>
    cases hasGoodLevel I (iP.add (computeFreemanParameters ((e + 2) % 8) default)) <;>
    cases hasGoodLevel I (iP.add (computeFreemanParameters ((e + 1) % 8) default)) <;>
    cases hasGoodLevel I (iP.add (computeFreemanParameters e default)) <;>
    cases hasGoodLevel I (iP.add (computeFreemanParameters ((e + 7) % 8) default)) <;>
    cases hasGoodLevel I (iP.add (computeFreemanParameters ((e + 6) % 8) default)) <;>
    cases hasGoodLevel I (iP.add (computeFreemanParameters ((e + 5) % 8) default)) <;>
    cases hasGoodLevel I (iP.add (computeFreemanParameters ((e + 4) % 8) default)) <;>
    cases hasGoodLevel I (iP.add (computeFreemanParameters ((e + 3) % 8) default)) <;>
    simp [Nat.mod_eq_of_lt he]
  have hnone : probeOrder.find? (neighbourGood I iP e) = none ↔
      ∀ k, k < 8 → neighbourGood I iP e k = false := by
    rw [List.find?_eq_none]
    constructor
    · intro h k hk
      have hm : k ∈ probeOrder := by
        unfold probeOrder
        interval_cases k <;> simp
      simpa using h k hm
    · intro h k hk
      have hk8 : k < 8 := by
        unfold probeOrder at hk
        simp only [List.mem_cons, List.mem_singleton, List.not_mem_nil, or_false] at hk
        omega
      simp [h k hk8]
  refine ⟨hmain, ?_, ?_, ?_⟩
  · rw [hmain]
    cases hf : probeOrder.find? (neighbourGood I iP e) with
    | none =>
      simp only [true_iff]
      exact Or.inr (hnone.mp hf)
    | some k =>
      have hk := List.find?_some hf
      have hk8 : k < 8 := by
        have hm := List.mem_of_find?_eq_some hf
        unfold probeOrder at hm
        simp only [List.mem_cons, List.mem_singleton, List.not_mem_nil, or_false] at hm
        omega
      cases hg : hasGoodLevel I iP with
      | false => simp
      | true =>
        simp only [if_true, Bool.true_eq_false, false_or, false_iff]
        intro hall
        rw [hall k hk8] at hk
        cases hk
  · rw [hmain]
    cases hf : probeOrder.find? (neighbourGood I iP e) with
    | none => intro _; rfl
    | some k =>
      cases hg : hasGoodLevel I iP with
      | false => intro _; rfl
      | true => intro h; simp at h
  · intro a b
    rw [hasGoodLevel_ofPixel, Bool.eq_iff_iff]
    simp only [goodPixel, foreground, Bool.and_eq_true, inImagePixel_iff, decide_eq_true_eq,
      Nat.pred_succ]
    constructor
    · rintro ⟨⟨_, h1, _, h2⟩, h3⟩
      exact ⟨⟨by omega, by omega⟩, h3⟩
    · rintro ⟨⟨h1, h2⟩, h3⟩
      exact ⟨⟨by omega, by omega, by omega, by omega⟩, h3⟩

/-- Witness for C22: an isolated pixel, the seed (0, 3) of `exLoop`: the call returns
false and leaves the heading 4. -/
theorem C22_chain_element_first_qualifying_witness :
    computeFreemanChainElement exLoop ⟨0, 3⟩ 4 = (false, 4) := by
  have h := (C22_chain_element_first_qualifying exLoop ⟨0, 3⟩ 4 (by decide)).1
  rw [h]
  decide!

/-! ### Order of the Suppression Pass -/

theorem suppressionPass_eq (me : vpMe) (l : vpList vpMeSite) (hne : l.elems ≠ []) :
    suppressionPass me l =
      some ⟨(nearScan me l.elems).filter isOK, ((nearScan me l.elems).filter isOK).length + 1⟩ := by
  rw [suppressionPass, supressNearPoints_eq me l hne, Option.some_bind, suppressPoints_eq]

theorem designSuppressionPass_eq (me : vpMe) (l : vpList vpMeSite)
    (hne : l.elems.filter isOK ≠ []) :
    designSuppressionPass me l =
      some ⟨(nearScan me (l.elems.filter isOK)).filter isOK,
        ((nearScan me (l.elems.filter isOK)).filter isOK).length + 1⟩ := by
  rw [designSuppressionPass, suppressPoints_eq, Option.some_bind,
    supressNearPoints_eq me _ hne, Option.some_bind, suppressPoints_eq]

/-- C21 (counterexample): with `sample_step = 1`, for the Sites at columns 10, 20 and
10.5 of row 50, the middle one with a status other than 0, the Suppression Pass of
`track` keeps the first and the third Site, which are at distance 0.5, while the two
steps in the order of the design keep only the first. -/
theorem C21_counterexample :
    (suppressionPass exMe
        ⟨[exSiteStatus 50 10 0, exSiteStatus 50 20 1, exSiteStatus 50 (21 / 2) 0], 0⟩).map
      (fun l => l.elems) = some [exSiteStatus 50 10 0, exSiteStatus 50 (21 / 2) 0] ∧
    (designSuppressionPass exMe
        ⟨[exSiteStatus 50 10 0, exSiteStatus 50 20 1, exSiteStatus 50 (21 / 2) 0], 0⟩).map
      (fun l => l.elems) = some [exSiteStatus 50 10 0] := by
  decide!

/-- C21 (amended): on a non-empty Site List the Suppression Pass of `track` is the
adjacency scan on the whole list, Sites of every status included, followed by the
removal of every Site whose status is not 0; it yields the same Sites as the two steps in
the order of the design when every Site of the list has the status 0. -/
theorem C21_suppression_scan_then_drop (me : vpMe) (l : vpList vpMeSite)
    (hne : l.elems ≠ []) :
    (∃ c, suppressionPass me l = some ⟨(nearScan me l.elems).filter isOK, c⟩) ∧
    ((∀ s ∈ l.elems, s.suppress = 0) →
      (designSuppressionPass me l).map (fun r => r.elems) =
        (suppressionPass me l).map (fun r => r.elems)) := by
  refine ⟨⟨_, suppressionPass_eq me l hne⟩, ?_⟩
  intro hok
  have hfilter : l.elems.filter isOK = l.elems := by
    rw [List.filter_eq_self]
    intro s hs
    simp [isOK, hok s hs]
  rw [suppressionPass_eq me l hne, designSuppressionPass_eq me l (by rw [hfilter]; exact hne),
    hfilter]

/-- Witness for C21 (amended): two Sites of status 0 at distance 0.5. -/
theorem C21_suppression_scan_then_drop_witness :
    (designSuppressionPass exMe ⟨[exSiteStatus 50 10 0, exSiteStatus 50 (21 / 2) 0], 0⟩).map
        (fun r => r.elems) =
      (suppressionPass exMe ⟨[exSiteStatus 50 10 0, exSiteStatus 50 (21 / 2) 0], 0⟩).map
        (fun r => r.elems) :=
  (C21_suppression_scan_then_drop exMe
    ⟨[exSiteStatus 50 10 0, exSiteStatus 50 (21 / 2) 0], 0⟩ (by simp)).2
    (fun s hs => by
      simp only [List.mem_cons, List.mem_singleton, List.not_mem_nil, or_false] at hs
      rcases hs with h | h <;> rw [h] <;> rfl)

/-! ### The factor of `saturateVelocities` -/

theorem saturateLoop_attained : ∀ (vs ms : List ℚ) (s : ℚ),
    ∃ r, vpRobot.saturateLoop vs ms s = some r ∧
      (r = s ∨ ∃ (i : Nat) (v m : ℚ), vs[i]? = some v ∧ ms[i]? = some m ∧ |m| < |v| ∧
        r = |m| / |v|) ∧
      ((∀ (i : Nat) (v m : ℚ), vs[i]? = some v → ms[i]? = some m → |v| ≤ |m|) → r = s) := by
  intro vs
  induction vs with
  | nil => intro ms s; exact ⟨s, by simp [vpRobot.saturateLoop], Or.inl rfl, fun _ => rfl⟩
  | cons v vs ih =>
    intro ms s
    cases ms with
    | nil => exact ⟨s, by simp [vpRobot.saturateLoop], Or.inl rfl, fun _ => rfl⟩
    | cons m ms =>
      simp only [vpRobot.saturateLoop]
      by_cases hgt : |v| > |m|
      · have hvpos : 0 < |v| := lt_of_le_of_lt (abs_nonneg m) hgt
        rw [if_pos hgt, if_neg hvpos.ne']
        obtain ⟨r, hr, hatt, _⟩ := ih ms (if |m| / |v| < s then |m| / |v| else s)
        refine ⟨r, hr, ?_, ?_⟩
        · rcases hatt with h | ⟨i, x, y, hx, hy, hlt, hrq⟩
          · by_cases hc : |m| / |v| < s
            · rw [if_pos hc] at h
              exact Or.inr ⟨0, v, m, by simp, by simp, hgt, h⟩
            · rw [if_neg hc] at h
              exact Or.inl h
          · exact Or.inr ⟨i + 1, x, y, by simpa using hx, by simpa using hy, hlt, hrq⟩
        · intro hall
          have := hall 0 v m (by simp) (by simp)
          exact absurd hgt (not_lt.mpr this)
      · rw [if_neg hgt]
        obtain ⟨r, hr, hatt, hnone⟩ := ih ms s
        refine ⟨r, hr, ?_, ?_⟩
        · rcases hatt with h | ⟨i, x, y, hx, hy, hlt, hrq⟩
          · exact Or.inl h
          · exact Or.inr ⟨i + 1, x, y, by simpa using hx, by simpa using hy, hlt, hrq⟩
        · intro hall
          exact hnone fun i x y hx hy => hall (i + 1) x y (by simpa using hx) (by simpa using hy)

/-- C28: for `v_in` and `v_max` of equal size the factor of `saturateVelocities` is the
largest `c` in `[0, 1]` with `|c · v_in[i]| ≤ |v_max[i]|` on every axis: it is in
`[0, 1]`, it keeps every axis within its limit, every such `c` is at most the factor; if
no axis exceeds its limit the result is `v_in`; if an axis does, some axis of the result
has exactly the magnitude of its limit. For the documented example the factor is 1/2. -/
theorem C28_saturateVelocities_largest_factor (v_in v_max : List ℚ)
    (hsize : v_in.length = v_max.length) :
    (∃ scale : ℚ,
      vpRobot.saturateVelocities v_in v_max = Except.ok (v_in.map fun v => v * scale) ∧
      0 ≤ scale ∧ scale ≤ 1 ∧
      (∀ (i : Nat) (v m : ℚ), v_in[i]? = some v → v_max[i]? = some m → |scale * v| ≤ |m|) ∧
      (∀ c : ℚ, 0 ≤ c → c ≤ 1 →
        (∀ (i : Nat) (v m : ℚ), v_in[i]? = some v → v_max[i]? = some m → |c * v| ≤ |m|) →
        c ≤ scale) ∧
      ((∀ (i : Nat) (v m : ℚ), v_in[i]? = some v → v_max[i]? = some m → |v| ≤ |m|) →
        vpRobot.saturateVelocities v_in v_max = Except.ok v_in) ∧
      ((∃ (i : Nat) (v m : ℚ), v_in[i]? = some v ∧ v_max[i]? = some m ∧ |m| < |v|) →
        ∃ (i : Nat) (v m : ℚ), v_in[i]? = some v ∧ v_max[i]? = some m ∧
          |v * scale| = |m|)) ∧
    vpRobot.saturateVelocities
        [1 / 10, 2 / 10, 3 / 10, vpMathRad 10, vpMathRad (-10), vpMathRad 20]
        [3 / 10, 3 / 10, 3 / 10, vpMathRad 10, vpMathRad 10, vpMathRad 10] =
      Except.ok ([1 / 10, 2 / 10, 3 / 10, vpMathRad 10, vpMathRad (-10), vpMathRad 20].map
        fun v => v * (1 / 2)) := by
  constructor
  · obtain ⟨r, hr, hr0, hr1, hall⟩ := saturateLoop_spec v_in v_max 1 (by norm_num) (le_refl _)
    obtain ⟨r2, hr2, hatt, hnone⟩ := saturateLoop_attained v_in v_max 1
    rw [hr] at hr2
    injection hr2 with hr2
    subst hr2
    have hsat : vpRobot.saturateVelocities v_in v_max =
        Except.ok (v_in.map fun v => v * r) := by
      simp [vpRobot.saturateVelocities, hsize, hr]
    refine ⟨r, hsat, hr0, hr1, ?_, ?_, ?_, ?_⟩
    · intro i v m hv hm
      rw [abs_mul, abs_of_nonneg hr0, mul_comm]
      exact hall i v m hv hm
    · intro c hc0 hc1 hfeas
      rcases hatt with h | ⟨i, v, m, hv, hm, hlt, hrq⟩
      · rw [h]; exact hc1
      · have hvpos : 0 < |v| := lt_of_le_of_lt (abs_nonneg m) hlt
        have := hfeas i v m hv hm
        rw [abs_mul, abs_of_nonneg hc0] at this
        rw [hrq, le_div_iff₀ hvpos]
        exact this
    · intro hle
      rw [hsat, hnone hle]
      simp
    · rintro ⟨i0, v0, m0, hv0, hm0, hlt0⟩
      rcases hatt with h | ⟨i, v, m, hv, hm, hlt, hrq⟩
      · exfalso
        have := hall i0 v0 m0 hv0 hm0
        rw [h, mul_one] at this
        exact absurd hlt0 (not_lt.mpr this)
      · have hvpos : 0 < |v| := lt_of_le_of_lt (abs_nonneg m) hlt
        refine ⟨i, v, m, hv, hm, ?_⟩
        rw [abs_mul, abs_of_nonneg hr0, hrq]
        field_simp
  · exact except_of_toOption (by decide!)

/-- Witness for C28: two axes, the second one above its limit. -/
theorem C28_saturateVelocities_largest_factor_witness :
    ∃ scale : ℚ,
      vpRobot.saturateVelocities [1, 4] [3, 2] = Except.ok ([1, 4].map fun v => v * scale) ∧
      0 ≤ scale ∧ scale ≤ 1 ∧
      (∀ c : ℚ, 0 ≤ c → c ≤ 1 →
        (∀ (i : Nat) (v m : ℚ), [(1 : ℚ), 4][i]? = some v → [(3 : ℚ), 2][i]? = some m →
          |c * v| ≤ |m|) → c ≤ scale) := by
  obtain ⟨scale, h1, h2, h3, _, h5, _⟩ :=
    (C28_saturateVelocities_largest_factor [1, 4] [3, 2] rfl).1
  exact ⟨scale, h1, h2, h3, h5⟩

/-! ### The search range after a call -/

theorem localReSample_me (ext : Ext) (I : vpImage) (st st1 : vpMeNurbs)
    (h : localReSample ext I st = some st1) : st1.me = st.me := by
  simp only [localReSample] at h
  cases hl : localReSampleLoop ext I { st.me with range := 2 } st.nurbs
      (numberOfSignal st.list) (st.list.elems.length + 1) st.list.front with
  | none => rw [hl] at h; cases h
  | some l =>
    rw [hl] at h
    simp only [Option.map_some', Option.some.injEq] at h
    rw [← h]

theorem seekExtremities_me (ext : Ext) (I : vpImage) (st st1 : vpMeNurbs)
    (h : seekExtremities ext I st = some st1) : st1.me = st.me := by
  simp only [seekExtremities] at h
  split at h
  · cases hb : seekBeginLoop ext I { st.me with range := 2 }
        (st.nurbs.computeCurveDersPoint 1).1
        (|ext.sin (ext.atan2 (st.nurbs.computeCurveDersPoint 0).2.i
            (st.nurbs.computeCurveDersPoint 0).2.j)|
          * (ext.sign (st.nurbs.computeCurveDersPoint 0).2.i : ℚ))
        (|ext.cos (ext.atan2 (st.nurbs.computeCurveDersPoint 0).2.i
            (st.nurbs.computeCurveDersPoint 0).2.j)|
          * (ext.sign (st.nurbs.computeCurveDersPoint 0).2.j : ℚ))
        st.me.sample_step (3 * st.me.sample_step) 3
        ((default : vpMeSite).init5 (st.nurbs.computeCurveDersPoint 0).1.i
          (st.nurbs.computeCurveDersPoint 0).1.j st.list.firstValue.alpha 0
          st.list.firstValue.mask_sign) st.list false with
    | none => rw [hb] at h; cases h
    | some rb =>
      rw [hb, Option.some_bind] at h
      obtain ⟨P1, list1, added1⟩ := rb
      simp only at h
      cases he : seekEndLoop ext I { st.me with range := 2 }
          (st.nurbs.computeCurveDersPoint 0).1
          (|ext.sin (ext.atan2 (st.nurbs.computeCurveDersPoint 1).2.i
              (st.nurbs.computeCurveDersPoint 1).2.j)|
            * (ext.sign (st.nurbs.computeCurveDersPoint 1).2.i : ℚ))
          (|ext.cos (ext.atan2 (st.nurbs.computeCurveDersPoint 1).2.i
              (st.nurbs.computeCurveDersPoint 1).2.j)|
            * (ext.sign (st.nurbs.computeCurveDersPoint 1).2.j : ℚ))
          st.me.sample_step (3 * st.me.sample_step) 3
          (P1.init5 (st.nurbs.computeCurveDersPoint 1).1.i
            (st.nurbs.computeCurveDersPoint 1).1.j list1.lastValue.alpha 0
            list1.lastValue.mask_sign) list1 false with
      | none => rw [he] at h; cases h
      | some re =>
        rw [he, Option.some_bind] at h
        simp only [Option.some.injEq] at h
        rw [← h]
  · cases hs : st.list.front.suppress with
    | none => rw [hs] at h; cases h
    | some l =>
      rw [hs] at h
      simp only [Option.map_some', Option.some.injEq] at h
      rw [← h]

theorem seekExtremitiesCanny_me (ext : Ext) (I : vpImage) (st st1 : vpMeNurbs)
    (h : seekExtremitiesCanny ext I st = Except.ok st1) : st1.me = st.me := by
  simp only [seekExtremitiesCanny] at h
  obtain ⟨s1, h1, h2⟩ := except_bind_ok h
  have hme1 : s1.me = st.me := by
    split at h1
    · obtain ⟨s0, h0, h1⟩ := except_bind_ok h1
      injection h1 with h1
      subst h1
      exact (recoverBegin_frame ext I st s0 h0).1
    · injection h1 with h1
      subst h1
      rfl
  split at h2
  · obtain ⟨s0, h0, h2⟩ := except_bind_ok h2
    injection h2 with h2
    subst h2
    exact ((recoverEnd_frame ext I s1 s0 h0).1).trans hme1
  · injection h2 with h2
    subst h2
    exact hme1

/-- C29: the configuration, and with it the search range, is after `localReSample`,
after `seekExtremities` (open or closed branch) and after `seekExtremitiesCanny`
(recovery performed or not) what it was on entry, whenever the call returns; the
external tracker only returns a Site and has no access to the configuration. -/
theorem C29_search_range_restored (ext : Ext) (I : vpImage) (st st1 : vpMeNurbs) :
    (localReSample ext I st = some st1 → st1.me = st.me ∧ st1.me.range = st.me.range) ∧
    (seekExtremities ext I st = some st1 → st1.me = st.me ∧ st1.me.range = st.me.range) ∧
    (seekExtremitiesCanny ext I st = Except.ok st1 →
      st1.me = st.me ∧ st1.me.range = st.me.range) :=
  ⟨fun h => ⟨localReSample_me ext I st st1 h, by rw [localReSample_me ext I st st1 h]⟩,
   fun h => ⟨seekExtremities_me ext I st st1 h, by rw [seekExtremities_me ext I st st1 h]⟩,
   fun h => ⟨seekExtremitiesCanny_me ext I st st1 h,
     by rw [seekExtremitiesCanny_me ext I st st1 h]⟩⟩

/-- Witness for C29: the recovery of the begin end on the example state returns, and the
search range is still 4. -/
theorem C29_search_range_restored_witness :
    ({ exState [exSite 50 100, exSite 50 105] (exLine 100 5) 5 3 0 with
        beginPtFound := 0 } : vpMeNurbs).me.range = 4 :=
  ((C29_search_range_restored exExt exImage
    (exState [exSite 50 100, exSite 50 105] (exLine 100 5) 5 3 0)
    { exState [exSite 50 100, exSite 50 105] (exLine 100 5) 5 3 0 with
        beginPtFound := 0 }).2.2 exCannyRun).2

/-! ### Where the Extremity Extender inserts -/

theorem sqrDistance_comm (a b : vpMeSite) :
    vpMeSite.sqrDistance a b = vpMeSite.sqrDistance b a := by
  simp only [vpMeSite.sqrDistance]; ring

theorem farApart_symm (me : vpMe) : Symmetric (farApart me) := by
  intro a b h
  simp only [farApart] at h ⊢
  rw [sqrDistance_comm]; exact h

theorem existLoop_spec (me : vpMe) (pix : vpMeSite) :
    ∀ (post pre : List vpMeSite) (fuel : Nat) (e : Bool), post.length + 1 ≤ fuel →
      existLoop me pix fuel ⟨pre ++ post, pre.length + 1⟩ e =
        some (e || post.any fun a => decide (vpMeSite.sqrDistance pix a < sqr me.sample_step)) := by
  intro post
  induction post with
  | nil =>
    intro pre fuel e hf
    obtain ⟨f, rfl⟩ : ∃ f, fuel = f + 1 := ⟨fuel - 1, by omega⟩
    simp [existLoop, vpList.outside]
  | cons a post ih =>
    intro pre fuel e hf
    obtain ⟨f, rfl⟩ : ∃ f, fuel = f + 1 := ⟨fuel - 1, by simp at hf; omega⟩
    have hval : (⟨pre ++ a :: post, pre.length + 1⟩ : vpList vpMeSite).value = a :=
      zip_value pre a post
    have hout : (⟨pre ++ a :: post, pre.length + 1⟩ : vpList vpMeSite).outside = false :=
      zip_outside pre a post
    have hnext : (⟨pre ++ a :: post, pre.length + 1⟩ : vpList vpMeSite).next =
        some ⟨(pre ++ [a]) ++ post, (pre ++ [a]).length + 1⟩ := by
      simp [vpList.next]
    rw [existLoop]
    simp only [hout, Bool.not_false, if_true, hval, hnext, Option.some_bind]
    rw [ih (pre ++ [a]) f _ (by simp at hf; omega)]
    by_cases hd : vpMeSite.sqrDistance pix a < sqr me.sample_step
    · simp [hd]
    · simp [hd]

theorem sqrDistance_init4_left (a : vpMeSite) (x y al d c : ℚ) :
    vpMeSite.sqrDistance (((default : vpMeSite).init3 x y al).init4 x y d c) a =
      vpMeSite.sqrDistance ((default : vpMeSite).init3 x y al) a := by
  simp [vpMeSite.sqrDistance, vpMeSite.init3, vpMeSite.init4]

theorem perm_insert {α : Type} (l : List α) (c : Nat) (v : α) :
    (l.take c ++ v :: l.drop c).Perm (l ++ [v]) := by
  have h1 : (l.take c ++ v :: l.drop c).Perm (v :: (l.take c ++ l.drop c)) :=
    List.perm_middle
  rw [List.take_append_drop] at h1
  exact h1.trans (List.perm_append_singleton v l).symm

theorem pairwise_far_insert (me : vpMe) (l : List vpMeSite) (v : vpMeSite)
    (hl : List.Pairwise (farApart me) l) (hv : ∀ a ∈ l, farApart me a v) :
    List.Pairwise (farApart me) (l ++ [v]) := by
  rw [List.pairwise_append]
  refine ⟨hl, List.pairwise_singleton _ _, ?_⟩
  intro a ha b hb
  rw [List.mem_singleton.mp hb]
  exact hv a ha

/-- The insertion loop of the begin end: the inserted Sites `ins` go to the head of the
list, the last one first; they are the points added to `addedPt`, which stay pairwise at
distance at least `sample_step`; the first one is at that distance from the Site that
was under the cursor. -/
theorem insertLoopBegin_spec (I : vpImage) (me : vpMe) (topLeft : vpImagePoint) :
    ∀ (pts : List vpImagePoint) (st st1 : InsertState),
      insertLoopBegin I me topLeft pts st = Except.ok st1 →
      st.list.cur = 1 → List.Pairwise (farApart me) st.addedPt.elems →
      ∃ ins : List vpMeSite,
        st1.list.elems = ins.reverse ++ st.list.elems ∧ st1.list.cur = 1 ∧
        (st1.addedPt.elems).Perm (st.addedPt.elems ++ ins) ∧
        List.Pairwise (farApart me) st1.addedPt.elems ∧
        (∀ x, ins.head? = some x → farApart me st.list.value x) := by
  intro pts
  induction pts with
  | nil =>
    intro st st1 h hc hp
    simp only [insertLoopBegin] at h
    injection h with h
    subst h
    exact ⟨[], by simp, hc, by simp, hp, by simp⟩
  | cons p rest ih =>
    intro st st1 h hc hp
    simp only [insertLoopBegin] at h
    split at h
    · rename_i hfar
      have hex : existLoop me
          ((default : vpMeSite).init3 (p.add topLeft).i (p.add topLeft).j st.delta)
          (st.addedPt.elems.length + 1) st.addedPt.front false =
          some (false || st.addedPt.elems.any fun a => decide (vpMeSite.sqrDistance
            ((default : vpMeSite).init3 (p.add topLeft).i (p.add topLeft).j st.delta) a <
              sqr me.sample_step)) :=
        existLoop_spec me
          ((default : vpMeSite).init3 (p.add topLeft).i (p.add topLeft).j st.delta)
          st.addedPt.elems [] (st.addedPt.elems.length + 1) false (le_refl _)
      rw [hex] at h
      simp only [orUndefined, Except.bind, Bool.false_or] at h
      split at h
      · rename_i hnot
        simp only [Bool.not_eq_true', List.any_eq_false, decide_eq_true_eq, not_lt] at hnot
        obtain ⟨⟨delta, convlt⟩, _, h⟩ := except_bind_ok h
        simp only at h
        have hadd : st.list.addLeft
            (((default : vpMeSite).init3 (p.add topLeft).i (p.add topLeft).j st.delta).init4
              (p.add topLeft).i (p.add topLeft).j delta convlt) =
            some ⟨(((default : vpMeSite).init3 (p.add topLeft).i (p.add topLeft).j
              st.delta).init4 (p.add topLeft).i (p.add topLeft).j delta convlt) ::
              st.list.elems, 1⟩ := by
          simp [vpList.addLeft, hc]
        rw [hadd] at h
        simp only [orUndefined, Except.bind] at h
        have hadd2 : ∃ c2, st.addedPt.front.addRight
            (((default : vpMeSite).init3 (p.add topLeft).i (p.add topLeft).j st.delta).init4
              (p.add topLeft).i (p.add topLeft).j delta convlt) =
            some ⟨st.addedPt.elems.take c2 ++
              (((default : vpMeSite).init3 (p.add topLeft).i (p.add topLeft).j
                st.delta).init4 (p.add topLeft).i (p.add topLeft).j delta convlt) ::
              st.addedPt.elems.drop c2, c2 + 1⟩ := by
          cases hel : st.addedPt.elems with
          | nil => exact ⟨0, by simp [vpList.addRight, vpList.front, hel]⟩
          | cons a l => exact ⟨1, by simp [vpList.addRight, vpList.front, hel]⟩
        obtain ⟨c2, hadd2⟩ := hadd2
        rw [hadd2] at h
        simp only at h
        have hv : ∀ a ∈ st.addedPt.elems, farApart me a
            (((default : vpMeSite).init3 (p.add topLeft).i (p.add topLeft).j st.delta).init4
              (p.add topLeft).i (p.add topLeft).j delta convlt) := by
          intro a ha
          have := hnot a ha
          simp only [farApart]
          rw [sqrDistance_comm, sqrDistance_init4_left]
          exact this
        have hperm := perm_insert st.addedPt.elems c2
          (((default : vpMeSite).init3 (p.add topLeft).i (p.add topLeft).j st.delta).init4
              (p.add topLeft).i (p.add topLeft).j delta convlt)
        obtain ⟨ins1, h1, h2, h3, h4, _⟩ := ih _ st1 h rfl
          ((List.Perm.pairwise_iff (fun hxy => farApart_symm me hxy) hperm).mpr
            (pairwise_far_insert me _ _ hp hv))
        refine ⟨(((default : vpMeSite).init3 (p.add topLeft).i (p.add topLeft).j
          st.delta).init4 (p.add topLeft).i (p.add topLeft).j delta convlt) :: ins1,
          ?_, h2, ?_, h4, ?_⟩
        · rw [h1]; simp
        · refine h3.trans ?_
          have := List.Perm.append_right ins1 hperm
          simpa using this
        · intro x hx
          simp only [List.head?_cons, Option.some.injEq] at hx
          subst hx
          simp only [farApart]
          rw [sqrDistance_comm, sqrDistance_init4_left, sqrDistance_comm]
          exact hfar
      · have h5 := ih _ st1 h
        exact h5 hc hp
    · have h5 := ih _ st1 h
      exact h5 hc hp

/-- The insertion loop of the end end: the inserted Sites `ins` go to the tail of the
list in the order of insertion; they are the points added to `addedPt`, which stay
pairwise at distance at least `sample_step`; the first one is at that distance from the
Site that was under the cursor. -/
theorem insertLoopEnd_spec (I : vpImage) (me : vpMe) (topLeft : vpImagePoint) :
    ∀ (pts : List vpImagePoint) (st st1 : InsertState),
      insertLoopEnd I me topLeft pts st = Except.ok st1 →
      st.list.cur = st.list.elems.length →
      List.Pairwise (farApart me) st.addedPt.elems →
      ∃ ins : List vpMeSite,
        st1.list.elems = st.list.elems ++ ins ∧ st1.list.cur = st1.list.elems.length ∧
        (st1.addedPt.elems).Perm (st.addedPt.elems ++ ins) ∧
        List.Pairwise (farApart me) st1.addedPt.elems ∧
        (∀ x, ins.head? = some x → farApart me st.list.value x) := by
  intro pts
  induction pts with
  | nil =>
    intro st st1 h hc hp
    simp only [insertLoopEnd] at h
    injection h with h
    subst h
    exact ⟨[], by simp, hc, by simp, hp, by simp⟩
  | cons p rest ih =>
    intro st st1 h hc hp
    simp only [insertLoopEnd] at h
    split at h
    · rename_i hfar
      have hex : existLoop me
          ((default : vpMeSite).init3 (p.add topLeft).i (p.add topLeft).j 0)
          (st.addedPt.elems.length + 1) st.addedPt.front false =
          some (false || st.addedPt.elems.any fun a => decide (vpMeSite.sqrDistance
            ((default : vpMeSite).init3 (p.add topLeft).i (p.add topLeft).j 0) a <
              sqr me.sample_step)) :=
        existLoop_spec me
          ((default : vpMeSite).init3 (p.add topLeft).i (p.add topLeft).j 0)
          st.addedPt.elems [] (st.addedPt.elems.length + 1) false (le_refl _)
      rw [hex] at h
      simp only [orUndefined, Except.bind, Bool.false_or] at h
      split at h
      · rename_i hnot
        simp only [Bool.not_eq_true', List.any_eq_false, decide_eq_true_eq, not_lt] at hnot
        obtain ⟨⟨delta, convlt⟩, _, h⟩ := except_bind_ok h
        simp only at h
        have hadd : st.list.addRight
            (((default : vpMeSite).init3 (p.add topLeft).i (p.add topLeft).j 0).init4
              (p.add topLeft).i (p.add topLeft).j delta convlt) =
            some ⟨st.list.elems ++ [(((default : vpMeSite).init3 (p.add topLeft).i
              (p.add topLeft).j 0).init4 (p.add topLeft).i (p.add topLeft).j delta convlt)],
              st.list.elems.length + 1⟩ := by
          have h0 := end_addRight st.list
            (((default : vpMeSite).init3 (p.add topLeft).i (p.add topLeft).j 0).init4
              (p.add topLeft).i (p.add topLeft).j delta convlt)
          have h1 : st.list.end_ = st.list := by
            cases hl : st.list with
            | mk el c =>
              rw [hl] at hc
              simp only at hc
              simp [vpList.end_, hc]
          rw [h1] at h0
          exact h0
        rw [hadd, end_addRight] at h
        simp only [orUndefined, Except.bind] at h
        have hv : ∀ a ∈ st.addedPt.elems, farApart me a
            (((default : vpMeSite).init3 (p.add topLeft).i (p.add topLeft).j 0).init4
              (p.add topLeft).i (p.add topLeft).j delta convlt) := by
          intro a ha
          have := hnot a ha
          simp only [farApart]
          rw [sqrDistance_comm, sqrDistance_init4_left]
          exact this
        have h5 := ih _ st1 h
        obtain ⟨ins1, h1, h2, h3, h4, _⟩ := h5 (by simp)
          (pairwise_far_insert me _ _ hp hv)
        refine ⟨(((default : vpMeSite).init3 (p.add topLeft).i (p.add topLeft).j
          0).init4 (p.add topLeft).i (p.add topLeft).j delta convlt) :: ins1,
          ?_, h2, ?_, h4, ?_⟩
        · rw [h1]; simp
        · refine h3.trans ?_
          simp
        · intro x hx
          simp only [List.head?_cons, Option.some.injEq] at hx
          subst hx
          simp only [farApart]
          rw [sqrDistance_comm, sqrDistance_init4_left, sqrDistance_comm]
          exact hfar
      · have h5 := ih _ st1 h
        exact h5 hc hp
    · have h5 := ih _ st1 h
      exact h5 hc hp

theorem except_ok_of_map {ε α β : Type} {x : Except ε α} {f : α → β} {b : β}
    (h : x.toOption.map f = some b) : ∃ a, x = Except.ok a := by
  cases x with
  | error e => cases h
  | ok a => exact ⟨a, rfl⟩

/-- The run of the insertion loop of the begin end with `sample_step = 1`, window corner
(50, 50) and the traced point (0, 5) on the list of the Sites at (40, 55) and (50.5, 55):
one Site is inserted, at (50, 55), before the two. -/
theorem exInsert_run :
    ((insertLoopBegin exImage exMe ⟨50, 50⟩ [⟨0, 5⟩]
        (insertStart (vpList.front ⟨[exSite 40 55, exSite (101 / 2) 55], 0⟩)
          0)).toOption.map
      fun st => (st.nbr, st.list.elems.map fun s => (s.ifloat, s.jfloat))) =
      some (1, [(50, 55), (40, 55), (101 / 2, 55)]) := by
  decide!

/-- C24 (counterexample): with `sample_step = 1`, window corner (50, 50) and the traced
point (0, 5), the insertion loop of the begin end run on the Site List with a Site at
(40, 55) under the cursor and a second Site at (50.5, 55) inserts a Site at (50, 55):
it is at squared distance 1/4 < 1 from the second Site of the list. -/
theorem C24_counterexample :
    ((insertLoopBegin exImage exMe ⟨50, 50⟩ [⟨0, 5⟩]
        (insertStart (vpList.front ⟨[exSite 40 55, exSite (101 / 2) 55], 0⟩)
          0)).toOption.map
      fun st => (st.nbr, st.list.elems.map fun s => (s.ifloat, s.jfloat))) =
      some (1, [(50, 55), (40, 55), (101 / 2, 55)]) ∧
    vpMeSite.sqrDistance (exSite 50 55) (exSite (101 / 2) 55) = 1 / 4 ∧
    sqr exMe.sample_step = 1 :=
  ⟨exInsert_run, by decide!, by decide!⟩

/-- C24 (amended): in the insertion loops of Contour Recovery, started with the cursor
of the Site List on its first Site (begin end) or on its last Site (end end) and no added
point, the inserted Sites `ins` are put at that end of the list, they are pairwise at
squared distance at least `sample_step²`, and the first of them is at that distance from
the Site that was at that end of the list; the other Sites of the list are not tested. -/
theorem C24_inserted_points_pairwise_far (I : vpImage) (me : vpMe)
    (topLeft : vpImagePoint) (pts : List vpImagePoint) (list : vpList vpMeSite) (d : ℚ)
    (st1 : InsertState) :
    (insertLoopBegin I me topLeft pts (insertStart list.front d) = Except.ok st1 →
      ∃ ins : List vpMeSite, st1.list.elems = ins.reverse ++ list.elems ∧
        (st1.addedPt.elems).Perm ins ∧ List.Pairwise (farApart me) ins ∧
        (∀ x, ins.head? = some x → farApart me list.firstValue x)) ∧
    (insertLoopEnd I me topLeft pts (insertStart list.end_ d) = Except.ok st1 →
      ∃ ins : List vpMeSite, st1.list.elems = list.elems ++ ins ∧
        (st1.addedPt.elems).Perm ins ∧ List.Pairwise (farApart me) ins ∧
        (∀ x, ins.head? = some x → farApart me list.lastValue x)) := by
  constructor
  · intro h
    obtain ⟨ins, h1, _, h3, h4, h5⟩ := insertLoopBegin_spec I me topLeft pts _ st1 h rfl
      List.Pairwise.nil
    have h3 : (st1.addedPt.elems).Perm ins := by simpa [insertStart] using h3
    exact ⟨ins, h1, h3,
      (List.Perm.pairwise_iff (fun hxy => farApart_symm me hxy) h3).mp h4, h5⟩
  · intro h
    obtain ⟨ins, h1, _, h3, h4, h5⟩ := insertLoopEnd_spec I me topLeft pts _ st1 h rfl
      List.Pairwise.nil
    have h3 : (st1.addedPt.elems).Perm ins := by simpa [insertStart] using h3
    exact ⟨ins, h1, h3,
      (List.Perm.pairwise_iff (fun hxy => farApart_symm me hxy) h3).mp h4, h5⟩

theorem C24_inserted_points_pairwise_far_witness :
    ∃ (st1 : InsertState) (ins : List vpMeSite),
      insertLoopBegin exImage exMe ⟨50, 50⟩ [⟨0, 5⟩]
        (insertStart (vpList.front ⟨[exSite 40 55, exSite (101 / 2) 55], 0⟩) 0) =
          Except.ok st1 ∧
      st1.list.elems = ins.reverse ++ [exSite 40 55, exSite (101 / 2) 55] ∧
      List.Pairwise (farApart exMe) ins := by
  obtain ⟨st1, h⟩ := except_ok_of_map exInsert_run
  obtain ⟨ins, h1, _, h3, _⟩ := (C24_inserted_points_pairwise_far exImage exMe ⟨50, 50⟩
    [⟨0, 5⟩] ⟨[exSite 40 55, exSite (101 / 2) 55], 0⟩ 0 st1).1 h
  exact ⟨st1, ins, h, h1, h3⟩

end VpMeNurbs
